import Mathlib

set_option maxRecDepth 100000
set_option maxHeartbeats 1000000

/-
  Shallow embedding of the go-chess rules engine (package engine: board.go,
  game code) and the heuristic move-selection engine (package ai: engine.go).

  Conventions:
  * Go `int` is modelled as `Int`; Go integer division/remainder truncate
    toward zero, modelled by `Int.tdiv` / `Int.tmod`.
  * The Go methods mutate their receiver; here every mutating method takes the
    receiver and returns the updated receiver (paired with the returned error
    where the Go function returns one, so that the state on the error path is
    observable).
  * The engine's `isInCheck` is mutually recursive with castling-move
    generation through `generateCastlingMoves -> canCastleKingside ->
    isInCheck` and does not terminate on some positions (both sides holding
    rights with cleared castling lanes).  The recursion is therefore modelled
    with an explicit fuel parameter; fuel exhaustion returns `false`/`[]`.
    All theorems quantify over the fuel or use a fuel large enough for the
    concrete positions involved.
-/

/-- Color of a piece or player (board.go).  `NoneC` models Go's `None`. -/
inductive Color where
  | NoneC
  | White
  | Black
deriving DecidableEq, Repr

/-- Piece kind (board.go). -/
inductive PieceType where
  | Empty
  | Pawn
  | Rook
  | Knight
  | Bishop
  | Queen
  | King
deriving DecidableEq, Repr

/-- A piece: kind plus color (board.go `Piece`). -/
structure Piece where
  type : PieceType
  color : Color
deriving DecidableEq, Repr

/-- The zero value of Go's `Piece` struct: `{Type: Empty, Color: None}`. -/
def emptyPiece : Piece := ⟨PieceType.Empty, Color.NoneC⟩

/-- `Piece.IsEmpty` from board.go. -/
def Piece.IsEmpty (p : Piece) : Bool := p.type = PieceType.Empty

/-- Squares are Go ints, 0..63 on the board; negative values (e.g. -1) are
used as sentinels exactly as in the source. -/
abbrev Square := Int

/-- `Square.File` (board.go): `s % 8` with Go's truncated remainder. -/
def fileOf (s : Square) : Int := Int.tmod s 8

/-- `Square.Rank` (board.go): `s / 8` with Go's truncated division. -/
def rankOf (s : Square) : Int := Int.tdiv s 8

-- Named squares used by the source (board.go square constants).
def A1 : Square := 0
def B1 : Square := 1
def C1 : Square := 2
def D1 : Square := 3
def E1 : Square := 4
def F1 : Square := 5
def G1 : Square := 6
def H1 : Square := 7
def A8 : Square := 56
def B8 : Square := 57
def C8 : Square := 58
def D8 : Square := 59
def E8 : Square := 60
def F8 : Square := 61
def G8 : Square := 62
def H8 : Square := 63

/-- The 64-cell board (board.go `Board`), as the ordered list of its 64
squares, index = rank*8 + file. -/
structure Board where
  squares : List Piece
deriving DecidableEq, Repr

/-- `Board.GetPiece` (board.go): empty piece for out-of-range input. -/
def Board.GetPiece (b : Board) (sq : Square) : Piece :=
  if sq < 0 ∨ sq > 63 then emptyPiece else b.squares.getD sq.toNat emptyPiece

/-- `Board.SetPiece` (board.go): no-op if out of range. -/
def Board.SetPiece (b : Board) (sq : Square) (piece : Piece) : Board :=
  if sq < 0 ∨ sq > 63 then b else ⟨b.squares.set sq.toNat piece⟩

/-- `Board.Copy` (board.go): deep copy; the identity on the value level. -/
def Board.Copy (b : Board) : Board := ⟨b.squares⟩

/-- `SetupStartingPosition` (board.go): the standard 32-piece layout, built by
clearing the board and placing each piece as the source does (the two pawn
`for` loops are unrolled over their eight indices). -/
def Board.SetupStartingPosition (_b : Board) : Board :=
  let b : Board := ⟨List.replicate 64 emptyPiece⟩
  let b := b.SetPiece A1 ⟨PieceType.Rook, Color.White⟩
  let b := b.SetPiece B1 ⟨PieceType.Knight, Color.White⟩
  let b := b.SetPiece C1 ⟨PieceType.Bishop, Color.White⟩
  let b := b.SetPiece D1 ⟨PieceType.Queen, Color.White⟩
  let b := b.SetPiece E1 ⟨PieceType.King, Color.White⟩
  let b := b.SetPiece F1 ⟨PieceType.Bishop, Color.White⟩
  let b := b.SetPiece G1 ⟨PieceType.Knight, Color.White⟩
  let b := b.SetPiece H1 ⟨PieceType.Rook, Color.White⟩
  let b := ([8, 9, 10, 11, 12, 13, 14, 15] : List Int).foldl
    (fun b i => b.SetPiece i ⟨PieceType.Pawn, Color.White⟩) b
  let b := b.SetPiece A8 ⟨PieceType.Rook, Color.Black⟩
  let b := b.SetPiece B8 ⟨PieceType.Knight, Color.Black⟩
  let b := b.SetPiece C8 ⟨PieceType.Bishop, Color.Black⟩
  let b := b.SetPiece D8 ⟨PieceType.Queen, Color.Black⟩
  let b := b.SetPiece E8 ⟨PieceType.King, Color.Black⟩
  let b := b.SetPiece F8 ⟨PieceType.Bishop, Color.Black⟩
  let b := b.SetPiece G8 ⟨PieceType.Knight, Color.Black⟩
  let b := b.SetPiece H8 ⟨PieceType.Rook, Color.Black⟩
  ([48, 49, 50, 51, 52, 53, 54, 55] : List Int).foldl
    (fun b i => b.SetPiece i ⟨PieceType.Pawn, Color.Black⟩) b

/-- `NewBoard` (board.go). -/
def NewBoard : Board := Board.SetupStartingPosition ⟨[]⟩

/-- Kind of a move (game code `MoveType`). -/
inductive MoveType where
  | Normal
  | Capture
  | Castling
  | EnPassant
  | Promotion
deriving DecidableEq, Repr

/-- A move (game code `Move`). -/
structure Move where
  From : Square
  To : Square
  type : MoveType
  piece : Piece
  captured : Piece
  promotion : PieceType
deriving DecidableEq, Repr

/-- Game outcome enumeration (game code `GameStatus`). -/
inductive GameStatus where
  | InProgress
  | Check
  | WhiteWins
  | BlackWins
  | Draw
deriving DecidableEq, Repr

/-- Castling rights for both players (game code `CastlingRights`). -/
structure CastlingRights where
  WhiteKingside : Bool
  WhiteQueenside : Bool
  BlackKingside : Bool
  BlackQueenside : Bool
deriving DecidableEq, Repr

/-- The aggregate game state (game code `Game`). -/
structure Game where
  board : Board
  activeColor : Color
  castlingRights : CastlingRights
  enPassantSquare : Square
  halfMoveClock : Int
  moveCount : Int
  moveHistory : List Move
  status : GameStatus
  startedFromFEN : Bool
  startingFEN : String
deriving DecidableEq, Repr

/-- `NewGame` (game code): standard start position. -/
def NewGame : Game where
  board := NewBoard
  activeColor := Color.White
  castlingRights := ⟨true, true, true, true⟩
  enPassantSquare := -1
  halfMoveClock := 0
  moveCount := 1
  moveHistory := []
  status := GameStatus.InProgress
  startedFromFEN := false
  startingFEN := ""

/-- `Game.copy` (game code): builds a fresh `Game` listing every field except
`startedFromFEN`/`startingFEN`, which therefore take Go zero values. -/
def Game.copy (g : Game) : Game where
  board := g.board.Copy
  activeColor := g.activeColor
  castlingRights := g.castlingRights
  enPassantSquare := g.enPassantSquare
  halfMoveClock := g.halfMoveClock
  moveCount := g.moveCount
  moveHistory := g.moveHistory
  status := g.status
  startedFromFEN := false
  startingFEN := ""

/-- Helper `abs` from the game code. -/
def iabs (x : Int) : Int := if x < 0 then -x else x

/-- Helper `sign` from the game code. -/
def isign (x : Int) : Int := if x > 0 then 1 else if x < 0 then -1 else 0

/-- `isPathClear` (game code): walks from `from` toward `to` one step at a
time.  The Go loop `for current != to` does not terminate when the two squares
are not aligned with the step (the walk leaves the board and never returns);
the walk counter `fuel` models this, 8 steps sufficing for every aligned
pair. -/
def isPathClearAux (b : Board) (toSq : Square) (step : Int) : Nat → Square → Bool
  | 0, _ => false
  | fuel + 1, current =>
    if current = toSq then true
    else if ¬(b.GetPiece current).IsEmpty then false
    else isPathClearAux b toSq step fuel (current + step)

def isPathClear (g : Game) (fromSq toSq : Square) : Bool :=
  let fileDiff := fileOf toSq - fileOf fromSq
  let rankDiff := rankOf toSq - rankOf fromSq
  let fileStep := isign fileDiff
  let rankStep := isign rankDiff
  isPathClearAux g.board toSq (fileStep + rankStep * 8) 8 (fromSq + fileStep + rankStep * 8)

/-- `isPawnMoveLegal` (game code). -/
def isPawnMoveLegal (g : Game) (move : Move) : Bool :=
  let direction : Int := if move.piece.color = Color.Black then -1 else 1
  let fromRank := rankOf move.From
  let toRank := rankOf move.To
  let fileDiff := iabs (fileOf move.To - fileOf move.From)
  let forward : Bool :=
    if fileDiff = 0 then
      if toRank - fromRank = direction ∧ (g.board.GetPiece move.To).IsEmpty then true
      else if (fromRank = 1 ∧ move.piece.color = Color.White) ∨
              (fromRank = 6 ∧ move.piece.color = Color.Black) then
        toRank - fromRank = 2 * direction ∧ (g.board.GetPiece move.To).IsEmpty
      else false
    else false
  if forward then true
  else if fileDiff = 1 ∧ toRank - fromRank = direction then
    let target := g.board.GetPiece move.To
    if ¬target.IsEmpty ∧ target.color ≠ move.piece.color then true
    else move.type = MoveType.EnPassant ∧ move.To = g.enPassantSquare
  else false

/-- `isRookMoveLegal` (game code). -/
def isRookMoveLegal (g : Game) (move : Move) : Bool :=
  isPathClear g move.From move.To &&
    (rankOf move.From = rankOf move.To ∨ fileOf move.From = fileOf move.To)

/-- `isKnightMoveLegal` (game code). -/
def isKnightMoveLegal (_g : Game) (move : Move) : Bool :=
  let fileDiff := iabs (fileOf move.To - fileOf move.From)
  let rankDiff := iabs (rankOf move.To - rankOf move.From)
  (fileDiff = 2 ∧ rankDiff = 1) ∨ (fileDiff = 1 ∧ rankDiff = 2)

/-- `isBishopMoveLegal` (game code). -/
def isBishopMoveLegal (g : Game) (move : Move) : Bool :=
  let fileDiff := iabs (fileOf move.To - fileOf move.From)
  let rankDiff := iabs (rankOf move.To - rankOf move.From)
  (fileDiff = rankDiff : Bool) && isPathClear g move.From move.To

/-- `isQueenMoveLegal` (game code). -/
def isQueenMoveLegal (g : Game) (move : Move) : Bool :=
  isRookMoveLegal g move || isBishopMoveLegal g move

/-- `executeCastling` (game code): moves the king, then the rook; the rook
squares are chosen by `g.activeColor`. -/
def executeCastling (g : Game) (move : Move) : Game :=
  let b := (g.board.SetPiece move.To move.piece).SetPiece move.From emptyPiece
  let rookFromTo : Square × Square :=
    if fileOf move.To > fileOf move.From then
      if g.activeColor = Color.White then (H1, F1) else (H8, F8)
    else
      if g.activeColor = Color.White then (A1, D1) else (A8, D8)
  let rook := b.GetPiece rookFromTo.1
  let b := (b.SetPiece rookFromTo.2 rook).SetPiece rookFromTo.1 emptyPiece
  { g with board := b }

/-- `executeEnPassant` (game code): moves the pawn and removes the captured
pawn one rank behind the destination (by `g.activeColor`). -/
def executeEnPassant (g : Game) (move : Move) : Game :=
  let b := (g.board.SetPiece move.To move.piece).SetPiece move.From emptyPiece
  let capturedSquare : Square :=
    if g.activeColor = Color.White then move.To - 8 else move.To + 8
  { g with board := b.SetPiece capturedSquare emptyPiece }

/-- `updateCastlingRights` (game code): king moves clear both rights of the
mover's color; rook moves from a corner clear that side's right; `Capture`
moves whose recorded captured piece is a rook on a corner clear that side's
right. -/
def updateCastlingRights (g : Game) (move : Move) : Game :=
  let r := g.castlingRights
  let r :=
    if move.piece.type = PieceType.King then
      if move.piece.color = Color.White then
        { r with WhiteKingside := false, WhiteQueenside := false }
      else
        { r with BlackKingside := false, BlackQueenside := false }
    else r
  let r :=
    if move.piece.type = PieceType.Rook then
      if move.From = H1 then { r with WhiteKingside := false }
      else if move.From = A1 then { r with WhiteQueenside := false }
      else if move.From = H8 then { r with BlackKingside := false }
      else if move.From = A8 then { r with BlackQueenside := false }
      else r
    else r
  let r :=
    if move.type = MoveType.Capture ∧ move.captured.type = PieceType.Rook then
      if move.To = H1 then { r with WhiteKingside := false }
      else if move.To = A1 then { r with WhiteQueenside := false }
      else if move.To = H8 then { r with BlackKingside := false }
      else if move.To = A8 then { r with BlackQueenside := false }
      else r
    else r
  { g with castlingRights := r }

/-- `updateEnPassantSquare` (game code): reset, then set to the passed-over
square after a pawn double step. -/
def updateEnPassantSquare (g : Game) (move : Move) : Game :=
  if move.piece.type = PieceType.Pawn ∧ iabs (rankOf move.To - rankOf move.From) = 2 then
    { g with enPassantSquare := Int.tdiv (move.From + move.To) 2 }
  else
    { g with enPassantSquare := -1 }

/-- `updateHalfMoveClock` (game code). -/
def updateHalfMoveClock (g : Game) (move : Move) : Game :=
  if move.piece.type = PieceType.Pawn ∨ move.type = MoveType.Capture then
    { g with halfMoveClock := 0 }
  else
    { g with halfMoveClock := g.halfMoveClock + 1 }

/-- `makeMoveWithoutStatusUpdate` (game code): executes a move with no
validation or status update; used on copies for check simulation.  Note the
`Castling` branch returns before the en-passant/clock updates and the
`EnPassant` branch returns before every update (as in the source). -/
def makeMoveWithoutStatusUpdate (g : Game) (move : Move) : Game :=
  if move.type = MoveType.Castling then
    updateCastlingRights (executeCastling g move) move
  else if move.type = MoveType.EnPassant then
    executeEnPassant g move
  else
    let b := (g.board.SetPiece move.To move.piece).SetPiece move.From emptyPiece
    let b :=
      if move.type = MoveType.Promotion then
        b.SetPiece move.To ⟨move.promotion, move.piece.color⟩
      else b
    let g := { g with board := b }
    let g := updateCastlingRights g move
    let g := updateEnPassantSquare g move
    let g := updateHalfMoveClock g move
    { g with activeColor := if g.activeColor = Color.White then Color.Black else Color.White }

/-- `makeMove` (game code): executes a move without validation.  The
`Castling` branch also runs the standard en-passant/clock updates; the
`EnPassant` branch returns immediately after `executeEnPassant` (as in the
source: no castling-rights, en-passant or clock update happens there). -/
def makeMove (g : Game) (move : Move) : Game :=
  if move.type = MoveType.Castling then
    let g := updateCastlingRights (executeCastling g move) move
    let g := updateEnPassantSquare g move
    updateHalfMoveClock g move
  else if move.type = MoveType.EnPassant then
    executeEnPassant g move
  else
    let b := (g.board.SetPiece move.To move.piece).SetPiece move.From emptyPiece
    let b :=
      if move.type = MoveType.Promotion then
        b.SetPiece move.To ⟨move.promotion, move.piece.color⟩
      else b
    let g := { g with board := b }
    let g := updateCastlingRights g move
    let g := updateEnPassantSquare g move
    updateHalfMoveClock g move

/-- `parseCastlingMove` (game code): builds the castling move for
`g.activeColor`, requiring that color's king on its home square. -/
def parseCastlingMove (g : Game) (kingside : Bool) : Except String Move :=
  let kingFrom : Square := if g.activeColor = Color.White then E1 else E8
  let kingTo : Square :=
    if g.activeColor = Color.White then (if kingside then G1 else C1)
    else (if kingside then G8 else C8)
  let king := g.board.GetPiece kingFrom
  if king.type ≠ PieceType.King ∨ king.color ≠ g.activeColor then
    Except.error "king not in position for castling"
  else
    Except.ok ⟨kingFrom, kingTo, MoveType.Castling, king, emptyPiece, PieceType.Empty⟩

/-- `generatePawnMoves` (game code): pseudo-legal pawn pushes and captures;
all emitted with kind `Normal` and no recorded captured piece. -/
def generatePawnMoves (g : Game) (fromSq : Square) : List Move :=
  let piece := g.board.GetPiece fromSq
  let color := piece.color
  let direction : Int := if color = Color.Black then -1 else 1
  let startRank : Int := if color = Color.Black then 6 else 1
  let rank := Int.tdiv fromSq 8
  let file := Int.tmod fromSq 8
  let toSquare : Square := (rank + direction) * 8 + file
  let forwardMoves : List Move :=
    if rank + direction ≥ 0 ∧ rank + direction < 8 ∧ (g.board.GetPiece toSquare).IsEmpty then
      let single : Move := ⟨fromSq, toSquare, MoveType.Normal, piece, emptyPiece, PieceType.Empty⟩
      if rank = startRank then
        let toSquare2 : Square := (rank + 2 * direction) * 8 + file
        if (g.board.GetPiece toSquare2).IsEmpty then
          [single, ⟨fromSq, toSquare2, MoveType.Normal, piece, emptyPiece, PieceType.Empty⟩]
        else [single]
      else [single]
    else []
  let captureMoves : List Move :=
    ([-1, 1] : List Int).flatMap fun fileOffset =>
      let newFile := file + fileOffset
      let newRank := rank + direction
      if newFile ≥ 0 ∧ newFile < 8 ∧ newRank ≥ 0 ∧ newRank < 8 then
        let toSquare : Square := newRank * 8 + newFile
        let targetPiece := g.board.GetPiece toSquare
        if ¬targetPiece.IsEmpty ∧ targetPiece.color ≠ color then
          [⟨fromSq, toSquare, MoveType.Normal, piece, emptyPiece, PieceType.Empty⟩]
        else []
      else []
  forwardMoves ++ captureMoves

/-- One ray of `generateSlidingMoves` (game code): steps `i = 1..7` in
direction `(dr, df)`, stopping at the board edge or the first occupied
square (which is included when enemy-occupied). -/
def slideRay (g : Game) (fromSq : Square) (piece : Piece) (dr df : Int) :
    Nat → Int → List Move
  | 0, _ => []
  | fuel + 1, i =>
    let rank := Int.tdiv fromSq 8
    let file := Int.tmod fromSq 8
    let newRank := rank + dr * i
    let newFile := file + df * i
    if newRank < 0 ∨ newRank ≥ 8 ∨ newFile < 0 ∨ newFile ≥ 8 then []
    else
      let toSquare : Square := newRank * 8 + newFile
      let targetPiece := g.board.GetPiece toSquare
      if targetPiece.IsEmpty then
        ⟨fromSq, toSquare, MoveType.Normal, piece, emptyPiece, PieceType.Empty⟩ ::
          slideRay g fromSq piece dr df fuel (i + 1)
      else if targetPiece.color ≠ piece.color then
        [⟨fromSq, toSquare, MoveType.Normal, piece, emptyPiece, PieceType.Empty⟩]
      else []

/-- `generateSlidingMoves` (game code). -/
def generateSlidingMoves (g : Game) (fromSq : Square) (directions : List (Int × Int)) :
    List Move :=
  let piece := g.board.GetPiece fromSq
  directions.flatMap fun dir => slideRay g fromSq piece dir.1 dir.2 7 1

/-- `generateKnightMoves` (game code). -/
def generateKnightMoves (g : Game) (fromSq : Square) : List Move :=
  let piece := g.board.GetPiece fromSq
  let color := piece.color
  let rank := Int.tdiv fromSq 8
  let file := Int.tmod fromSq 8
  ([(2, 1), (2, -1), (-2, 1), (-2, -1), (1, 2), (1, -2), (-1, 2), (-1, -2)] :
      List (Int × Int)).flatMap fun mv =>
    let newRank := rank + mv.1
    let newFile := file + mv.2
    if newRank ≥ 0 ∧ newRank < 8 ∧ newFile ≥ 0 ∧ newFile < 8 then
      let toSquare : Square := newRank * 8 + newFile
      let targetPiece := g.board.GetPiece toSquare
      if targetPiece.IsEmpty ∨ targetPiece.color ≠ color then
        [⟨fromSq, toSquare, MoveType.Normal, piece, emptyPiece, PieceType.Empty⟩]
      else []
    else []

/-- `generateRookMoves` (game code). -/
def generateRookMoves (g : Game) (fromSq : Square) : List Move :=
  generateSlidingMoves g fromSq [(0, 1), (0, -1), (1, 0), (-1, 0)]

/-- `generateBishopMoves` (game code). -/
def generateBishopMoves (g : Game) (fromSq : Square) : List Move :=
  generateSlidingMoves g fromSq [(1, 1), (1, -1), (-1, 1), (-1, -1)]

/-- `generateQueenMoves` (game code). -/
def generateQueenMoves (g : Game) (fromSq : Square) : List Move :=
  generateSlidingMoves g fromSq
    [(0, 1), (0, -1), (1, 0), (-1, 0), (1, 1), (1, -1), (-1, 1), (-1, -1)]

/-
  The functions below are mutually recursive in the source through
  `isInCheck -> generatePseudoLegalMoves -> generateKingMoves ->
  generateCastlingMoves -> canCastleKingside/Queenside -> isInCheck`.
  They are written here parameterized by the check oracle `ic` (standing for
  `Game.isInCheck`), and the knot is tied by the fuelled `isInCheck` function;
  the public wrappers below instantiate `ic := isInCheck n`.
-/

/-- `wouldBeInCheckAfterMove` (game code). -/
def wouldBeInCheckAfterMoveH (ic : Game → Color → Bool) (g : Game) (move : Move)
    (kingColor : Color) : Bool :=
  ic (makeMoveWithoutStatusUpdate g.copy move) kingColor

/-- `canCastleKingside` (game code). -/
def canCastleKingsideH (ic : Game → Color → Bool) (g : Game) (color : Color) : Bool :=
  if color = Color.White ∧ ¬g.castlingRights.WhiteKingside then false
  else if color = Color.Black ∧ ¬g.castlingRights.BlackKingside then false
  else
    let kingSquare : Square := if color = Color.Black then E8 else E1
    if ¬((g.board.GetPiece (kingSquare + 1)).IsEmpty ∧
         (g.board.GetPiece (kingSquare + 2)).IsEmpty) then false
    else if ic g color then false
    else
      ([1, 2] : List Int).all fun off =>
        let square := kingSquare + off
        let tempMove : Move :=
          ⟨kingSquare, square, MoveType.Normal, g.board.GetPiece kingSquare,
            emptyPiece, PieceType.Empty⟩
        ¬wouldBeInCheckAfterMoveH ic g tempMove color

/-- `canCastleQueenside` (game code). -/
def canCastleQueensideH (ic : Game → Color → Bool) (g : Game) (color : Color) : Bool :=
  if color = Color.White ∧ ¬g.castlingRights.WhiteQueenside then false
  else if color = Color.Black ∧ ¬g.castlingRights.BlackQueenside then false
  else
    let kingSquare : Square := if color = Color.Black then E8 else E1
    if ¬((g.board.GetPiece (kingSquare - 3)).IsEmpty ∧
         (g.board.GetPiece (kingSquare - 2)).IsEmpty ∧
         (g.board.GetPiece (kingSquare - 1)).IsEmpty) then false
    else if ic g color then false
    else
      ([-1, -2] : List Int).all fun off =>
        let square := kingSquare + off
        let tempMove : Move :=
          ⟨kingSquare, square, MoveType.Normal, g.board.GetPiece kingSquare,
            emptyPiece, PieceType.Empty⟩
        ¬wouldBeInCheckAfterMoveH ic g tempMove color

/-- `canCastle` (game code). -/
def canCastleH (ic : Game → Color → Bool) (g : Game) (kingside : Bool) : Bool :=
  if kingside then canCastleKingsideH ic g g.activeColor
  else canCastleQueensideH ic g g.activeColor

/-- `generateCastlingMoves` (game code). -/
def generateCastlingMovesH (ic : Game → Color → Bool) (g : Game) (fromSq : Square) :
    List Move :=
  let piece := g.board.GetPiece fromSq
  let color := piece.color
  let expectedKingSquare : Square := if color = Color.Black then E8 else E1
  if fromSq ≠ expectedKingSquare then []
  else
    let kingsideMoves :=
      if canCastleKingsideH ic g color then
        match parseCastlingMove g true with
        | Except.ok m => [m]
        | Except.error _ => []
      else []
    let queensideMoves :=
      if canCastleQueensideH ic g color then
        match parseCastlingMove g false with
        | Except.ok m => [m]
        | Except.error _ => []
      else []
    kingsideMoves ++ queensideMoves

/-- `generateKingMoves` (game code). -/
def generateKingMovesH (ic : Game → Color → Bool) (g : Game) (fromSq : Square) :
    List Move :=
  let piece := g.board.GetPiece fromSq
  let color := piece.color
  let rank := Int.tdiv fromSq 8
  let file := Int.tmod fromSq 8
  let normalMoves :=
    ([(0, 1), (0, -1), (1, 0), (-1, 0), (1, 1), (1, -1), (-1, 1), (-1, -1)] :
        List (Int × Int)).flatMap fun mv =>
      let newRank := rank + mv.1
      let newFile := file + mv.2
      if newRank ≥ 0 ∧ newRank < 8 ∧ newFile ≥ 0 ∧ newFile < 8 then
        let toSquare : Square := newRank * 8 + newFile
        let targetPiece := g.board.GetPiece toSquare
        if targetPiece.IsEmpty ∨ targetPiece.color ≠ color then
          [⟨fromSq, toSquare, MoveType.Normal, piece, emptyPiece, PieceType.Empty⟩]
        else []
      else []
  normalMoves ++ generateCastlingMovesH ic g fromSq

/-- `generatePseudoLegalMoves` (game code). -/
def generatePseudoLegalMovesH (ic : Game → Color → Bool) (g : Game) (fromSq : Square)
    (piece : Piece) : List Move :=
  match piece.type with
  | PieceType.Pawn => generatePawnMoves g fromSq
  | PieceType.Rook => generateRookMoves g fromSq
  | PieceType.Knight => generateKnightMoves g fromSq
  | PieceType.Bishop => generateBishopMoves g fromSq
  | PieceType.Queen => generateQueenMoves g fromSq
  | PieceType.King => generateKingMovesH ic g fromSq
  | PieceType.Empty => []

/-- `isInCheck` (game code), with fuel for the castling-generation recursion:
find the king of `color`, then test whether any opposing piece has a
pseudo-legal move onto the king's square. -/
def isInCheck : Nat → Game → Color → Bool
  | 0, _, _ => false
  | n + 1, g, color =>
    let kingSquare : Square :=
      match (List.range 64).find? (fun i =>
        let piece := g.board.GetPiece (Int.ofNat i)
        piece.type = PieceType.King ∧ piece.color = color) with
      | some i => Int.ofNat i
      | none => -1
    if kingSquare = -1 then false
    else
      let opponentColor := if color = Color.White then Color.Black else Color.White
      (List.range 64).any fun i =>
        let sq : Square := Int.ofNat i
        let piece := g.board.GetPiece sq
        if piece.IsEmpty ∨ piece.color ≠ opponentColor then false
        else
          (generatePseudoLegalMovesH (isInCheck n) g sq piece).any
            fun move => move.To = kingSquare

/-- `wouldBeInCheckAfterMove` with the fuelled oracle. -/
def wouldBeInCheckAfterMove (n : Nat) : Game → Move → Color → Bool :=
  wouldBeInCheckAfterMoveH (isInCheck n)

/-- `canCastleKingside` with the fuelled oracle. -/
def canCastleKingside (n : Nat) : Game → Color → Bool :=
  canCastleKingsideH (isInCheck n)

/-- `canCastleQueenside` with the fuelled oracle. -/
def canCastleQueenside (n : Nat) : Game → Color → Bool :=
  canCastleQueensideH (isInCheck n)

/-- `generatePseudoLegalMoves` with the fuelled oracle. -/
def generatePseudoLegalMoves (n : Nat) : Game → Square → Piece → List Move :=
  generatePseudoLegalMovesH (isInCheck n)

/-- `isKingMoveLegal` (game code). -/
def isKingMoveLegalH (ic : Game → Color → Bool) (g : Game) (move : Move) : Bool :=
  if move.type = MoveType.Castling then
    canCastleH ic g (fileOf move.To > fileOf move.From)
  else
    let fileDiff := iabs (fileOf move.To - fileOf move.From)
    let rankDiff := iabs (rankOf move.To - rankOf move.From)
    if fileDiff > 1 ∨ rankDiff > 1 then false
    else
      let target := g.board.GetPiece move.To
      ¬(¬target.IsEmpty ∧ target.color = move.piece.color)

/-- `isPseudoLegalMove` (game code). -/
def isPseudoLegalMoveH (ic : Game → Color → Bool) (g : Game) (move : Move) : Bool :=
  match move.piece.type with
  | PieceType.Pawn => isPawnMoveLegal g move
  | PieceType.Rook => isRookMoveLegal g move
  | PieceType.Knight => isKnightMoveLegal g move
  | PieceType.Bishop => isBishopMoveLegal g move
  | PieceType.Queen => isQueenMoveLegal g move
  | PieceType.King => isKingMoveLegalH ic g move
  | PieceType.Empty => false

/-- `IsLegalMove` (game code): basic validation, king-capture rejection,
pseudo-legality, then simulate on a copy and reject if the mover's own king is
left in check. -/
def IsLegalMoveH (ic : Game → Color → Bool) (g : Game) (move : Move) : Bool :=
  let piece := g.board.GetPiece move.From
  if piece.IsEmpty ∨ piece.color ≠ g.activeColor then false
  else
    let targetPiece := g.board.GetPiece move.To
    if ¬targetPiece.IsEmpty ∧ targetPiece.type = PieceType.King then false
    else if ¬isPseudoLegalMoveH ic g move then false
    else
      let gameCopy := makeMoveWithoutStatusUpdate g.copy move
      ¬ic gameCopy g.activeColor

/-- `IsLegalMove` with the fuelled oracle. -/
def IsLegalMove (n : Nat) : Game → Move → Bool := IsLegalMoveH (isInCheck n)

/-- `GetAllLegalMoves` (game code): pseudo-legal generation over every square
holding a piece of the active color, filtered through `IsLegalMove`. -/
def GetAllLegalMoves (n : Nat) (g : Game) : List Move :=
  (List.range 64).flatMap fun i =>
    let square : Square := Int.ofNat i
    let piece := g.board.GetPiece square
    if piece.IsEmpty ∨ piece.color ≠ g.activeColor then []
    else
      (generatePseudoLegalMovesH (isInCheck n) g square piece).filter fun move =>
        IsLegalMove n g move

/-- `updateGameStatus` (game code): derives the stored status from the legal
moves of the side to move and whether its king is attacked. -/
def updateGameStatus (n : Nat) (g : Game) : Game :=
  let legalMoves := GetAllLegalMoves n g
  if legalMoves.isEmpty then
    if isInCheck n g g.activeColor then
      if g.activeColor = Color.White then { g with status := GameStatus.BlackWins }
      else { g with status := GameStatus.WhiteWins }
    else { g with status := GameStatus.Draw }
  else
    if isInCheck n g g.activeColor then { g with status := GameStatus.Check }
    else { g with status := GameStatus.InProgress }

/-- `MakeMove` (game code).  Returns the post-call receiver state together
with the returned error (`none` on success); on the error path the receiver
has not been written at all. -/
def MakeMove (n : Nat) (g : Game) (move : Move) : Game × Option String :=
  if ¬IsLegalMove n g move then (g, some "illegal move")
  else
    let g := makeMove g move
    let g := { g with moveHistory := g.moveHistory ++ [move] }
    let g :=
      if g.activeColor = Color.White then { g with activeColor := Color.Black }
      else { g with activeColor := Color.White, moveCount := g.moveCount + 1 }
    (updateGameStatus n g, none)

/-- `Square.String` (board.go): algebraic notation, or "invalid" when off the
board. -/
def squareToString (s : Square) : String :=
  if s < 0 ∨ s > 63 then "invalid"
  else String.mk [Char.ofNat (97 + (Int.tmod s 8)).toNat, Char.ofNat (49 + (Int.tdiv s 8)).toNat]

/-- `SquareFromString` (board.go).  Go computes `s[0]-'a'` / `s[1]-'1'` on
bytes; a byte outside `a..h` / `1..8` always wraps to a value above 7, so the
signed subtraction with a `< 0` guard used here accepts and rejects exactly
the same strings. -/
def SquareFromString (s : String) : Except String Square :=
  match s.data with
  | [c0, c1] =>
    let file : Int := (c0.toNat : Int) - 97
    let rank : Int := (c1.toNat : Int) - 49
    if file < 0 ∨ file > 7 ∨ rank < 0 ∨ rank > 7 then
      Except.error "invalid square notation"
    else Except.ok (rank * 8 + file)
  | _ => Except.error "invalid square notation"

/-- Go `strings.TrimSpace`: drop whitespace from both ends. -/
def goTrim (s : String) : String :=
  String.mk (((s.data.dropWhile Char.isWhitespace).reverse.dropWhile Char.isWhitespace).reverse)

/-- `ParseMove` (game code): coordinate notation, optional promotion suffix on
5-character pawn moves, castling tokens; determines kind and captured piece
from the board. -/
def ParseMove (g : Game) (notat : String) : Except String Move :=
  let notat := goTrim notat
  if notat = "O-O" ∨ notat = "0-0" then parseCastlingMove g true
  else if notat = "O-O-O" ∨ notat = "0-0-0" then parseCastlingMove g false
  else if notat.data.length < 4 then Except.error "invalid move notation"
  else
    let fromStr := String.mk (notat.data.take 2)
    let toStr := String.mk ((notat.data.drop 2).take 2)
    match SquareFromString fromStr with
    | Except.error _ => Except.error "invalid from square"
    | Except.ok fromSq =>
      match SquareFromString toStr with
      | Except.error _ => Except.error "invalid to square"
      | Except.ok toSq =>
        let piece := g.board.GetPiece fromSq
        if piece.IsEmpty ∨ piece.color ≠ g.activeColor then
          Except.error "no piece to move or wrong color"
        else
          let captured := g.board.GetPiece toSq
          let mtCaptured : MoveType × Piece :=
            if ¬captured.IsEmpty then (MoveType.Capture, captured)
            else if piece.type = PieceType.Pawn ∧ fileOf fromSq ≠ fileOf toSq then
              if g.enPassantSquare ≠ -1 ∧ toSq = g.enPassantSquare then
                let capSq : Square :=
                  if piece.color = Color.White then toSq - 8 else toSq + 8
                (MoveType.EnPassant, g.board.GetPiece capSq)
              else (MoveType.Normal, captured)
            else (MoveType.Normal, captured)
          let move : Move :=
            ⟨fromSq, toSq, mtCaptured.1, piece, mtCaptured.2, PieceType.Empty⟩
          if notat.data.length = 5 ∧ piece.type = PieceType.Pawn then
            match (notat.data.getD 4 ' ').toUpper with
            | 'Q' => Except.ok { move with promotion := PieceType.Queen, type := MoveType.Promotion }
            | 'R' => Except.ok { move with promotion := PieceType.Rook, type := MoveType.Promotion }
            | 'B' => Except.ok { move with promotion := PieceType.Bishop, type := MoveType.Promotion }
            | 'N' => Except.ok { move with promotion := PieceType.Knight, type := MoveType.Promotion }
            | _ => Except.error "invalid promotion piece"
          else Except.ok move

/-- Decimal digits of `n`, most significant first, as characters (the digit
emission of Go `fmt.Sprintf("%d", x)`); the first argument is a structural
bound on the number of divisions, always called with at least `n`. -/
def natToDecChars : Nat → Nat → List Char
  | 0, _ => []
  | fuel + 1, n =>
    if n = 0 then []
    else natToDecChars fuel (n / 10) ++ [Char.ofNat (48 + n % 10)]

def natToDecString (n : Nat) : String :=
  if n = 0 then "0" else String.mk (natToDecChars n n)

/-- Go `fmt.Sprintf("%d", x)` for ints (used by `ToFEN`). -/
def intToDecString (x : Int) : String :=
  if x < 0 then "-" ++ natToDecString (-x).toNat
  else natToDecString x.toNat

/-- Go `strings.ToUpper`: uppercase every rune. -/
def goToUpper (s : String) : String := String.mk (s.data.map Char.toUpper)

/-- `pieceToFENChar` (game code): lowercase letter, uppercased for white;
empty string for an empty piece. -/
def pieceToFENChar (piece : Piece) : String :=
  let char : String :=
    match piece.type with
    | PieceType.Pawn => "p"
    | PieceType.Rook => "r"
    | PieceType.Knight => "n"
    | PieceType.Bishop => "b"
    | PieceType.Queen => "q"
    | PieceType.King => "k"
    | PieceType.Empty => ""
  if piece.type = PieceType.Empty then ""
  else if piece.color = Color.White then goToUpper char
  else char

/-- One rank of the FEN placement field (the inner `file` loop of `ToFEN`),
run-length-encoding empty squares. -/
def fenRankAux (b : Board) (rank : Int) : List Int → Int → String
  | [], emptyCount => if emptyCount > 0 then intToDecString emptyCount else ""
  | file :: rest, emptyCount =>
    let piece := b.GetPiece (rank * 8 + file)
    if piece.IsEmpty then fenRankAux b rank rest (emptyCount + 1)
    else
      (if emptyCount > 0 then intToDecString emptyCount else "") ++ pieceToFENChar piece ++
        fenRankAux b rank rest 0

def fenRank (b : Board) (rank : Int) : String :=
  fenRankAux b rank [0, 1, 2, 3, 4, 5, 6, 7] 0

/-- Join with "/" (the `if rank > 0 { fen.WriteString("/") }` of `ToFEN`). -/
def joinSlash : List String → String
  | [] => ""
  | [x] => x
  | x :: xs => x ++ "/" ++ joinSlash xs

/-- `ToFEN` (game code): six space-separated fields. -/
def ToFEN (g : Game) : String :=
  let placement := joinSlash (([7, 6, 5, 4, 3, 2, 1, 0] : List Int).map (fenRank g.board))
  let colorStr := if g.activeColor = Color.White then "w" else "b"
  let castling :=
    (if g.castlingRights.WhiteKingside then "K" else "") ++
    (if g.castlingRights.WhiteQueenside then "Q" else "") ++
    (if g.castlingRights.BlackKingside then "k" else "") ++
    (if g.castlingRights.BlackQueenside then "q" else "")
  let castling := if castling = "" then "-" else castling
  let epStr := if g.enPassantSquare = -1 then "-" else squareToString g.enPassantSquare
  placement ++ " " ++ colorStr ++ " " ++ castling ++ " " ++ epStr ++ " " ++
    intToDecString g.halfMoveClock ++ " " ++ intToDecString g.moveCount

/-- Go `strings.Fields`: split around runs of whitespace. -/
def goFieldsAux : List Char → List Char → List String
  | [], acc => if acc.isEmpty then [] else [String.mk acc.reverse]
  | c :: rest, acc =>
    if c.isWhitespace then
      if acc.isEmpty then goFieldsAux rest []
      else String.mk acc.reverse :: goFieldsAux rest []
    else goFieldsAux rest (c :: acc)

def goFields (s : String) : List String := goFieldsAux s.data []

/-- Go `strings.Split(s, "/")` (keeps empty parts). -/
def splitOnSlashAux : List Char → List Char → List String
  | [], acc => [String.mk acc.reverse]
  | c :: rest, acc =>
    if c = '/' then String.mk acc.reverse :: splitOnSlashAux rest []
    else splitOnSlashAux rest (c :: acc)

def splitOnSlash (s : String) : List String := splitOnSlashAux s.data []

/-- Direct write `g.board.squares[square] = piece` used by `ParseFEN` (no
bounds guard in the source; always in range where executed). -/
def boardWrite (b : Board) (sq : Square) (piece : Piece) : Board :=
  ⟨b.squares.set sq.toNat piece⟩

/-- FEN placement character to piece (the `switch ch` of `ParseFEN`). -/
def pieceFromFENChar (ch : Char) : Option Piece :=
  let ty : Option PieceType :=
    match ch with
    | 'p' | 'P' => some PieceType.Pawn
    | 'r' | 'R' => some PieceType.Rook
    | 'n' | 'N' => some PieceType.Knight
    | 'b' | 'B' => some PieceType.Bishop
    | 'q' | 'Q' => some PieceType.Queen
    | 'k' | 'K' => some PieceType.King
    | _ => none
  match ty with
  | none => none
  | some t =>
    some ⟨t, if 'A' ≤ ch ∧ ch ≤ 'Z' then Color.White else Color.Black⟩

/-- The inner character loop of `ParseFEN`'s placement parsing.  On error the
partially written board is returned with the error (the source has mutated
`g.board` in place up to this point). -/
def parseFENRankAux (rankIdx : Int) : List Char → Int → Board → Board × Option String
  | [], file, b =>
    if file ≠ 8 then (b, some "invalid FEN rank: wrong number of files") else (b, none)
  | ch :: rest, file, b =>
    if file > 7 then (b, some "invalid FEN rank: too many squares")
    else if '1' ≤ ch ∧ ch ≤ '8' then
      parseFENRankAux rankIdx rest (file + ((ch.toNat : Int) - 48)) b
    else
      match pieceFromFENChar ch with
      | none => (b, some "invalid FEN piece character")
      | some piece =>
        parseFENRankAux rankIdx rest (file + 1) (boardWrite b ((7 - rankIdx) * 8 + file) piece)

/-- The outer rank loop of `ParseFEN`'s placement parsing. -/
def parseFENPlacement : List String → Int → Board → Board × Option String
  | [], _, b => (b, none)
  | r :: rest, rankIdx, b =>
    match parseFENRankAux rankIdx r.data 0 b with
    | (b', none) => parseFENPlacement rest (rankIdx + 1) b'
    | (b', some e) => (b', some e)

/-- The castling-field loop of `ParseFEN`: rights are zeroed first and set
flag by flag; an invalid character aborts with the flags set so far. -/
def parseCastlingChars : List Char → CastlingRights → CastlingRights × Option String
  | [], r => (r, none)
  | ch :: rest, r =>
    match ch with
    | 'K' => parseCastlingChars rest { r with WhiteKingside := true }
    | 'Q' => parseCastlingChars rest { r with WhiteQueenside := true }
    | 'k' => parseCastlingChars rest { r with BlackKingside := true }
    | 'q' => parseCastlingChars rest { r with BlackQueenside := true }
    | _ => (r, some "invalid castling char")

/-- Go `strconv.Atoi`: optional sign, one or more decimal digits. -/
def goAtoi (s : String) : Except String Int :=
  let digitsVal : List Char → Int := fun cs =>
    cs.foldl (fun acc c => acc * 10 + ((c.toNat : Int) - 48)) 0
  let allDigits : List Char → Bool := fun cs =>
    cs.all fun c => decide ('0' ≤ c ∧ c ≤ '9')
  match s.data with
  | [] => Except.error "invalid syntax"
  | '-' :: rest =>
    if rest.isEmpty ∨ ¬allDigits rest then Except.error "invalid syntax"
    else Except.ok (-(digitsVal rest))
  | '+' :: rest =>
    if rest.isEmpty ∨ ¬allDigits rest then Except.error "invalid syntax"
    else Except.ok (digitsVal rest)
  | cs =>
    if ¬allDigits cs then Except.error "invalid syntax" else Except.ok (digitsVal cs)

/-- `ParseFEN` (game code).  Returns the post-call receiver state paired with
the error; the source clears and rewrites `g.board` *before* validating the
later fields, so error returns after the rank-count check leave the receiver
partially mutated exactly as modelled here. -/
def ParseFEN (n : Nat) (g : Game) (fen : String) : Game × Option String :=
  let parts := goFields (goTrim fen)
  if parts.length < 4 then (g, some "invalid FEN: expected at least 4 fields")
  else
    let ranks := splitOnSlash (parts.getD 0 "")
    if ranks.length ≠ 8 then (g, some "invalid FEN: expected 8 ranks")
    else
      -- Clear board first
      let g := { g with board := ⟨List.replicate 64 emptyPiece⟩ }
      match parseFENPlacement ranks 0 g.board with
      | (b, some e) => ({ g with board := b }, some e)
      | (b, none) =>
        let g := { g with board := b }
        if ¬(parts.getD 1 "" = "w" ∨ parts.getD 1 "" = "b") then
          (g, some "invalid FEN active color")
        else
          let g :=
            { g with activeColor :=
                if parts.getD 1 "" = "w" then Color.White else Color.Black }
          let castling := parts.getD 2 ""
          let g := { g with castlingRights := ⟨false, false, false, false⟩ }
          let crResult :=
            if castling = "-" then (g.castlingRights, (none : Option String))
            else parseCastlingChars castling.data g.castlingRights
          match crResult with
          | (r, some e) => ({ g with castlingRights := r }, some e)
          | (r, none) =>
            let g := { g with castlingRights := r }
            let enPassant := parts.getD 3 ""
            let epResult : Square × Option String :=
              if enPassant = "-" then (-1, none)
              else if enPassant.data.length ≠ 2 then
                (g.enPassantSquare, some "invalid en-passant square")
              else
                match SquareFromString enPassant with
                | Except.error _ => (g.enPassantSquare, some "invalid en-passant square")
                | Except.ok sq => (sq, none)
            match epResult with
            | (_, some e) => (g, some e)
            | (sq, none) =>
              let g := { g with enPassantSquare := sq }
              let g := { g with halfMoveClock := 0, moveCount := 1 }
              let hmResult : Int × Option String :=
                if parts.length ≥ 5 then
                  match goAtoi (parts.getD 4 "") with
                  | Except.error _ => (0, some "invalid halfmove clock")
                  | Except.ok hm =>
                    if hm < 0 then (0, some "invalid halfmove clock") else (hm, none)
                else (0, none)
              match hmResult with
              | (_, some e) => (g, some e)
              | (hm, none) =>
                let g := { g with halfMoveClock := hm }
                let fmResult : Int × Option String :=
                  if parts.length ≥ 6 then
                    match goAtoi (parts.getD 5 "") with
                    | Except.error _ => (1, some "invalid fullmove number")
                    | Except.ok fm =>
                      if fm < 1 then (1, some "invalid fullmove number") else (fm, none)
                  else (1, none)
                match fmResult with
                | (_, some e) => (g, some e)
                | (fm, none) =>
                  let g := { g with moveCount := fm }
                  let g := { g with moveHistory := [], status := GameStatus.InProgress,
                                    startedFromFEN := true, startingFEN := fen }
                  (updateGameStatus n g, none)

/-
  Move-selection layer (src/ai/engine.go).  The RandomAI generators work on a
  board snapshot (`game.Board()` returns a copy) and emit `Capture`-typed
  moves with the captured piece recorded, unlike the engine's own generator.
  The artificial thinking delay and context cancellation are not modelled.
-/

/-- `RandomAI.generatePawnMoves` (ai/engine.go). -/
def aiGeneratePawnMoves (b : Board) (fromSq : Square) (piece : Piece) : List Move :=
  let direction : Int := if piece.color = Color.Black then -8 else 8
  let toSq := fromSq + direction
  let forwardMoves : List Move :=
    if toSq ≥ 0 ∧ toSq < 64 ∧ (b.GetPiece toSq).IsEmpty then
      let single : Move := ⟨fromSq, toSq, MoveType.Normal, piece, emptyPiece, PieceType.Empty⟩
      if (piece.color = Color.White ∧ rankOf fromSq = 1) ∨
         (piece.color = Color.Black ∧ rankOf fromSq = 6) then
        let to2 := toSq + direction
        if to2 ≥ 0 ∧ to2 < 64 ∧ (b.GetPiece to2).IsEmpty then
          [single, ⟨fromSq, to2, MoveType.Normal, piece, emptyPiece, PieceType.Empty⟩]
        else [single]
      else [single]
    else []
  let captureMoves : List Move :=
    ([-1, 1] : List Int).flatMap fun fileOffset =>
      let toSq := fromSq + direction + fileOffset
      if toSq ≥ 0 ∧ toSq < 64 ∧ iabs (fileOf toSq - fileOf fromSq) = 1 then
        let target := b.GetPiece toSq
        if ¬target.IsEmpty ∧ target.color ≠ piece.color then
          [⟨fromSq, toSq, MoveType.Capture, piece, target, PieceType.Empty⟩]
        else []
      else []
  forwardMoves ++ captureMoves

/-- One direction of `RandomAI.generateRookMoves` (ai/engine.go), with the
horizontal wrap check. -/
def aiRookRay (b : Board) (fromSq : Square) (piece : Piece) (dir : Int) :
    Nat → Int → List Move
  | 0, _ => []
  | fuel + 1, i =>
    let toSq := fromSq + i * dir
    if toSq < 0 ∨ toSq ≥ 64 then []
    else if (dir = 1 ∨ dir = -1) ∧ iabs (fileOf toSq - fileOf fromSq) ≠ i then []
    else
      let target := b.GetPiece toSq
      if target.IsEmpty then
        ⟨fromSq, toSq, MoveType.Normal, piece, emptyPiece, PieceType.Empty⟩ ::
          aiRookRay b fromSq piece dir fuel (i + 1)
      else if target.color ≠ piece.color then
        [⟨fromSq, toSq, MoveType.Capture, piece, target, PieceType.Empty⟩]
      else []

/-- `RandomAI.generateRookMoves` (ai/engine.go). -/
def aiGenerateRookMoves (b : Board) (fromSq : Square) (piece : Piece) : List Move :=
  ([1, -1, 8, -8] : List Int).flatMap fun dir => aiRookRay b fromSq piece dir 7 1

/-- One direction of `RandomAI.generateBishopMoves` (ai/engine.go). -/
def aiBishopRay (b : Board) (fromSq : Square) (piece : Piece) (dir : Int) :
    Nat → Int → List Move
  | 0, _ => []
  | fuel + 1, i =>
    let toSq := fromSq + i * dir
    if toSq < 0 ∨ toSq ≥ 64 then []
    else if iabs (fileOf toSq - fileOf fromSq) ≠ i ∨ iabs (rankOf toSq - rankOf fromSq) ≠ i then []
    else
      let target := b.GetPiece toSq
      if target.IsEmpty then
        ⟨fromSq, toSq, MoveType.Normal, piece, emptyPiece, PieceType.Empty⟩ ::
          aiBishopRay b fromSq piece dir fuel (i + 1)
      else if target.color ≠ piece.color then
        [⟨fromSq, toSq, MoveType.Capture, piece, target, PieceType.Empty⟩]
      else []

/-- `RandomAI.generateBishopMoves` (ai/engine.go). -/
def aiGenerateBishopMoves (b : Board) (fromSq : Square) (piece : Piece) : List Move :=
  ([9, 7, -7, -9] : List Int).flatMap fun dir => aiBishopRay b fromSq piece dir 7 1

/-- `RandomAI.generateKnightMoves` (ai/engine.go). -/
def aiGenerateKnightMoves (b : Board) (fromSq : Square) (piece : Piece) : List Move :=
  ([17, 15, 10, 6, -6, -10, -15, -17] : List Int).flatMap fun offset =>
    let toSq := fromSq + offset
    if toSq < 0 ∨ toSq ≥ 64 then []
    else
      let fileDiff := iabs (fileOf toSq - fileOf fromSq)
      let rankDiff := iabs (rankOf toSq - rankOf fromSq)
      if ¬((fileDiff = 2 ∧ rankDiff = 1) ∨ (fileDiff = 1 ∧ rankDiff = 2)) then []
      else
        let target := b.GetPiece toSq
        if target.IsEmpty then
          [⟨fromSq, toSq, MoveType.Normal, piece, emptyPiece, PieceType.Empty⟩]
        else if target.color ≠ piece.color then
          [⟨fromSq, toSq, MoveType.Capture, piece, target, PieceType.Empty⟩]
        else []

/-- `RandomAI.generateQueenMoves` (ai/engine.go). -/
def aiGenerateQueenMoves (b : Board) (fromSq : Square) (piece : Piece) : List Move :=
  aiGenerateRookMoves b fromSq piece ++ aiGenerateBishopMoves b fromSq piece

/-- `RandomAI.generateKingMoves` (ai/engine.go). -/
def aiGenerateKingMoves (b : Board) (fromSq : Square) (piece : Piece) : List Move :=
  ([1, -1, 8, -8, 9, 7, -7, -9] : List Int).flatMap fun dir =>
    let toSq := fromSq + dir
    if toSq < 0 ∨ toSq ≥ 64 then []
    else if iabs (fileOf toSq - fileOf fromSq) > 1 ∨ iabs (rankOf toSq - rankOf fromSq) > 1 then []
    else
      let target := b.GetPiece toSq
      if target.IsEmpty then
        [⟨fromSq, toSq, MoveType.Normal, piece, emptyPiece, PieceType.Empty⟩]
      else if target.color ≠ piece.color then
        [⟨fromSq, toSq, MoveType.Capture, piece, target, PieceType.Empty⟩]
      else []

/-- `RandomAI.generatePieceMovesI` (ai/engine.go). -/
def aiGeneratePieceMovesI (g : Game) (fromSq : Square) (piece : Piece) : List Move :=
  let b := g.board.Copy
  match piece.type with
  | PieceType.Pawn => aiGeneratePawnMoves b fromSq piece
  | PieceType.Rook => aiGenerateRookMoves b fromSq piece
  | PieceType.Knight => aiGenerateKnightMoves b fromSq piece
  | PieceType.Bishop => aiGenerateBishopMoves b fromSq piece
  | PieceType.Queen => aiGenerateQueenMoves b fromSq piece
  | PieceType.King => aiGenerateKingMoves b fromSq piece
  | PieceType.Empty => []

/-- `RandomAI.GenerateLegalMoves` = `GenerateAllLegalMoves` (ai/engine.go):
piece-move generation over the active color's pieces, filtered through the
game's `IsLegalMove`. -/
def GenerateAllLegalMoves (n : Nat) (g : Game) : List Move :=
  let board := g.board.Copy
  (List.range 64).flatMap fun i =>
    let sq : Square := Int.ofNat i
    let piece := board.GetPiece sq
    if piece.IsEmpty then []
    else if piece.color ≠ g.activeColor then []
    else (aiGeneratePieceMovesI g sq piece).filter fun move => IsLegalMove n g move

/-- `MinimaxAI.canPawnAttack` (ai/engine.go). -/
def canPawnAttack (fromSq toSq : Square) (color : Color) : Bool :=
  let direction : Int := if color = Color.Black then -1 else 1
  rankOf toSq = rankOf fromSq + direction ∧
    (fileOf toSq = fileOf fromSq + 1 ∨ fileOf toSq = fileOf fromSq - 1)

/-- `MinimaxAI.isPathClear` (ai/engine.go): rank/file walk; fuelled like the
engine's path walk. -/
def mmIsPathClearAux (b : Board) (toRank toFile dRank dFile : Int) :
    Nat → Int → Int → Bool
  | 0, _, _ => false
  | fuel + 1, curRank, curFile =>
    if curRank = toRank ∧ curFile = toFile then true
    else if ¬(b.GetPiece (curRank * 8 + curFile)).IsEmpty then false
    else mmIsPathClearAux b toRank toFile dRank dFile fuel (curRank + dRank) (curFile + dFile)

def mmIsPathClear (g : Game) (fromSq toSq : Square) : Bool :=
  let fromRank := rankOf fromSq
  let fromFile := fileOf fromSq
  let toRank := rankOf toSq
  let toFile := fileOf toSq
  let dRank := isign (toRank - fromRank)
  let dFile := isign (toFile - fromFile)
  mmIsPathClearAux g.board toRank toFile dRank dFile 8 (fromRank + dRank) (fromFile + dFile)

/-- `MinimaxAI.canRookAttack` (ai/engine.go). -/
def canRookAttack (g : Game) (fromSq toSq : Square) : Bool :=
  if rankOf fromSq ≠ rankOf toSq ∧ fileOf fromSq ≠ fileOf toSq then false
  else mmIsPathClear g fromSq toSq

/-- `MinimaxAI.canBishopAttack` (ai/engine.go). -/
def canBishopAttack (g : Game) (fromSq toSq : Square) : Bool :=
  if iabs (rankOf fromSq - rankOf toSq) ≠ iabs (fileOf fromSq - fileOf toSq) then false
  else mmIsPathClear g fromSq toSq

/-- `MinimaxAI.canKnightAttack` (ai/engine.go). -/
def canKnightAttack (fromSq toSq : Square) : Bool :=
  let dRank := iabs (rankOf fromSq - rankOf toSq)
  let dFile := iabs (fileOf fromSq - fileOf toSq)
  (dRank = 2 ∧ dFile = 1) ∨ (dRank = 1 ∧ dFile = 2)

/-- `MinimaxAI.canKingAttack` (ai/engine.go). -/
def canKingAttack (fromSq toSq : Square) : Bool :=
  let dRank := iabs (rankOf fromSq - rankOf toSq)
  let dFile := iabs (fileOf fromSq - fileOf toSq)
  dRank ≤ 1 ∧ dFile ≤ 1 ∧ (dRank ≠ 0 ∨ dFile ≠ 0)

/-- `MinimaxAI.canPieceAttackSquare` (ai/engine.go). -/
def canPieceAttackSquare (g : Game) (fromSq toSq : Square) : Bool :=
  let piece := g.board.GetPiece fromSq
  if piece.IsEmpty then false
  else
    match piece.type with
    | PieceType.Pawn => canPawnAttack fromSq toSq piece.color
    | PieceType.Rook => canRookAttack g fromSq toSq
    | PieceType.Bishop => canBishopAttack g fromSq toSq
    | PieceType.Queen => canRookAttack g fromSq toSq || canBishopAttack g fromSq toSq
    | PieceType.Knight => canKnightAttack fromSq toSq
    | PieceType.King => canKingAttack fromSq toSq
    | PieceType.Empty => false

/-- `MinimaxAI.isGameInCheck` (ai/engine.go): the heuristic engine's own
simplified check detector. -/
def isGameInCheck (g : Game) (color : Color) : Bool :=
  let kingSquare : Square :=
    match (List.range 64).find? (fun i =>
      let piece := g.board.GetPiece (Int.ofNat i)
      piece.color = color ∧ piece.type = PieceType.King) with
    | some i => Int.ofNat i
    | none => -1
  if kingSquare = -1 then false
  else
    let opponentColor := if color = Color.White then Color.Black else Color.White
    (List.range 64).any fun i =>
      let sq : Square := Int.ofNat i
      let piece := g.board.GetPiece sq
      if piece.color = opponentColor ∧ ¬piece.IsEmpty then
        canPieceAttackSquare g sq kingSquare
      else false

/-- `MinimaxAI.findCheckEscapeMoves` (ai/engine.go): re-filter through
`IsLegalMove`. -/
def findCheckEscapeMoves (n : Nat) (g : Game) (moves : List Move) : List Move :=
  moves.filter fun move => IsLegalMove n g move

/-- `MinimaxAI.evaluateMove` (ai/engine.go): captured-piece value from the
board at the destination, center-square bonus, opening development bonus. -/
def evaluateMove (g : Game) (move : Move) : Int :=
  let captureScore : Int :=
    let targetPiece := g.board.GetPiece move.To
    if ¬targetPiece.IsEmpty then
      match targetPiece.type with
      | PieceType.Queen => 900
      | PieceType.Rook => 500
      | PieceType.Bishop => 300
      | PieceType.Knight => 300
      | PieceType.Pawn => 100
      | _ => 0
    else 0
  let centerScore : Int :=
    (([27, 28, 35, 36] : List Int).map fun sq => if move.To = sq then (50 : Int) else 0).sum
  let developmentScore : Int :=
    if g.moveCount < 10 then
      let piece := g.board.GetPiece move.From
      if piece.type = PieceType.Knight ∨ piece.type = PieceType.Bishop then 30 else 0
    else 0
  captureScore + centerScore + developmentScore

/-- The selection loop of `MinimaxAI.GetBestMove`: start from the head and
replace only on a strictly greater score (first-seen wins on ties). -/
def pickBestMove (g : Game) : List Move → Move
  | [] => ⟨0, 0, MoveType.Normal, emptyPiece, emptyPiece, PieceType.Empty⟩
  | m :: rest =>
    rest.foldl (fun best mv => if evaluateMove g mv > evaluateMove g best then mv else best) m

/-- `MinimaxAI.GetBestMove` (ai/engine.go), without the artificial delay and
context cancellation: error when its legal-move generation is empty, otherwise
the check-escape re-filter followed by best-score selection. -/
def MinimaxGetBestMove (n : Nat) (g : Game) : Except String Move :=
  let moves := GenerateAllLegalMoves n g
  if moves.isEmpty then Except.error "no legal moves available"
  else
    let inCheck := isGameInCheck g g.activeColor
    let moves :=
      if inCheck then
        let checkEscapeMoves := findCheckEscapeMoves n g moves
        if ¬checkEscapeMoves.isEmpty then checkEscapeMoves else moves
      else moves
    Except.ok (pickBestMove g moves)

/-- Fold a list of moves through `MakeMove`, requiring every one to be
accepted. -/
def applyMoves (n : Nat) : Game → List Move → Option Game
  | g, [] => some g
  | g, m :: ms =>
    match MakeMove n g m with
    | (g', none) => applyMoves n g' ms
    | (_, some _) => none

/-- Replay a move list with `_ = replay.MakeMove(mv)` semantics (errors
ignored; the receiver is unchanged on a rejected move). -/
def replayIgnoringErrors (n : Nat) : Game → List Move → Game
  | g, [] => g
  | g, m :: ms => replayIgnoringErrors n (MakeMove n g m).1 ms

/-- Modelled from the spec: `UndoMove` is referenced by the repository's undo
tests but its implementation is not among the sources; §4.4 of the spec
specifies: fails with an error if history is empty; otherwise removes and
returns the last move, restoring board/rights/clocks/active-color/status to
the position immediately prior, via "a replay from the initial FEN through
N-1 moves" (§3 lifecycle). -/
def UndoMove (n : Nat) (g : Game) : Game × Except String Move :=
  match g.moveHistory.getLast? with
  | none => (g, Except.error "no moves to undo")
  | some last =>
    let base :=
      if g.startedFromFEN ∧ g.startingFEN ≠ "" then (ParseFEN n NewGame g.startingFEN).1
      else NewGame
    (replayIgnoringErrors n base g.moveHistory.dropLast, Except.ok last)

/-- Parse-and-make a list of coordinate/castling tokens from a game,
requiring every step to succeed ("legal play"). -/
def playNotationList (n : Nat) : Game → List String → Option Game
  | g, [] => some g
  | g, s :: rest =>
    match ParseMove g s with
    | Except.error _ => none
    | Except.ok m =>
      match MakeMove n g m with
      | (g', none) => playNotationList n g' rest
      | (_, some _) => none

/- Test-position helpers for the concrete theorems below. -/

def wPawn : Piece := ⟨PieceType.Pawn, Color.White⟩
def bPawn : Piece := ⟨PieceType.Pawn, Color.Black⟩
def wRook : Piece := ⟨PieceType.Rook, Color.White⟩
def wKnight : Piece := ⟨PieceType.Knight, Color.White⟩
def bBishop : Piece := ⟨PieceType.Bishop, Color.Black⟩
def bQueen : Piece := ⟨PieceType.Queen, Color.Black⟩
def wKing : Piece := ⟨PieceType.King, Color.White⟩
def bKing : Piece := ⟨PieceType.King, Color.Black⟩

def mkBoard (ps : List (Square × Piece)) : Board :=
  ps.foldl (fun b sp => b.SetPiece sp.1 sp.2) ⟨List.replicate 64 emptyPiece⟩

def mkGame (b : Board) (c : Color) (cr : CastlingRights) (ep : Square) (hm mc : Int) : Game :=
  ⟨b, c, cr, ep, hm, mc, [], GameStatus.InProgress, false, ""⟩

/-- C8: For every game state and every move value, if `MakeMove` returns an
error (the move is illegal) then no field of the game is mutated: the post-call
receiver equals the pre-call receiver in every field (board, active color,
castling rights, en-passant target, clocks, move history, and status). -/
theorem c8_illegal_move_no_mutation (n : Nat) (g : Game) (move : Move)
    (h : (MakeMove n g move).2.isSome) : (MakeMove n g move).1 = g := by
  unfold MakeMove at *
  by_cases hleg : IsLegalMove n g move = true
  · simp [hleg] at h
  · simp [hleg]

theorem c8_witness :
    ((MakeMove 4 NewGame ⟨12, 29, MoveType.Normal, wPawn, emptyPiece, PieceType.Empty⟩).2.isSome)
      ∧ (MakeMove 4 NewGame ⟨12, 29, MoveType.Normal, wPawn, emptyPiece, PieceType.Empty⟩).1
          = NewGame :=
  ⟨by decide,
   c8_illegal_move_no_mutation 4 NewGame
     ⟨12, 29, MoveType.Normal, wPawn, emptyPiece, PieceType.Empty⟩ (by decide)⟩

/-- A game about to perform the en-passant capture e5xd6: white pawn e5,
black pawn d5 (which has just double-stepped), en-passant target d6 (= 43),
and a half-move clock deliberately nonzero (as after loading such a position
from FEN). -/
def epGame : Game :=
  mkGame (mkBoard [(E1, wKing), (E8, bKing), (36, wPawn), (35, bPawn)])
    Color.White ⟨false, false, false, false⟩ 43 7 5

def epMove : Move := ⟨36, 43, MoveType.EnPassant, wPawn, bPawn, PieceType.Empty⟩

/-- C3 (failing evaluation): the en-passant capture e5xd6 is accepted by
`MakeMove`, yet afterwards the en-passant target square is still d6 (43, not
cleared) and the half-move clock still holds its old value 7 (not reset to 0),
because `makeMove`'s `EnPassant` branch returns before the bookkeeping
updates.  The claim (and spec §4.4) requires the target cleared and the clock
reset to 0 on every pawn move/capture. -/
theorem c3_enpassant_bookkeeping_skipped :
    (MakeMove 16 epGame epMove).2 = none ∧
    (MakeMove 16 epGame epMove).1.enPassantSquare = 43 ∧
    (MakeMove 16 epGame epMove).1.halfMoveClock = 7 ∧
    (MakeMove 16 epGame epMove).1.board.GetPiece 43 = wPawn ∧
    (MakeMove 16 epGame epMove).1.board.GetPiece 35 = emptyPiece := by
  decide

/-- A game where black can capture the untouched white rook on h1 with a
bishop, via a move typed `Normal` exactly as the engine's own
`GetAllLegalMoves` emits captures; white still holds the kingside castling
right. -/
def rookCaptureGame : Game :=
  mkGame (mkBoard [(E1, wKing), (H1, wRook), (G1, wKnight), (E8, bKing), (35, bBishop)])
    Color.Black ⟨true, false, false, false⟩ (-1) 0 1

def rookCaptureMove : Move := ⟨35, H1, MoveType.Normal, bBishop, emptyPiece, PieceType.Empty⟩

/-- C4 (failing evaluation): with the white rook still on its home square h1,
black's bishop d5xh1 — typed `Normal` with no recorded captured piece, as the
engine's own legal-move generator emits captures — is accepted by `MakeMove`
and captures the rook on h1, yet white's kingside castling right remains
`true`: `updateCastlingRights` only clears on `Capture`-typed moves, so the
"rook captured on its home square" trigger of the claim does not fire. -/
theorem c4_rook_capture_keeps_right :
    rookCaptureGame.board.GetPiece H1 = wRook ∧
    rookCaptureGame.castlingRights.WhiteKingside = true ∧
    (MakeMove 16 rookCaptureGame rookCaptureMove).2 = none ∧
    (MakeMove 16 rookCaptureGame rookCaptureMove).1.board.GetPiece H1 = bBishop ∧
    (MakeMove 16 rookCaptureGame rookCaptureMove).1.castlingRights.WhiteKingside = true := by
  decide

/-- C2 (failing evaluation): `ParseFEN` on a FEN with a valid placement field
but an invalid active-color field returns an error, yet the receiver's board
has been cleared (the source empties and rewrites the board before validating
the later fields) — the game is not left unchanged. -/
theorem c2_parsefen_not_atomic :
    (ParseFEN 16 NewGame "8/8/8/8/8/8/8/8 x - -").2.isSome ∧
    (ParseFEN 16 NewGame "8/8/8/8/8/8/8/8 x - -").1.board = ⟨List.replicate 64 emptyPiece⟩ ∧
    NewGame.board ≠ ⟨List.replicate 64 emptyPiece⟩ := by
  decide

/-
  Congruence infrastructure: none of the move-generation / legality / check
  functions read the `status` field, so overwriting it does not change their
  results.  `updateGameStatus` writes `status` after computing from the same
  state, which is what the C6 theorem needs.
-/

def Game.setStatus (g : Game) (s : GameStatus) : Game := { g with status := s }

theorem setStatus_board (g : Game) (s : GameStatus) : (g.setStatus s).board = g.board := rfl

theorem setStatus_activeColor (g : Game) (s : GameStatus) :
    (g.setStatus s).activeColor = g.activeColor := rfl

theorem setStatus_castlingRights (g : Game) (s : GameStatus) :
    (g.setStatus s).castlingRights = g.castlingRights := rfl

theorem setStatus_enPassantSquare (g : Game) (s : GameStatus) :
    (g.setStatus s).enPassantSquare = g.enPassantSquare := rfl

theorem setStatus_status (g : Game) (s : GameStatus) : (g.setStatus s).status = s := rfl

theorem copy_setStatus (g : Game) (s : GameStatus) :
    (g.setStatus s).copy = g.copy.setStatus s := rfl

theorem updateEnPassantSquare_eq (g : Game) (m : Move) :
    updateEnPassantSquare g m =
      { g with enPassantSquare :=
          if m.piece.type = PieceType.Pawn ∧ iabs (rankOf m.To - rankOf m.From) = 2 then
            Int.tdiv (m.From + m.To) 2
          else -1 } := by
  unfold updateEnPassantSquare
  split_ifs <;> rfl

theorem updateHalfMoveClock_eq (g : Game) (m : Move) :
    updateHalfMoveClock g m =
      { g with halfMoveClock :=
          if m.piece.type = PieceType.Pawn ∨ m.type = MoveType.Capture then 0
          else g.halfMoveClock + 1 } := by
  unfold updateHalfMoveClock
  split_ifs <;> rfl

theorem mmwsu_setStatus (g : Game) (s : GameStatus) (m : Move) :
    makeMoveWithoutStatusUpdate (g.setStatus s) m =
      (makeMoveWithoutStatusUpdate g m).setStatus s := by
  obtain ⟨f, t, ty, p, cap, promo⟩ := m
  cases ty <;>
    simp only [makeMoveWithoutStatusUpdate, reduceIte, reduceCtorEq, Game.setStatus,
      updateEnPassantSquare_eq, updateHalfMoveClock_eq, updateCastlingRights,
      executeCastling, executeEnPassant]

theorem parseCastlingMove_setStatus (g : Game) (s : GameStatus) (k : Bool) :
    parseCastlingMove (g.setStatus s) k = parseCastlingMove g k := rfl

theorem generatePawnMoves_setStatus (g : Game) (s : GameStatus) (sq : Square) :
    generatePawnMoves (g.setStatus s) sq = generatePawnMoves g sq := rfl

theorem generateRookMoves_setStatus (g : Game) (s : GameStatus) (sq : Square) :
    generateRookMoves (g.setStatus s) sq = generateRookMoves g sq := rfl

theorem generateKnightMoves_setStatus (g : Game) (s : GameStatus) (sq : Square) :
    generateKnightMoves (g.setStatus s) sq = generateKnightMoves g sq := rfl

theorem generateBishopMoves_setStatus (g : Game) (s : GameStatus) (sq : Square) :
    generateBishopMoves (g.setStatus s) sq = generateBishopMoves g sq := rfl

theorem generateQueenMoves_setStatus (g : Game) (s : GameStatus) (sq : Square) :
    generateQueenMoves (g.setStatus s) sq = generateQueenMoves g sq := rfl

theorem wouldBe_setStatus (ic : Game → Color → Bool)
    (hic : ∀ g s c, ic (g.setStatus s) c = ic g c) (g : Game) (s : GameStatus)
    (m : Move) (c : Color) :
    wouldBeInCheckAfterMoveH ic (g.setStatus s) m c = wouldBeInCheckAfterMoveH ic g m c := by
  unfold wouldBeInCheckAfterMoveH
  rw [copy_setStatus, mmwsu_setStatus, hic]

theorem canCastleKingsideH_setStatus (ic : Game → Color → Bool)
    (hic : ∀ g s c, ic (g.setStatus s) c = ic g c) (g : Game) (s : GameStatus) (color : Color) :
    canCastleKingsideH ic (g.setStatus s) color = canCastleKingsideH ic g color := by
  simp only [canCastleKingsideH, setStatus_castlingRights, setStatus_board, hic,
    wouldBe_setStatus ic hic]

theorem canCastleQueensideH_setStatus (ic : Game → Color → Bool)
    (hic : ∀ g s c, ic (g.setStatus s) c = ic g c) (g : Game) (s : GameStatus) (color : Color) :
    canCastleQueensideH ic (g.setStatus s) color = canCastleQueensideH ic g color := by
  simp only [canCastleQueensideH, setStatus_castlingRights, setStatus_board, hic,
    wouldBe_setStatus ic hic]

theorem generateCastlingMovesH_setStatus (ic : Game → Color → Bool)
    (hic : ∀ g s c, ic (g.setStatus s) c = ic g c) (g : Game) (s : GameStatus) (sq : Square) :
    generateCastlingMovesH ic (g.setStatus s) sq = generateCastlingMovesH ic g sq := by
  simp only [generateCastlingMovesH, setStatus_board, parseCastlingMove_setStatus,
    canCastleKingsideH_setStatus ic hic, canCastleQueensideH_setStatus ic hic]

theorem generateKingMovesH_setStatus (ic : Game → Color → Bool)
    (hic : ∀ g s c, ic (g.setStatus s) c = ic g c) (g : Game) (s : GameStatus) (sq : Square) :
    generateKingMovesH ic (g.setStatus s) sq = generateKingMovesH ic g sq := by
  simp only [generateKingMovesH, setStatus_board, generateCastlingMovesH_setStatus ic hic]

theorem generatePseudoLegalMovesH_setStatus (ic : Game → Color → Bool)
    (hic : ∀ g s c, ic (g.setStatus s) c = ic g c) (g : Game) (s : GameStatus)
    (sq : Square) (piece : Piece) :
    generatePseudoLegalMovesH ic (g.setStatus s) sq piece =
      generatePseudoLegalMovesH ic g sq piece := by
  obtain ⟨pt, pc⟩ := piece
  cases pt <;>
    simp only [generatePseudoLegalMovesH, generatePawnMoves_setStatus,
      generateRookMoves_setStatus, generateKnightMoves_setStatus,
      generateBishopMoves_setStatus, generateQueenMoves_setStatus,
      generateKingMovesH_setStatus ic hic]

theorem isInCheck_setStatus :
    ∀ (n : Nat) (g : Game) (s : GameStatus) (c : Color),
      isInCheck n (g.setStatus s) c = isInCheck n g c := by
  intro n
  induction n with
  | zero => intro g s c; rfl
  | succ n ih =>
    intro g s c
    simp only [isInCheck, setStatus_board,
      generatePseudoLegalMovesH_setStatus (isInCheck n) ih]

theorem canCastleH_setStatus (ic : Game → Color → Bool)
    (hic : ∀ g s c, ic (g.setStatus s) c = ic g c) (g : Game) (s : GameStatus) (k : Bool) :
    canCastleH ic (g.setStatus s) k = canCastleH ic g k := by
  simp only [canCastleH, setStatus_activeColor, canCastleKingsideH_setStatus ic hic,
    canCastleQueensideH_setStatus ic hic]

theorem isPawnMoveLegal_setStatus (g : Game) (s : GameStatus) (m : Move) :
    isPawnMoveLegal (g.setStatus s) m = isPawnMoveLegal g m := rfl

theorem isKingMoveLegalH_setStatus (ic : Game → Color → Bool)
    (hic : ∀ g s c, ic (g.setStatus s) c = ic g c) (g : Game) (s : GameStatus) (m : Move) :
    isKingMoveLegalH ic (g.setStatus s) m = isKingMoveLegalH ic g m := by
  simp only [isKingMoveLegalH, setStatus_board, canCastleH_setStatus ic hic]

theorem isPseudoLegalMoveH_setStatus (ic : Game → Color → Bool)
    (hic : ∀ g s c, ic (g.setStatus s) c = ic g c) (g : Game) (s : GameStatus) (m : Move) :
    isPseudoLegalMoveH ic (g.setStatus s) m = isPseudoLegalMoveH ic g m := by
  rcases hm : m.piece.type <;>
    simp only [isPseudoLegalMoveH, hm, isPawnMoveLegal_setStatus,
      isKingMoveLegalH_setStatus ic hic] <;> rfl

theorem IsLegalMoveH_setStatus (ic : Game → Color → Bool)
    (hic : ∀ g s c, ic (g.setStatus s) c = ic g c) (g : Game) (s : GameStatus) (m : Move) :
    IsLegalMoveH ic (g.setStatus s) m = IsLegalMoveH ic g m := by
  simp only [IsLegalMoveH, setStatus_board, setStatus_activeColor,
    isPseudoLegalMoveH_setStatus ic hic, copy_setStatus, mmwsu_setStatus, hic]

theorem IsLegalMove_setStatus (n : Nat) (g : Game) (s : GameStatus) (m : Move) :
    IsLegalMove n (g.setStatus s) m = IsLegalMove n g m :=
  IsLegalMoveH_setStatus (isInCheck n) (isInCheck_setStatus n) g s m

theorem GetAllLegalMoves_setStatus (n : Nat) (g : Game) (s : GameStatus) :
    GetAllLegalMoves n (g.setStatus s) = GetAllLegalMoves n g := by
  unfold GetAllLegalMoves
  simp only [setStatus_board, setStatus_activeColor,
    generatePseudoLegalMovesH_setStatus (isInCheck n) (isInCheck_setStatus n)]
  simp only [IsLegalMove_setStatus]

theorem updateGameStatus_activeColor (n : Nat) (g : Game) :
    (updateGameStatus n g).activeColor = g.activeColor := by
  simp only [updateGameStatus]
  split_ifs <;> rfl

theorem GetAllLegalMoves_updateGameStatus (n : Nat) (g : Game) :
    GetAllLegalMoves n (updateGameStatus n g) = GetAllLegalMoves n g := by
  simp only [updateGameStatus]
  split_ifs <;> exact GetAllLegalMoves_setStatus n g _

theorem isInCheck_updateGameStatus (n : Nat) (g : Game) (c : Color) :
    isInCheck n (updateGameStatus n g) c = isInCheck n g c := by
  simp only [updateGameStatus]
  split_ifs <;> exact isInCheck_setStatus n g _ c

theorem updateGameStatus_status_spec (n : Nat) (g : Game) :
    (updateGameStatus n g).status =
      (if GetAllLegalMoves n (updateGameStatus n g) = [] then
        (if isInCheck n (updateGameStatus n g) (updateGameStatus n g).activeColor = true then
          (if (updateGameStatus n g).activeColor = Color.White then GameStatus.BlackWins
           else GameStatus.WhiteWins)
         else GameStatus.Draw)
       else
        (if isInCheck n (updateGameStatus n g) (updateGameStatus n g).activeColor = true then
          GameStatus.Check
         else GameStatus.InProgress)) := by
  rw [GetAllLegalMoves_updateGameStatus, isInCheck_updateGameStatus,
    updateGameStatus_activeColor]
  simp only [updateGameStatus]
  split_ifs <;> simp_all [List.isEmpty_iff, Game.setStatus]

theorem makeMove_activeColor (g : Game) (m : Move) :
    (makeMove g m).activeColor = g.activeColor := by
  obtain ⟨f, t, ty, p, cap, promo⟩ := m
  cases ty <;>
    simp only [makeMove, reduceIte, reduceCtorEq, updateEnPassantSquare_eq,
      updateHalfMoveClock_eq, updateCastlingRights, executeCastling, executeEnPassant]

theorem MakeMove_success_eq (n : Nat) (g : Game) (m : Move)
    (hleg : IsLegalMove n g m = true) :
    MakeMove n g m =
      (updateGameStatus n
        (if ({ makeMove g m with
                moveHistory := (makeMove g m).moveHistory ++ [m] } : Game).activeColor
              = Color.White then
          { makeMove g m with
              moveHistory := (makeMove g m).moveHistory ++ [m],
              activeColor := Color.Black }
         else
          { makeMove g m with
              moveHistory := (makeMove g m).moveHistory ++ [m],
              activeColor := Color.White,
              moveCount := (makeMove g m).moveCount + 1 }), none) := by
  simp only [MakeMove, hleg, not_true_eq_false, if_false]

/-- C6: After every successful `MakeMove`, the stored status is derived
exactly as the claim states: no legal move for the new side to move and its
king attacked means the mover of the last move wins; no legal move and no
attack means draw (stalemate); otherwise check when attacked, in-progress
when not. -/
theorem c6_status_derivation (n : Nat) (g : Game) (m : Move) (g' : Game)
    (h : MakeMove n g m = (g', none)) :
    (g'.status =
      if GetAllLegalMoves n g' = [] then
        if isInCheck n g' g'.activeColor = true then
          if g'.activeColor = Color.White then GameStatus.BlackWins else GameStatus.WhiteWins
        else GameStatus.Draw
      else
        if isInCheck n g' g'.activeColor = true then GameStatus.Check
        else GameStatus.InProgress) ∧
    (GetAllLegalMoves n g' = [] → isInCheck n g' g'.activeColor = true →
      g'.status = if g.activeColor = Color.White then GameStatus.WhiteWins
                  else GameStatus.BlackWins) := by
  by_cases hleg : IsLegalMove n g m = true
  · rw [MakeMove_success_eq n g m hleg] at h
    rw [Prod.mk.injEq] at h
    obtain ⟨hg, -⟩ := h
    subst hg
    refine ⟨updateGameStatus_status_spec n _, ?_⟩
    intro hempty hcheck
    rw [updateGameStatus_status_spec n _, if_pos hempty, if_pos hcheck,
      updateGameStatus_activeColor]
    have hhist : ({ makeMove g m with
        moveHistory := (makeMove g m).moveHistory ++ [m] } : Game).activeColor
        = g.activeColor := makeMove_activeColor g m
    rcases hc : g.activeColor <;> rw [hhist, hc] <;> simp
  · exfalso
    have : MakeMove n g m = (g, some "illegal move") := by
      unfold MakeMove
      rw [if_pos hleg]
    rw [this] at h
    exact Option.noConfusion (congrArg Prod.snd h)

/-- A stalemate-in-one position: black king a8, white queen c7, white king
b5; white to move plays Kb5-b6, leaving black with no legal move and not in
check (stalemate). -/
def c6wGame : Game :=
  mkGame (mkBoard [(56, bKing), (50, ⟨PieceType.Queen, Color.White⟩), (33, wKing)])
    Color.White ⟨false, false, false, false⟩ (-1) 0 1

def c6wMove : Move := ⟨33, 41, MoveType.Normal, wKing, emptyPiece, PieceType.Empty⟩

theorem c6_witness :
    MakeMove 16 c6wGame c6wMove = ((MakeMove 16 c6wGame c6wMove).1, none) ∧
    (MakeMove 16 c6wGame c6wMove).1.status = GameStatus.Draw :=
  ⟨by decide,
   by
    have h := c6_status_derivation 16 c6wGame c6wMove (MakeMove 16 c6wGame c6wMove).1
      (by decide)
    rw [h.1]
    decide⟩

/-- The four castling-legality clauses as the spec states them (§4.3): the
right is still held; all squares strictly between king and rook are empty;
the king is not currently in check; and simulating the king's movement one
square at a time toward its destination never lands it on an attacked
square. -/
def specCanCastle (n : Nat) (g : Game) (color : Color) (kingside : Bool) : Prop :=
  let kingSquare : Square := if color = Color.Black then E8 else E1
  let between : List Square :=
    if kingside then [kingSquare + 1, kingSquare + 2]
    else [kingSquare - 3, kingSquare - 2, kingSquare - 1]
  let path : List Square :=
    if kingside then [kingSquare + 1, kingSquare + 2]
    else [kingSquare - 1, kingSquare - 2]
  ((if color = Color.White then
      (if kingside then g.castlingRights.WhiteKingside else g.castlingRights.WhiteQueenside)
    else
      (if kingside then g.castlingRights.BlackKingside else g.castlingRights.BlackQueenside))
    = true) ∧
  (∀ sq ∈ between, (g.board.GetPiece sq).IsEmpty = true) ∧
  isInCheck n g color = false ∧
  (∀ sq ∈ path,
    wouldBeInCheckAfterMove n g
      ⟨kingSquare, sq, MoveType.Normal, g.board.GetPiece kingSquare, emptyPiece,
        PieceType.Empty⟩ color = false)

/-- C7: for white and black, `canCastleKingside`/`canCastleQueenside` return
true exactly when the four spec clauses hold simultaneously, and a denied
castling attempt (a king's castling move when the corresponding side's check
returns false) is rejected by `MakeMove` with the state unchanged — no
partial castling. -/
theorem c7_castling_iff (n : Nat) (g : Game) (color : Color)
    (h : color = Color.White ∨ color = Color.Black) :
    (canCastleKingside n g color = true ↔ specCanCastle n g color true) ∧
    (canCastleQueenside n g color = true ↔ specCanCastle n g color false) ∧
    (∀ m : Move, m.type = MoveType.Castling → m.piece.type = PieceType.King →
      (fileOf m.To > fileOf m.From → canCastleKingside n g g.activeColor = false →
        MakeMove n g m = (g, some "illegal move")) ∧
      (¬fileOf m.To > fileOf m.From → canCastleQueenside n g g.activeColor = false →
        MakeMove n g m = (g, some "illegal move"))) := by
  refine ⟨?_, ?_, ?_⟩
  · rcases h with hc | hc <;> subst hc <;>
      simp only [canCastleKingside, canCastleKingsideH, specCanCastle,
        wouldBeInCheckAfterMove, reduceCtorEq, reduceIte, List.all_eq_true,
        List.forall_mem_cons, List.forall_mem_nil, and_true] <;>
      split_ifs <;> simp_all [sub_eq_add_neg]
  · rcases h with hc | hc <;> subst hc <;>
      simp only [canCastleQueenside, canCastleQueensideH, specCanCastle,
        wouldBeInCheckAfterMove, reduceCtorEq, reduceIte, List.all_eq_true,
        List.forall_mem_cons, List.forall_mem_nil, and_true] <;>
      split_ifs <;> simp_all [sub_eq_add_neg]
  · intro m hty hking
    constructor <;> intro hdir hcc
    · have hb : (decide (fileOf m.From < fileOf m.To)) = true := decide_eq_true hdir
      have hk : isPseudoLegalMoveH (isInCheck n) g m = false := by
        simp only [canCastleKingside] at hcc
        simp only [isPseudoLegalMoveH, hking, isKingMoveLegalH, hty, reduceIte, canCastleH,
          hb, if_true]
        exact hcc
      have hfalse : IsLegalMove n g m = false := by
        simp only [IsLegalMove, IsLegalMoveH, hk]
        split_ifs <;> simp_all
      unfold MakeMove
      rw [if_pos (by simp [hfalse])]
    · have hb : (decide (fileOf m.From < fileOf m.To)) = false := by
        simp only [decide_eq_false_iff_not]
        exact hdir
      have hk : isPseudoLegalMoveH (isInCheck n) g m = false := by
        simp only [canCastleQueenside] at hcc
        simp only [isPseudoLegalMoveH, hking, isKingMoveLegalH, hty, reduceIte, canCastleH,
          hb, if_false]
        exact hcc
      have hfalse : IsLegalMove n g m = false := by
        simp only [IsLegalMove, IsLegalMoveH, hk]
        split_ifs <;> simp_all
      unfold MakeMove
      rw [if_pos (by simp [hfalse])]

/-- White king e1 and rook h1 with the kingside right held, black king h8:
kingside castling is available and all four clauses hold. -/
def c7wGame : Game :=
  mkGame (mkBoard [(E1, wKing), (H1, wRook), (H8, bKing)])
    Color.White ⟨true, false, false, false⟩ (-1) 0 1

theorem c7_witness :
    (Color.White = Color.White ∨ Color.White = Color.Black) ∧
    specCanCastle 16 c7wGame Color.White true ∧
    canCastleKingside 16 c7wGame Color.White = true :=
  ⟨Or.inl rfl,
   ((c7_castling_iff 16 c7wGame Color.White (Or.inl rfl)).1).mp (by decide),
   by decide⟩

theorem mem_generatePawnMoves (g : Game) (sq : Square) (m : Move)
    (h : m ∈ generatePawnMoves g sq) :
    m.type = MoveType.Normal ∧ m.captured = emptyPiece := by
  simp only [generatePawnMoves, List.mem_append, List.mem_flatMap] at h
  rcases h with hf | ⟨off, hoff, hc⟩
  · split_ifs at hf <;> simp_all [List.mem_cons] <;> rcases hf with h1 | h1 <;> subst h1 <;>
      exact ⟨rfl, rfl⟩
  · split_ifs at hc <;> simp_all

theorem mem_slideRay (g : Game) (sq : Square) (p : Piece) (dr df : Int) :
    ∀ (fuel : Nat) (i : Int) (m : Move), m ∈ slideRay g sq p dr df fuel i →
      m.type = MoveType.Normal ∧ m.captured = emptyPiece := by
  intro fuel
  induction fuel with
  | zero => intro i m h; simp [slideRay] at h
  | succ fuel ih =>
    intro i m h
    simp only [slideRay] at h
    split_ifs at h <;> simp_all [List.mem_cons]
    rcases h with h1 | h1
    · subst h1; exact ⟨rfl, rfl⟩
    · exact ih (i + 1) m h1

theorem mem_generateSlidingMoves (g : Game) (sq : Square) (dirs : List (Int × Int)) (m : Move)
    (h : m ∈ generateSlidingMoves g sq dirs) :
    m.type = MoveType.Normal ∧ m.captured = emptyPiece := by
  simp only [generateSlidingMoves, List.mem_flatMap] at h
  obtain ⟨d, -, hm⟩ := h
  exact mem_slideRay g sq _ d.1 d.2 7 1 m hm

theorem mem_generateKnightMoves (g : Game) (sq : Square) (m : Move)
    (h : m ∈ generateKnightMoves g sq) :
    m.type = MoveType.Normal ∧ m.captured = emptyPiece := by
  simp only [generateKnightMoves, List.mem_flatMap] at h
  obtain ⟨d, -, hm⟩ := h
  split_ifs at hm <;> simp_all

theorem parseCastlingMove_ok (g : Game) (b : Bool) (m : Move)
    (h : parseCastlingMove g b = Except.ok m) :
    m.type = MoveType.Castling ∧ m.captured = emptyPiece := by
  simp only [parseCastlingMove] at h
  split_ifs at h
  all_goals
    first
      | (simp only [Except.ok.injEq] at h; subst h; exact ⟨rfl, rfl⟩)
      | exact absurd h (by simp)

theorem mem_generateCastlingMovesH (ic : Game → Color → Bool) (g : Game) (sq : Square)
    (m : Move) (h : m ∈ generateCastlingMovesH ic g sq) :
    m.type = MoveType.Castling ∧ m.captured = emptyPiece := by
  simp only [generateCastlingMovesH] at h
  split_ifs at h <;>
    first
      | exact absurd h (List.not_mem_nil m)
      | (rw [List.mem_append] at h
         rcases h with h1 | h1 <;>
           first
             | exact absurd h1 (List.not_mem_nil m)
             | (cases hp : parseCastlingMove g true with
                 | error e => rw [hp] at h1; simp at h1
                 | ok mv =>
                     rw [hp] at h1
                     simp at h1
                     subst h1
                     exact parseCastlingMove_ok g true _ hp)
             | (cases hp : parseCastlingMove g false with
                 | error e => rw [hp] at h1; simp at h1
                 | ok mv =>
                     rw [hp] at h1
                     simp at h1
                     subst h1
                     exact parseCastlingMove_ok g false _ hp))

theorem mem_generateKingMovesH (ic : Game → Color → Bool) (g : Game) (sq : Square)
    (m : Move) (h : m ∈ generateKingMovesH ic g sq) :
    (m.type = MoveType.Normal ∨ m.type = MoveType.Castling) ∧ m.captured = emptyPiece := by
  simp only [generateKingMovesH, List.mem_append, List.mem_flatMap] at h
  rcases h with ⟨d, -, hm⟩ | hm
  · split_ifs at hm <;> simp_all
  · have := mem_generateCastlingMovesH ic g sq m hm
    exact ⟨Or.inr this.1, this.2⟩

theorem mem_generatePseudoLegalMovesH (ic : Game → Color → Bool) (g : Game) (sq : Square)
    (p : Piece) (m : Move) (h : m ∈ generatePseudoLegalMovesH ic g sq p) :
    (m.type = MoveType.Normal ∨ m.type = MoveType.Castling) ∧ m.captured = emptyPiece := by
  obtain ⟨pt, pc⟩ := p
  cases pt <;> simp only [generatePseudoLegalMovesH] at h
  case Empty => simp at h
  case Pawn => exact ⟨Or.inl (mem_generatePawnMoves g sq m h).1, (mem_generatePawnMoves g sq m h).2⟩
  case Rook => exact ⟨Or.inl (mem_generateSlidingMoves g sq _ m h).1, (mem_generateSlidingMoves g sq _ m h).2⟩
  case Knight => exact ⟨Or.inl (mem_generateKnightMoves g sq m h).1, (mem_generateKnightMoves g sq m h).2⟩
  case Bishop => exact ⟨Or.inl (mem_generateSlidingMoves g sq _ m h).1, (mem_generateSlidingMoves g sq _ m h).2⟩
  case Queen => exact ⟨Or.inl (mem_generateSlidingMoves g sq _ m h).1, (mem_generateSlidingMoves g sq _ m h).2⟩
  case King => exact mem_generateKingMovesH ic g sq m h

/-- C10: every move produced by the engine's full legal-move generation has
kind `Normal` or `Castling` and an empty recorded captured piece — the
generator never emits `Capture`, `EnPassant` or `Promotion` kinds; pawn
captures come out as `Normal` with no captured piece, and en-passant captures
and promotions are never offered. -/
theorem c10_generator_move_kinds (n : Nat) (g : Game) (m : Move)
    (h : m ∈ GetAllLegalMoves n g) :
    (m.type = MoveType.Normal ∨ m.type = MoveType.Castling) ∧ m.captured = emptyPiece := by
  simp only [GetAllLegalMoves, List.mem_flatMap] at h
  obtain ⟨i, -, hm⟩ := h
  split_ifs at hm
  · simp at hm
  · rw [List.mem_filter] at hm
    exact mem_generatePseudoLegalMovesH (isInCheck n) g (Int.ofNat i) _ m hm.1

/-- A tiny position (kings plus a white pawn able to capture) for the C10
witness. -/
def c10wGame : Game :=
  mkGame (mkBoard [(E1, wKing), (H8, bKing), (28, wPawn), (35, bPawn)])
    Color.White ⟨false, false, false, false⟩ (-1) 0 1

theorem c10_witness :
    (⟨28, 35, MoveType.Normal, wPawn, emptyPiece, PieceType.Empty⟩ : Move)
        ∈ GetAllLegalMoves 16 c10wGame ∧
    ((MoveType.Normal = MoveType.Normal ∨ MoveType.Normal = MoveType.Castling) ∧
      emptyPiece = emptyPiece) :=
  ⟨by decide,
   c10_generator_move_kinds 16 c10wGame
     ⟨28, 35, MoveType.Normal, wPawn, emptyPiece, PieceType.Empty⟩ (by decide)⟩

deriving instance DecidableEq for Except

theorem mem_GenerateAllLegalMoves_isLegal (n : Nat) (g : Game) (m : Move)
    (h : m ∈ GenerateAllLegalMoves n g) : IsLegalMove n g m = true := by
  simp only [GenerateAllLegalMoves, List.mem_flatMap] at h
  obtain ⟨i, -, hm⟩ := h
  split_ifs at hm
  · simp at hm
  · simp at hm
  · rw [List.mem_filter] at hm
    exact hm.2

theorem findCheckEscape_self (n : Nat) (g : Game) :
    findCheckEscapeMoves n g (GenerateAllLegalMoves n g) = GenerateAllLegalMoves n g := by
  unfold findCheckEscapeMoves
  rw [List.filter_eq_self]
  intro m hm
  exact mem_GenerateAllLegalMoves_isLegal n g m hm

theorem pickBestMove_cons (g : Game) (m0 : Move) (l : List Move) (a : Move) :
    pickBestMove g (m0 :: (l ++ [a])) =
      (if evaluateMove g a > evaluateMove g (pickBestMove g (m0 :: l)) then a
       else pickBestMove g (m0 :: l)) := by
  simp [pickBestMove, List.foldl_append]

/-- The selection loop picks the first move attaining the maximal score:
there is a decomposition with every earlier move scoring strictly less and
every move scoring at most the chosen one. -/
theorem pickBestMove_spec (g : Game) (m0 : Move) (rest : List Move) :
    ∃ pre post, m0 :: rest = pre ++ pickBestMove g (m0 :: rest) :: post ∧
      (∀ x ∈ m0 :: rest, evaluateMove g x ≤ evaluateMove g (pickBestMove g (m0 :: rest))) ∧
      (∀ x ∈ pre, evaluateMove g x < evaluateMove g (pickBestMove g (m0 :: rest))) := by
  induction rest using List.reverseRecOn with
  | nil =>
    refine ⟨[], [], by simp [pickBestMove], ?_, by simp⟩
    intro x hx
    simp only [List.mem_singleton] at hx
    subst hx
    simp [pickBestMove]
  | append_singleton l a ih =>
    obtain ⟨pre, post, hsplit, hmax, hpre⟩ := ih
    rw [pickBestMove_cons]
    by_cases hgt : evaluateMove g a > evaluateMove g (pickBestMove g (m0 :: l))
    · refine ⟨m0 :: l, [], by simp [hgt], ?_, ?_⟩
      · intro x hx
        rw [if_pos hgt]
        have hx' : x = m0 ∨ x ∈ l ∨ x = a := by simpa using hx
        rcases hx' with h1 | h1 | h1
        · exact le_of_lt (lt_of_le_of_lt (hmax x (by simp [h1])) hgt)
        · exact le_of_lt (lt_of_le_of_lt (hmax x (by simp [h1])) hgt)
        · rw [h1]
      · intro x hx
        rw [if_pos hgt]
        exact lt_of_le_of_lt (hmax x hx) hgt
    · refine ⟨pre, post ++ [a], ?_, ?_, ?_⟩
      · rw [if_neg hgt]
        rw [show pre ++ pickBestMove g (m0 :: l) :: (post ++ [a]) =
              (pre ++ pickBestMove g (m0 :: l) :: post) ++ [a] by simp]
        rw [← hsplit]
        simp
      · intro x hx
        rw [if_neg hgt]
        have hx' : x = m0 ∨ x ∈ l ∨ x = a := by simpa using hx
        rcases hx' with h1 | h1 | h1
        · exact hmax x (by simp [h1])
        · exact hmax x (by simp [h1])
        · rw [h1]
          exact le_of_not_lt hgt
      · intro x hx
        rw [if_neg hgt]
        exact hpre x hx

theorem MinimaxGetBestMove_eq (n : Nat) (g : Game)
    (h : GenerateAllLegalMoves n g ≠ []) :
    MinimaxGetBestMove n g = Except.ok (pickBestMove g (GenerateAllLegalMoves n g)) := by
  simp only [MinimaxGetBestMove]
  rw [if_neg (by simp [List.isEmpty_iff, h])]
  by_cases hic : isGameInCheck g g.activeColor = true
  · rw [if_pos hic, findCheckEscape_self, if_pos (by simp [List.isEmpty_iff, h])]
  · rw [if_neg hic]

/-- C9 amended: the heuristic engine fails with "no legal moves available"
exactly when its own legal-move generation is empty, and otherwise returns
the first generated legal move attaining the maximal heuristic score. -/
theorem c9_best_move_selection (n : Nat) (g : Game) :
    (MinimaxGetBestMove n g = Except.error "no legal moves available" ↔
      GenerateAllLegalMoves n g = []) ∧
    (∀ best : Move, MinimaxGetBestMove n g = Except.ok best →
      ∃ pre post, GenerateAllLegalMoves n g = pre ++ best :: post ∧
        (∀ x ∈ GenerateAllLegalMoves n g, evaluateMove g x ≤ evaluateMove g best) ∧
        (∀ x ∈ pre, evaluateMove g x < evaluateMove g best)) := by
  constructor
  · constructor
    · intro h
      by_contra hne
      rw [MinimaxGetBestMove_eq n g hne] at h
      exact Except.noConfusion h
    · intro h
      unfold MinimaxGetBestMove
      rw [if_pos (by simp [List.isEmpty_iff, h])]
  · intro best hbest
    by_cases hne : GenerateAllLegalMoves n g = []
    · unfold MinimaxGetBestMove at hbest
      rw [if_pos (by simp [List.isEmpty_iff, hne])] at hbest
      exact Except.noConfusion hbest
    · rw [MinimaxGetBestMove_eq n g hne] at hbest
      have hb : best = pickBestMove g (GenerateAllLegalMoves n g) :=
        (Except.ok.injEq _ _).mp hbest.symm
      subst hb
      rcases hl : GenerateAllLegalMoves n g with - | ⟨m0, rest⟩
      · exact absurd hl hne
      · rw [hl] at *
        exact pickBestMove_spec g m0 rest

/-- A position whose only legal move is the en-passant capture e5xd6: white
Ka8 and pawn e5; black Kc8, Qb6 covering a7/b7/b8, pawn e6 blocking the push,
pawn d5 just double-stepped (en-passant target d6). -/
def epOnlyGame : Game :=
  mkGame (mkBoard [(A8, wKing), (36, wPawn), (C8, bKing), (41, bQueen),
    (44, bPawn), (35, bPawn)])
    Color.White ⟨false, false, false, false⟩ 43 0 3

def epOnlyMove : Move := ⟨36, 43, MoveType.EnPassant, wPawn, bPawn, PieceType.Empty⟩

/-- C9 (failing evaluation): in `epOnlyGame` the en-passant capture e5xd6 is
a legal move (`IsLegalMove` accepts it), yet `MinimaxAI.GetBestMove` fails
with "no legal moves available": its generator never produces en-passant
captures, so the claimed "fails exactly when the position has no legal moves"
is violated. -/
theorem c9_counterexample :
    MinimaxGetBestMove 16 epOnlyGame = Except.error "no legal moves available" ∧
    IsLegalMove 16 epOnlyGame epOnlyMove = true := by
  decide

theorem c9_witness :
    MinimaxGetBestMove 16 NewGame =
      Except.ok ⟨11, 27, MoveType.Normal, wPawn, emptyPiece, PieceType.Empty⟩ ∧
    (∃ pre post,
      GenerateAllLegalMoves 16 NewGame =
        pre ++ (⟨11, 27, MoveType.Normal, wPawn, emptyPiece, PieceType.Empty⟩ : Move) :: post ∧
      (∀ x ∈ GenerateAllLegalMoves 16 NewGame,
        evaluateMove NewGame x ≤
          evaluateMove NewGame ⟨11, 27, MoveType.Normal, wPawn, emptyPiece, PieceType.Empty⟩) ∧
      (∀ x ∈ pre,
        evaluateMove NewGame x <
          evaluateMove NewGame ⟨11, 27, MoveType.Normal, wPawn, emptyPiece, PieceType.Empty⟩)) :=
  ⟨by decide,
   (c9_best_move_selection 16 NewGame).2
     ⟨11, 27, MoveType.Normal, wPawn, emptyPiece, PieceType.Empty⟩ (by decide)⟩

theorem makeMove_moveHistory (g : Game) (m : Move) :
    (makeMove g m).moveHistory = g.moveHistory := by
  obtain ⟨f, t, ty, p, cap, promo⟩ := m
  cases ty <;>
    simp only [makeMove, reduceIte, reduceCtorEq, updateEnPassantSquare_eq,
      updateHalfMoveClock_eq, updateCastlingRights, executeCastling, executeEnPassant]

theorem makeMove_startedFromFEN (g : Game) (m : Move) :
    (makeMove g m).startedFromFEN = g.startedFromFEN := by
  obtain ⟨f, t, ty, p, cap, promo⟩ := m
  cases ty <;>
    simp only [makeMove, reduceIte, reduceCtorEq, updateEnPassantSquare_eq,
      updateHalfMoveClock_eq, updateCastlingRights, executeCastling, executeEnPassant]

theorem makeMove_startingFEN (g : Game) (m : Move) :
    (makeMove g m).startingFEN = g.startingFEN := by
  obtain ⟨f, t, ty, p, cap, promo⟩ := m
  cases ty <;>
    simp only [makeMove, reduceIte, reduceCtorEq, updateEnPassantSquare_eq,
      updateHalfMoveClock_eq, updateCastlingRights, executeCastling, executeEnPassant]

theorem updateGameStatus_moveHistory (n : Nat) (g : Game) :
    (updateGameStatus n g).moveHistory = g.moveHistory := by
  simp only [updateGameStatus]
  split_ifs <;> rfl

theorem updateGameStatus_startedFromFEN (n : Nat) (g : Game) :
    (updateGameStatus n g).startedFromFEN = g.startedFromFEN := by
  simp only [updateGameStatus]
  split_ifs <;> rfl

theorem updateGameStatus_startingFEN (n : Nat) (g : Game) :
    (updateGameStatus n g).startingFEN = g.startingFEN := by
  simp only [updateGameStatus]
  split_ifs <;> rfl

theorem MakeMove_success_fields (n : Nat) (g : Game) (m : Move) (g' : Game)
    (h : MakeMove n g m = (g', none)) :
    g'.moveHistory = g.moveHistory ++ [m] ∧
    g'.startedFromFEN = g.startedFromFEN ∧ g'.startingFEN = g.startingFEN := by
  by_cases hleg : IsLegalMove n g m = true
  · rw [MakeMove_success_eq n g m hleg, Prod.mk.injEq] at h
    obtain ⟨hg, -⟩ := h
    subst hg
    refine ⟨?_, ?_, ?_⟩
    · rw [updateGameStatus_moveHistory]
      split_ifs <;> simp [makeMove_moveHistory]
    · rw [updateGameStatus_startedFromFEN]
      split_ifs <;> simp [makeMove_startedFromFEN]
    · rw [updateGameStatus_startingFEN]
      split_ifs <;> simp [makeMove_startingFEN]
  · have : MakeMove n g m = (g, some "illegal move") := by
      unfold MakeMove
      rw [if_pos hleg]
    rw [this] at h
    exact absurd (congrArg Prod.snd h) (by simp)

theorem applyMoves_snoc (n : Nat) (ms : List Move) (m : Move) :
    ∀ g : Game, applyMoves n g (ms ++ [m]) =
      (applyMoves n g ms).bind fun g1 =>
        match MakeMove n g1 m with
        | (g2, none) => some g2
        | (_, some _) => none := by
  induction ms with
  | nil =>
    intro g
    simp only [List.nil_append, applyMoves, Option.bind_some]
    cases hm : MakeMove n g m with
    | mk g2 err => cases err <;> simp [applyMoves, hm]
  | cons m0 rest ih =>
    intro g
    simp only [List.cons_append, applyMoves]
    cases hm : MakeMove n g m0 with
    | mk g1 err =>
      cases err with
      | none => exact ih g1
      | some e => simp

theorem applyMoves_fields (n : Nat) (ms : List Move) :
    ∀ (g0 g' : Game), applyMoves n g0 ms = some g' →
      g'.moveHistory = g0.moveHistory ++ ms ∧
      g'.startedFromFEN = g0.startedFromFEN ∧ g'.startingFEN = g0.startingFEN := by
  induction ms with
  | nil =>
    intro g0 g' h
    simp only [applyMoves, Option.some.injEq] at h
    subst h
    simp
  | cons m rest ih =>
    intro g0 g' h
    simp only [applyMoves] at h
    cases hm : MakeMove n g0 m with
    | mk g1 err =>
      rw [hm] at h
      cases err with
      | some e => exact Option.noConfusion h
      | none =>
        obtain ⟨h1, h2, h3⟩ := MakeMove_success_fields n g0 m g1 hm
        obtain ⟨h1', h2', h3'⟩ := ih g1 g' h
        exact ⟨by rw [h1', h1]; simp, by rw [h2', h2], by rw [h3', h3]⟩

theorem replay_eq_apply (n : Nat) (ms : List Move) :
    ∀ (g0 g' : Game), applyMoves n g0 ms = some g' →
      replayIgnoringErrors n g0 ms = g' := by
  induction ms with
  | nil =>
    intro g0 g' h
    simp only [applyMoves, Option.some.injEq] at h
    subst h
    rfl
  | cons m rest ih =>
    intro g0 g' h
    simp only [applyMoves] at h
    cases hm : MakeMove n g0 m with
    | mk g1 err =>
      rw [hm] at h
      cases err with
      | some e => exact Option.noConfusion h
      | none =>
        simp only [replayIgnoringErrors, hm]
        exact ih g1 g' h

/-- Iterate `UndoMove` `k` times, collecting the returned moves in order. -/
def undoAll (n : Nat) : Game → Nat → List Move × Game
  | g, 0 => ([], g)
  | g, Nat.succ k =>
    match UndoMove n g with
    | (g', Except.ok m) =>
      let r := undoAll n g' k
      (m :: r.1, r.2)
    | (g', Except.error _) => ([], g')

/-
  C5 machinery: structural well-formedness of reachable game states, used to
  prove the FEN round-trip.
-/

/-- Structural well-formedness of a `Piece` value as stored on a board: an
empty square is exactly the zero `Piece` value, and an occupied square carries
a real color. -/
def WFPiece (p : Piece) : Prop :=
  (p.type = PieceType.Empty → p = emptyPiece) ∧
  (p.type ≠ PieceType.Empty → p.color = Color.White ∨ p.color = Color.Black)

/-- Structural well-formedness of a `Game` value maintained by legal play. -/
def WFGame (g : Game) : Prop :=
  g.board.squares.length = 64 ∧ (∀ p ∈ g.board.squares, WFPiece p) ∧
  (g.activeColor = Color.White ∨ g.activeColor = Color.Black) ∧
  (g.enPassantSquare = -1 ∨ (0 ≤ g.enPassantSquare ∧ g.enPassantSquare ≤ 63)) ∧
  0 ≤ g.halfMoveClock ∧ 1 ≤ g.moveCount

theorem WFGame_NewGame : WFGame NewGame := by
  unfold WFGame WFPiece
  decide

theorem SetPiece_length (b : Board) (sq : Square) (p : Piece) :
    (b.SetPiece sq p).squares.length = b.squares.length := by
  rw [Board.SetPiece]
  split_ifs <;> simp

theorem SetPiece_WF (b : Board) (sq : Square) (p : Piece)
    (hb : ∀ q ∈ b.squares, WFPiece q) (hp : WFPiece p) :
    ∀ q ∈ (b.SetPiece sq p).squares, WFPiece q := by
  rw [Board.SetPiece]
  split_ifs
  · exact hb
  · intro q hq
    rcases List.mem_or_eq_of_mem_set hq with h | h
    · exact hb q h
    · subst h; exact hp

theorem emptyPiece_WF : WFPiece emptyPiece := by
  constructor <;> decide

theorem GetPiece_WF (b : Board) (sq : Square) (hb : ∀ q ∈ b.squares, WFPiece q) :
    WFPiece (b.GetPiece sq) := by
  rw [Board.GetPiece]
  split_ifs
  · exact emptyPiece_WF
  · by_cases hlt : sq.toNat < b.squares.length
    · refine hb _ ?_
      rw [List.getD_eq_getElem?_getD, List.getElem?_eq_getElem hlt]
      exact List.getElem_mem hlt
    · rw [List.getD_eq_getElem?_getD, List.getElem?_eq_none (by omega)]
      exact emptyPiece_WF

theorem iabs_eq_zero (x : Int) (h : iabs x = 0) : x = 0 := by
  rw [iabs] at h
  split_ifs at h <;> omega

theorem GetPiece_nonempty_range (b : Board) (sq : Square)
    (h : (b.GetPiece sq).IsEmpty = false) : 0 ≤ sq ∧ sq ≤ 63 := by
  rw [Board.GetPiece] at h
  by_cases h0 : sq < 0 ∨ sq > 63
  · rw [if_pos h0] at h
    exact absurd h (by decide)
  · push_neg at h0
    exact h0

theorem mid_range_core (F T : Int) (hF0 : 0 ≤ F) (hF1 : F ≤ 63)
    (hfile : Int.tmod T 8 = Int.tmod F 8)
    (hrank : Int.tdiv T 8 = 3 ∨ Int.tdiv T 8 = 4) :
    0 ≤ Int.tdiv (F + T) 2 ∧ Int.tdiv (F + T) 2 ≤ 63 := by
  have hidF := Int.tdiv_add_tmod F 8
  have hidT := Int.tdiv_add_tmod T 8
  have hmF0 := Int.tmod_nonneg 8 hF0
  have hmF1 := Int.tmod_lt_of_pos F (by norm_num : (0 : Int) < 8)
  have hS0 : 0 ≤ F + T := by omega
  have hidS := Int.tdiv_add_tmod (F + T) 2
  have hmS0 := Int.tmod_nonneg 2 hS0
  have hmS1 := Int.tmod_lt_of_pos (F + T) (by norm_num : (0 : Int) < 2)
  omega

theorem iabs_eq_two (x : Int) (h : iabs x = 2) : x = 2 ∨ x = -2 := by
  rw [iabs] at h
  split_ifs at h <;> omega

theorem pawnDouble_mid (g : Game) (m : Move)
    (hF0 : 0 ≤ m.From) (hF1 : m.From ≤ 63)
    (hleg : isPawnMoveLegal g m = true)
    (h2 : iabs (rankOf m.To - rankOf m.From) = 2) :
    0 ≤ Int.tdiv (m.From + m.To) 2 ∧ Int.tdiv (m.From + m.To) 2 ≤ 63 := by
  have hbT : rankOf m.To = Int.tdiv m.To 8 := rfl
  have hbF : rankOf m.From = Int.tdiv m.From 8 := rfl
  have hdfile : iabs (fileOf m.To - fileOf m.From) = 0 → Int.tmod m.To 8 = Int.tmod m.From 8 := by
    intro hA
    have h0 := iabs_eq_zero _ hA
    rw [fileOf, fileOf] at h0
    omega
  simp only [isPawnMoveLegal] at hleg
  rcases iabs_eq_two _ h2 with hr | hr <;>
  · by_cases hc : m.piece.color = Color.Black
    · simp only [if_pos hc] at hleg
      by_cases hA : iabs (fileOf m.To - fileOf m.From) = 0
      · rw [if_pos hA] at hleg
        by_cases hB : rankOf m.To - rankOf m.From = -1 ∧
            (g.board.GetPiece m.To).IsEmpty = true
        · exfalso
          have hB1 := hB.1
          omega
        · rw [if_neg hB] at hleg
          by_cases hC : (rankOf m.From = 1 ∧ m.piece.color = Color.White) ∨
              (rankOf m.From = 6 ∧ m.piece.color = Color.Black)
          · rw [if_pos hC] at hleg
            by_cases hD : rankOf m.To - rankOf m.From = 2 * -1 ∧
                (g.board.GetPiece m.To).IsEmpty = true
            · have hD1 := hD.1
              have hC1 : rankOf m.From = 6 := by
                rcases hC with ⟨-, hC2⟩ | ⟨hC1, -⟩
                · rw [hC2] at hc
                  exact absurd hc (by decide)
                · exact hC1
              exact mid_range_core m.From m.To hF0 hF1 (hdfile hA) (Or.inr (by omega))
            · rw [if_neg (fun hcon => hD (of_decide_eq_true hcon))] at hleg
              rw [if_neg (fun hcon => by
                have hc1 := hcon.1
                rw [hA] at hc1
                exact absurd hc1 (by norm_num))] at hleg
              exact absurd hleg (by decide)
          · rw [if_neg hC, if_neg (by decide)] at hleg
            rw [if_neg (fun hcon => by
              have hc1 := hcon.1
              rw [hA] at hc1
              exact absurd hc1 (by norm_num))] at hleg
            exact absurd hleg (by decide)
      · rw [if_neg hA, if_neg (by decide)] at hleg
        rw [if_neg (fun hcon => by
          have hc2 := hcon.2
          omega)] at hleg
        exact absurd hleg (by decide)
    · simp only [if_neg hc] at hleg
      by_cases hA : iabs (fileOf m.To - fileOf m.From) = 0
      · rw [if_pos hA] at hleg
        by_cases hB : rankOf m.To - rankOf m.From = 1 ∧
            (g.board.GetPiece m.To).IsEmpty = true
        · exfalso
          have hB1 := hB.1
          omega
        · rw [if_neg hB] at hleg
          by_cases hC : (rankOf m.From = 1 ∧ m.piece.color = Color.White) ∨
              (rankOf m.From = 6 ∧ m.piece.color = Color.Black)
          · rw [if_pos hC] at hleg
            by_cases hD : rankOf m.To - rankOf m.From = 2 * 1 ∧
                (g.board.GetPiece m.To).IsEmpty = true
            · have hD1 := hD.1
              have hC1 : rankOf m.From = 1 := by
                rcases hC with ⟨hC1, -⟩ | ⟨-, hC2⟩
                · exact hC1
                · exact absurd hC2 hc
              exact mid_range_core m.From m.To hF0 hF1 (hdfile hA) (Or.inl (by omega))
            · rw [if_neg (fun hcon => hD (of_decide_eq_true hcon))] at hleg
              rw [if_neg (fun hcon => by
                have hc1 := hcon.1
                rw [hA] at hc1
                exact absurd hc1 (by norm_num))] at hleg
              exact absurd hleg (by decide)
          · rw [if_neg hC, if_neg (by decide)] at hleg
            rw [if_neg (fun hcon => by
              have hc1 := hcon.1
              rw [hA] at hc1
              exact absurd hc1 (by norm_num))] at hleg
            exact absurd hleg (by decide)
      · rw [if_neg hA, if_neg (by decide)] at hleg
        rw [if_neg (fun hcon => by
          have hc2 := hcon.2
          omega)] at hleg
        exact absurd hleg (by decide)

theorem parseCastlingMove_facts (g : Game) (b : Bool) (m : Move)
    (h : parseCastlingMove g b = Except.ok m) :
    m.piece = g.board.GetPiece m.From ∧ m.piece.color = g.activeColor ∧
    m.piece.IsEmpty = false ∧ m.type = MoveType.Castling ∧
    m.piece.type = PieceType.King := by
  simp only [parseCastlingMove] at h
  split_ifs at h
  all_goals try exact Except.noConfusion h
  all_goals
    simp only [Except.ok.injEq] at h
    subst h
  all_goals rename_i hW hguard hB
  all_goals
    push_neg at hguard
    exact ⟨rfl, hguard.2, by simp [Piece.IsEmpty, hguard.1], rfl, hguard.1⟩

theorem ParseMove_facts (g : Game) (s : String) (m : Move)
    (h : ParseMove g s = Except.ok m) :
    m.piece = g.board.GetPiece m.From ∧ m.piece.color = g.activeColor ∧
    m.piece.IsEmpty = false ∧
    (m.type = MoveType.Promotion →
      m.promotion = PieceType.Queen ∨ m.promotion = PieceType.Rook ∨
      m.promotion = PieceType.Bishop ∨ m.promotion = PieceType.Knight) ∧
    (m.type = MoveType.Castling → m.piece.type = PieceType.King) := by
  unfold ParseMove at h
  dsimp only at h
  by_cases h1 : goTrim s = "O-O" ∨ goTrim s = "0-0"
  · rw [if_pos h1] at h
    obtain ⟨ha, hb, hc, hd, he⟩ := parseCastlingMove_facts g true m h
    exact ⟨ha, hb, hc, fun ht => by rw [hd] at ht; exact absurd ht (by simp), fun _ => he⟩
  · rw [if_neg h1] at h
    by_cases h2 : goTrim s = "O-O-O" ∨ goTrim s = "0-0-0"
    · rw [if_pos h2] at h
      obtain ⟨ha, hb, hc, hd, he⟩ := parseCastlingMove_facts g false m h
      exact ⟨ha, hb, hc, fun ht => by rw [hd] at ht; exact absurd ht (by simp), fun _ => he⟩
    · rw [if_neg h2] at h
      by_cases h3 : (goTrim s).data.length < 4
      · rw [if_pos h3] at h
        exact Except.noConfusion h
      · rw [if_neg h3] at h
        cases hfrom : SquareFromString ⟨List.take 2 (goTrim s).data⟩ with
        | error e =>
          rw [hfrom] at h
          exact Except.noConfusion h
        | ok fromSq =>
          rw [hfrom] at h
          cases hto : SquareFromString ⟨List.take 2 (List.drop 2 (goTrim s).data)⟩ with
          | error e =>
            rw [hto] at h
            exact Except.noConfusion h
          | ok toSq =>
            rw [hto] at h
            dsimp only at h
            by_cases h4 : (g.board.GetPiece fromSq).IsEmpty = true ∨
                (g.board.GetPiece fromSq).color ≠ g.activeColor
            · rw [if_pos h4] at h
              exact Except.noConfusion h
            · rw [if_neg h4] at h
              push_neg at h4
              by_cases h5 : (goTrim s).data.length = 5 ∧
                  (g.board.GetPiece fromSq).type = PieceType.Pawn
              · rw [if_pos h5] at h
                split at h
                all_goals try exact Except.noConfusion h
                all_goals
                  injection h with h
                  subst h
                  refine ⟨rfl, h4.2, by simpa [Piece.IsEmpty] using h4.1,
                    fun _ => by simp, fun hcst => by simp at hcst⟩
              · rw [if_neg h5] at h
                injection h with h
                subst h
                refine ⟨rfl, h4.2, by simpa [Piece.IsEmpty] using h4.1, ?_, ?_⟩ <;>
                · intro ht
                  simp only at ht
                  split_ifs at ht <;> simp_all

theorem MakeMove_ok_isLegal (n : Nat) (g : Game) (m : Move) (g' : Game)
    (h : MakeMove n g m = (g', none)) : IsLegalMove n g m = true := by
  by_cases hleg : IsLegalMove n g m
  · exact hleg
  · rw [MakeMove, if_pos (by simpa using hleg)] at h
    simp at h

theorem IsLegalMove_parts (n : Nat) (g : Game) (m : Move)
    (h : IsLegalMove n g m = true) :
    (g.board.GetPiece m.From).IsEmpty = false ∧
    (g.board.GetPiece m.From).color = g.activeColor ∧
    isPseudoLegalMoveH (isInCheck n) g m = true := by
  rw [IsLegalMove, IsLegalMoveH] at h
  dsimp only at h
  split_ifs at h with hb hk hp
  · push_neg at hb
    exact ⟨by simpa [Piece.IsEmpty] using hb.1, hb.2, by simpa using hp⟩
  all_goals exact absurd h (by simp)

theorem updateCastlingRights_board (g : Game) (m : Move) :
    (updateCastlingRights g m).board = g.board := rfl

theorem updateCastlingRights_activeColor (g : Game) (m : Move) :
    (updateCastlingRights g m).activeColor = g.activeColor := rfl

theorem updateCastlingRights_enPassantSquare (g : Game) (m : Move) :
    (updateCastlingRights g m).enPassantSquare = g.enPassantSquare := rfl

theorem updateCastlingRights_halfMoveClock (g : Game) (m : Move) :
    (updateCastlingRights g m).halfMoveClock = g.halfMoveClock := rfl

theorem updateCastlingRights_moveCount (g : Game) (m : Move) :
    (updateCastlingRights g m).moveCount = g.moveCount := rfl

theorem updateEnPassantSquare_board (g : Game) (m : Move) :
    (updateEnPassantSquare g m).board = g.board := by
  rw [updateEnPassantSquare]
  split_ifs <;> rfl

theorem updateEnPassantSquare_activeColor (g : Game) (m : Move) :
    (updateEnPassantSquare g m).activeColor = g.activeColor := by
  rw [updateEnPassantSquare]
  split_ifs <;> rfl

theorem updateEnPassantSquare_halfMoveClock (g : Game) (m : Move) :
    (updateEnPassantSquare g m).halfMoveClock = g.halfMoveClock := by
  rw [updateEnPassantSquare]
  split_ifs <;> rfl

theorem updateEnPassantSquare_moveCount (g : Game) (m : Move) :
    (updateEnPassantSquare g m).moveCount = g.moveCount := by
  rw [updateEnPassantSquare]
  split_ifs <;> rfl

theorem updateEnPassantSquare_ep (g : Game) (m : Move) :
    (updateEnPassantSquare g m).enPassantSquare =
      if m.piece.type = PieceType.Pawn ∧ iabs (rankOf m.To - rankOf m.From) = 2 then
        Int.tdiv (m.From + m.To) 2
      else -1 := by
  rw [updateEnPassantSquare]
  split_ifs <;> rfl

theorem updateHalfMoveClock_board (g : Game) (m : Move) :
    (updateHalfMoveClock g m).board = g.board := by
  rw [updateHalfMoveClock]
  split_ifs <;> rfl

theorem updateHalfMoveClock_activeColor (g : Game) (m : Move) :
    (updateHalfMoveClock g m).activeColor = g.activeColor := by
  rw [updateHalfMoveClock]
  split_ifs <;> rfl

theorem updateHalfMoveClock_ep (g : Game) (m : Move) :
    (updateHalfMoveClock g m).enPassantSquare = g.enPassantSquare := by
  rw [updateHalfMoveClock]
  split_ifs <;> rfl

theorem updateHalfMoveClock_moveCount (g : Game) (m : Move) :
    (updateHalfMoveClock g m).moveCount = g.moveCount := by
  rw [updateHalfMoveClock]
  split_ifs <;> rfl

theorem updateHalfMoveClock_clock (g : Game) (m : Move) :
    (updateHalfMoveClock g m).halfMoveClock =
      if m.piece.type = PieceType.Pawn ∨ m.type = MoveType.Capture then 0
      else g.halfMoveClock + 1 := by
  rw [updateHalfMoveClock]
  split_ifs <;> rfl

theorem executeCastling_board (g : Game) (m : Move) :
    (executeCastling g m).board.squares.length = g.board.squares.length ∧
    (WFPiece m.piece → (∀ p ∈ g.board.squares, WFPiece p) →
      ∀ p ∈ (executeCastling g m).board.squares, WFPiece p) := by
  rw [executeCastling]
  dsimp only
  constructor
  · rw [SetPiece_length, SetPiece_length, SetPiece_length, SetPiece_length]
  · intro hp hb
    refine SetPiece_WF _ _ _ (SetPiece_WF _ _ _ ?_ ?_) emptyPiece_WF
    · refine SetPiece_WF _ _ _ (SetPiece_WF _ _ _ hb hp) emptyPiece_WF
    · refine GetPiece_WF _ _ ?_
      exact SetPiece_WF _ _ _ (SetPiece_WF _ _ _ hb hp) emptyPiece_WF

theorem executeCastling_fields (g : Game) (m : Move) :
    (executeCastling g m).activeColor = g.activeColor ∧
    (executeCastling g m).enPassantSquare = g.enPassantSquare ∧
    (executeCastling g m).halfMoveClock = g.halfMoveClock ∧
    (executeCastling g m).moveCount = g.moveCount := by
  rw [executeCastling]
  exact ⟨rfl, rfl, rfl, rfl⟩

theorem executeEnPassant_board (g : Game) (m : Move) :
    (executeEnPassant g m).board.squares.length = g.board.squares.length ∧
    (WFPiece m.piece → (∀ p ∈ g.board.squares, WFPiece p) →
      ∀ p ∈ (executeEnPassant g m).board.squares, WFPiece p) := by
  rw [executeEnPassant]
  dsimp only
  constructor
  · rw [SetPiece_length, SetPiece_length, SetPiece_length]
  · intro hp hb
    exact SetPiece_WF _ _ _ (SetPiece_WF _ _ _ (SetPiece_WF _ _ _ hb hp) emptyPiece_WF)
      emptyPiece_WF

theorem executeEnPassant_fields (g : Game) (m : Move) :
    (executeEnPassant g m).activeColor = g.activeColor ∧
    (executeEnPassant g m).enPassantSquare = g.enPassantSquare ∧
    (executeEnPassant g m).halfMoveClock = g.halfMoveClock ∧
    (executeEnPassant g m).moveCount = g.moveCount := by
  rw [executeEnPassant]
  exact ⟨rfl, rfl, rfl, rfl⟩

theorem makeMove_preserves (g : Game) (m : Move)
    (hlen : g.board.squares.length = 64) (hWFb : ∀ p ∈ g.board.squares, WFPiece p)
    (hpWF : WFPiece m.piece)
    (hpromoWF : m.type = MoveType.Promotion → WFPiece ⟨m.promotion, m.piece.color⟩)
    (hcastK : m.type = MoveType.Castling → m.piece.type = PieceType.King)
    (hlegpawn : m.piece.type = PieceType.Pawn → isPawnMoveLegal g m = true)
    (hF0 : 0 ≤ m.From) (hF1 : m.From ≤ 63)
    (hep_old : g.enPassantSquare = -1 ∨
      (0 ≤ g.enPassantSquare ∧ g.enPassantSquare ≤ 63))
    (hhm : 0 ≤ g.halfMoveClock) :
    (makeMove g m).board.squares.length = 64 ∧
    (∀ p ∈ (makeMove g m).board.squares, WFPiece p) ∧
    (makeMove g m).activeColor = g.activeColor ∧
    ((makeMove g m).enPassantSquare = -1 ∨
      (0 ≤ (makeMove g m).enPassantSquare ∧ (makeMove g m).enPassantSquare ≤ 63)) ∧
    0 ≤ (makeMove g m).halfMoveClock ∧
    (makeMove g m).moveCount = g.moveCount := by
  unfold makeMove
  split_ifs with hc he hpr
  · refine ⟨?_, ?_, ?_, ?_, ?_, ?_⟩
    · rw [updateHalfMoveClock_board, updateEnPassantSquare_board, updateCastlingRights_board]
      exact (executeCastling_board g m).1.trans hlen
    · rw [updateHalfMoveClock_board, updateEnPassantSquare_board, updateCastlingRights_board]
      exact (executeCastling_board g m).2 hpWF hWFb
    · rw [updateHalfMoveClock_activeColor, updateEnPassantSquare_activeColor,
        updateCastlingRights_activeColor]
      exact (executeCastling_fields g m).1
    · rw [updateHalfMoveClock_ep, updateEnPassantSquare_ep]
      left
      rw [if_neg (fun hcon => by
        have hk := hcastK hc
        rw [hk] at hcon
        exact absurd hcon.1 (by simp))]
    · rw [updateHalfMoveClock_clock]
      split_ifs
      · norm_num
      · rw [updateEnPassantSquare_halfMoveClock, updateCastlingRights_halfMoveClock]
        have := (executeCastling_fields g m).2.2.1
        omega
    · rw [updateHalfMoveClock_moveCount, updateEnPassantSquare_moveCount,
        updateCastlingRights_moveCount]
      exact (executeCastling_fields g m).2.2.2
  · refine ⟨?_, ?_, ?_, ?_, ?_, ?_⟩
    · exact (executeEnPassant_board g m).1.trans hlen
    · exact (executeEnPassant_board g m).2 hpWF hWFb
    · exact (executeEnPassant_fields g m).1
    · rw [(executeEnPassant_fields g m).2.1]
      exact hep_old
    · rw [(executeEnPassant_fields g m).2.2.1]
      exact hhm
    · exact (executeEnPassant_fields g m).2.2.2
  · refine ⟨?_, ?_, ?_, ?_, ?_, ?_⟩
    · rw [updateHalfMoveClock_board, updateEnPassantSquare_board, updateCastlingRights_board]
      dsimp only
      rw [SetPiece_length, SetPiece_length, SetPiece_length]
      exact hlen
    · rw [updateHalfMoveClock_board, updateEnPassantSquare_board, updateCastlingRights_board]
      dsimp only
      exact SetPiece_WF _ _ _
        (SetPiece_WF _ _ _ (SetPiece_WF _ _ _ hWFb hpWF) emptyPiece_WF)
        (hpromoWF hpr)
    · rw [updateHalfMoveClock_activeColor, updateEnPassantSquare_activeColor,
        updateCastlingRights_activeColor]
    · rw [updateHalfMoveClock_ep, updateEnPassantSquare_ep]
      split_ifs with htrig
      · right
        exact pawnDouble_mid g m hF0 hF1 (hlegpawn htrig.1) htrig.2
      · left
        rfl
    · rw [updateHalfMoveClock_clock]
      split_ifs
      · norm_num
      · rw [updateEnPassantSquare_halfMoveClock, updateCastlingRights_halfMoveClock]
        dsimp only
        omega
    · rw [updateHalfMoveClock_moveCount, updateEnPassantSquare_moveCount,
        updateCastlingRights_moveCount]
  · refine ⟨?_, ?_, ?_, ?_, ?_, ?_⟩
    · rw [updateHalfMoveClock_board, updateEnPassantSquare_board, updateCastlingRights_board]
      dsimp only
      rw [SetPiece_length, SetPiece_length]
      exact hlen
    · rw [updateHalfMoveClock_board, updateEnPassantSquare_board, updateCastlingRights_board]
      dsimp only
      exact SetPiece_WF _ _ _ (SetPiece_WF _ _ _ hWFb hpWF) emptyPiece_WF
    · rw [updateHalfMoveClock_activeColor, updateEnPassantSquare_activeColor,
        updateCastlingRights_activeColor]
    · rw [updateHalfMoveClock_ep, updateEnPassantSquare_ep]
      split_ifs with htrig
      · right
        exact pawnDouble_mid g m hF0 hF1 (hlegpawn htrig.1) htrig.2
      · left
        rfl
    · rw [updateHalfMoveClock_clock]
      split_ifs
      · norm_num
      · rw [updateEnPassantSquare_halfMoveClock, updateCastlingRights_halfMoveClock]
        dsimp only
        omega
    · rw [updateHalfMoveClock_moveCount, updateEnPassantSquare_moveCount,
        updateCastlingRights_moveCount]

theorem updateGameStatus_board (n : Nat) (g : Game) :
    (updateGameStatus n g).board = g.board := by
  rw [updateGameStatus]
  split_ifs <;> rfl

theorem updateGameStatus_castlingRights (n : Nat) (g : Game) :
    (updateGameStatus n g).castlingRights = g.castlingRights := by
  rw [updateGameStatus]
  split_ifs <;> rfl

theorem updateGameStatus_enPassantSquare (n : Nat) (g : Game) :
    (updateGameStatus n g).enPassantSquare = g.enPassantSquare := by
  rw [updateGameStatus]
  split_ifs <;> rfl

theorem updateGameStatus_halfMoveClock (n : Nat) (g : Game) :
    (updateGameStatus n g).halfMoveClock = g.halfMoveClock := by
  rw [updateGameStatus]
  split_ifs <;> rfl

theorem updateGameStatus_moveCount (n : Nat) (g : Game) :
    (updateGameStatus n g).moveCount = g.moveCount := by
  rw [updateGameStatus]
  split_ifs <;> rfl

theorem MakeMove_WF (n : Nat) (g : Game) (m : Move) (g' : Game) (hWF : WFGame g)
    (hpm : m.piece = g.board.GetPiece m.From)
    (hpromo : m.type = MoveType.Promotion →
      m.promotion = PieceType.Queen ∨ m.promotion = PieceType.Rook ∨
      m.promotion = PieceType.Bishop ∨ m.promotion = PieceType.Knight)
    (hcastK : m.type = MoveType.Castling → m.piece.type = PieceType.King)
    (h : MakeMove n g m = (g', none)) : WFGame g' := by
  have hleg := MakeMove_ok_isLegal n g m g' h
  obtain ⟨hne, hcol, hpseudo⟩ := IsLegalMove_parts n g m hleg
  have hFr := GetPiece_nonempty_range g.board m.From hne
  obtain ⟨hblen, hWFb, hac, hep, hhm, hmc⟩ := hWF
  have hpWF : WFPiece m.piece := hpm ▸ GetPiece_WF g.board m.From hWFb
  have hmcol : m.piece.color = g.activeColor := by rw [hpm]; exact hcol
  have hpromoWF : m.type = MoveType.Promotion →
      WFPiece ⟨m.promotion, m.piece.color⟩ := by
    intro ht
    constructor
    · intro hcon
      simp only at hcon
      rcases hpromo ht with hq | hq | hq | hq <;> rw [hq] at hcon <;> simp_all
    · intro _
      simp only
      rw [hmcol]
      exact hac
  have hlegpawn : m.piece.type = PieceType.Pawn → isPawnMoveLegal g m = true := by
    intro hp
    rw [isPseudoLegalMoveH] at hpseudo
    rw [hp] at hpseudo
    exact hpseudo
  obtain ⟨hmb1, hmb2, hmac, hmep, hmhm, hmmc⟩ :=
    makeMove_preserves g m hblen hWFb hpWF hpromoWF hcastK hlegpawn hFr.1 hFr.2 hep hhm
  rw [MakeMove, if_neg (by simp [hleg])] at h
  have hg' : g' = updateGameStatus n
      (if ({ makeMove g m with
              moveHistory := (makeMove g m).moveHistory ++ [m] }).activeColor = Color.White
       then { { makeMove g m with moveHistory := (makeMove g m).moveHistory ++ [m] } with
              activeColor := Color.Black }
       else { { makeMove g m with moveHistory := (makeMove g m).moveHistory ++ [m] } with
              activeColor := Color.White,
              moveCount := ({ makeMove g m with
                moveHistory := (makeMove g m).moveHistory ++ [m] }).moveCount + 1 }) := by
    have := congrArg Prod.fst h
    simp only at this
    exact this.symm
  subst hg'
  refine ⟨?_, ?_, ?_, ?_, ?_, ?_⟩
  · rw [updateGameStatus_board]
    split_ifs <;> exact hmb1
  · rw [updateGameStatus_board]
    split_ifs <;> exact hmb2
  · rw [updateGameStatus_activeColor]
    split_ifs
    · right; rfl
    · left; rfl
  · rw [updateGameStatus_enPassantSquare]
    split_ifs <;> exact hmep
  · rw [updateGameStatus_halfMoveClock]
    split_ifs <;> exact hmhm
  · rw [updateGameStatus_moveCount]
    split_ifs
    · show 1 ≤ (makeMove g m).moveCount
      omega
    · show 1 ≤ (makeMove g m).moveCount + 1
      omega

theorem playNotationList_WF (n : Nat) :
    ∀ (toks : List String) (g g' : Game), WFGame g →
      playNotationList n g toks = some g' → WFGame g' := by
  intro toks
  induction toks with
  | nil =>
    intro g g' hWF h
    rw [playNotationList] at h
    simp only [Option.some.injEq] at h
    subst h
    exact hWF
  | cons t rest ih =>
    intro g g' hWF h
    rw [playNotationList] at h
    revert h
    cases hpm : ParseMove g t with
    | error e => intro h; exact Option.noConfusion h
    | ok m =>
      intro h
      dsimp only at h
      revert h
      cases hmm : MakeMove n g m with
      | mk g2 err =>
        cases err with
        | none =>
          intro h
          dsimp only at h
          obtain ⟨ha, hb, hc, hd, he⟩ := ParseMove_facts g t m hpm
          exact ih g2 g' (MakeMove_WF n g m g2 hWF ha hd he hmm) h
        | some e =>
          intro h
          dsimp only at h
          exact Option.noConfusion h

theorem ruy_concrete_test :
    (playNotationList 6 NewGame
        ["e2e4", "e7e5", "g1f3", "b8c6", "f1b5", "a7a6", "b5a4", "g8f6", "O-O"]).map
      (fun gr =>
        (ToFEN gr,
         ToFEN (ParseFEN 6 NewGame (ToFEN gr)).1,
         decide ('K' ∈ ((goFields (ToFEN gr)).getD 2 "").data)))
      = some ("r1bqkb1r/1ppp1ppp/p1n2n2/4p3/B3P3/5N2/PPPP1PPP/RNBQ1RK1 b kq - 3 5",
              "r1bqkb1r/1ppp1ppp/p1n2n2/4p3/B3P3/5N2/PPPP1PPP/RNBQ1RK1 b kq - 3 5",
              false) := by
  decide

theorem pieceFromFENChar_WF (ch : Char) (p : Piece) (h : pieceFromFENChar ch = some p) :
    WFPiece p := by
  unfold pieceFromFENChar at h
  split at h
  all_goals
    first
      | exact Option.noConfusion h
      | (simp only [Option.some.injEq] at h
         subst h
         constructor
         · intro hcon
           simp at hcon
         · intro _
           simp only
           split_ifs
           · left; rfl
           · right; rfl)

theorem boardWrite_length (b : Board) (sq : Square) (p : Piece) :
    (boardWrite b sq p).squares.length = b.squares.length := by
  rw [boardWrite]
  simp

theorem parseFENRankAux_WF (r : Int) :
    ∀ (cs : List Char) (file : Int) (b : Board),
      (parseFENRankAux r cs file b).1.squares.length = b.squares.length ∧
      ((∀ q ∈ b.squares, WFPiece q) →
        ∀ q ∈ (parseFENRankAux r cs file b).1.squares, WFPiece q) := by
  intro cs
  induction cs with
  | nil =>
    intro file b
    rw [parseFENRankAux]
    split_ifs <;> exact ⟨rfl, fun h => h⟩
  | cons c rest ih =>
    intro file b
    rw [parseFENRankAux]
    split_ifs
    · exact ⟨rfl, fun h => h⟩
    · exact ih (file + ((c.toNat : Int) - 48)) b
    · cases hp : pieceFromFENChar c with
      | none => exact ⟨rfl, fun h => h⟩
      | some p =>
        refine ⟨?_, ?_⟩
        · rw [(ih _ _).1, boardWrite_length]
        · intro hWF
          refine (ih _ _).2 ?_
          intro q hq
          rw [boardWrite] at hq
          simp only at hq
          rcases List.mem_or_eq_of_mem_set hq with hq | hq
          · exact hWF q hq
          · subst hq
            exact pieceFromFENChar_WF c _ hp

theorem parseFENPlacement_WF :
    ∀ (rs : List String) (idx : Int) (b : Board),
      (parseFENPlacement rs idx b).1.squares.length = b.squares.length ∧
      ((∀ q ∈ b.squares, WFPiece q) →
        ∀ q ∈ (parseFENPlacement rs idx b).1.squares, WFPiece q) := by
  intro rs
  induction rs with
  | nil => intro idx b; exact ⟨rfl, fun h => h⟩
  | cons r rest ih =>
    intro idx b
    rw [parseFENPlacement]
    cases hr : parseFENRankAux idx r.data 0 b with
    | mk b1 err =>
      cases err with
      | none =>
        have h1 := parseFENRankAux_WF idx r.data 0 b
        rw [hr] at h1
        refine ⟨?_, ?_⟩
        · rw [(ih _ _).1]
          exact h1.1
        · intro hWF
          exact (ih _ _).2 (h1.2 hWF)
      | some e =>
        have h1 := parseFENRankAux_WF idx r.data 0 b
        rw [hr] at h1
        exact h1

theorem SquareFromString_range (s : String) (sq : Square)
    (h : SquareFromString s = Except.ok sq) : 0 ≤ sq ∧ sq ≤ 63 := by
  unfold SquareFromString at h
  split at h
  · dsimp only at h
    split_ifs at h with hg
    simp only [Except.ok.injEq] at h
    subst h
    push_neg at hg
    obtain ⟨h1, h2, h3, h4⟩ := hg
    constructor <;> nlinarith
  · exact Except.noConfusion h

theorem ParseFEN_empty (n : Nat) (g : Game) :
    ParseFEN n g "" = (g, some "invalid FEN: expected at least 4 fields") := by
  unfold ParseFEN
  rw [if_pos (by decide)]

set_option maxHeartbeats 1600000 in
theorem ParseFEN_ok_spec (n : Nat) (g : Game) (fen : String) (g' : Game)
    (h : ParseFEN n g fen = (g', none)) :
    WFGame g' ∧ g'.moveHistory = [] ∧ g'.startedFromFEN = true ∧
    g'.startingFEN = fen := by
  unfold ParseFEN at h
  dsimp only at h
  by_cases h1 : (goFields (goTrim fen)).length < 4
  · rw [if_pos h1] at h
    exact absurd (congrArg Prod.snd h) (fun hc => Option.noConfusion hc)
  · rw [if_neg h1] at h
    by_cases h2 : (splitOnSlash ((goFields (goTrim fen)).getD 0 "")).length ≠ 8
    · rw [if_pos h2] at h
      exact absurd (congrArg Prod.snd h) (fun hc => Option.noConfusion hc)
    · rw [if_neg h2] at h
      revert h
      cases hP : parseFENPlacement (splitOnSlash ((goFields (goTrim fen)).getD 0 "")) 0
          (⟨List.replicate 64 emptyPiece⟩ : Board) with
      | mk b berr =>
        cases berr with
        | some e =>
          intro h
          exact absurd (congrArg Prod.snd h) (fun hc => Option.noConfusion hc)
        | none =>
          intro h
          dsimp only at h
          have hbWF := parseFENPlacement_WF
            (splitOnSlash ((goFields (goTrim fen)).getD 0 "")) 0
            (⟨List.replicate 64 emptyPiece⟩ : Board)
          rw [hP] at hbWF
          by_cases h3 : ¬((goFields (goTrim fen)).getD 1 "" = "w" ∨
              (goFields (goTrim fen)).getD 1 "" = "b")
          · rw [if_pos h3] at h
            exact absurd (congrArg Prod.snd h) (fun hc => Option.noConfusion hc)
          · rw [if_neg h3] at h
            revert h
            split
            next r hcr =>
              intro h
              exact absurd (congrArg Prod.snd h) (fun hc => Option.noConfusion hc)
            next r hcr =>
              intro h
              revert h
              split
              next sq hsq =>
                intro h
                exact absurd (congrArg Prod.snd h) (fun hc => Option.noConfusion hc)
              next sq hsq =>
                intro h
                revert h
                split
                next hm hhm =>
                  intro h
                  exact absurd (congrArg Prod.snd h) (fun hc => Option.noConfusion hc)
                next hm hhm =>
                  intro h
                  revert h
                  split
                  next fm hfm =>
                    intro h
                    exact absurd (congrArg Prod.snd h) (fun hc => Option.noConfusion hc)
                  next fm hfm =>
                    intro h
                    have hfst := congrArg Prod.fst h
                    dsimp only at hfst
                    subst hfst
                    refine ⟨⟨?_, ?_, ?_, ?_, ?_, ?_⟩, ?_, ?_, ?_⟩
                    · rw [updateGameStatus_board]
                      dsimp only
                      rw [hbWF.1]
                      simp
                    · rw [updateGameStatus_board]
                      dsimp only
                      refine hbWF.2 ?_
                      intro q hq
                      simp only [List.mem_replicate] at hq
                      rw [hq.2]
                      exact emptyPiece_WF
                    · rw [updateGameStatus_activeColor]
                      dsimp only
                      split_ifs
                      · left; rfl
                      · right; rfl
                    · rw [updateGameStatus_enPassantSquare]
                      dsimp only
                      split at hsq
                      · have h5 := congrArg Prod.fst hsq
                        dsimp only at h5
                        left
                        exact h5.symm
                      · split at hsq
                        · exact absurd (congrArg Prod.snd hsq)
                            (fun hc => Option.noConfusion hc)
                        · split at hsq
                          next a heq =>
                            exact absurd (congrArg Prod.snd hsq)
                              (fun hc => Option.noConfusion hc)
                          next sq2 heq =>
                            have h5 := congrArg Prod.fst hsq
                            dsimp only at h5
                            right
                            rw [← h5]
                            exact SquareFromString_range _ _ heq
                    · rw [updateGameStatus_halfMoveClock]
                      dsimp only
                      split at hhm
                      · split at hhm
                        next a heq =>
                          exact absurd (congrArg Prod.snd hhm)
                            (fun hc => Option.noConfusion hc)
                        next hm2 heq =>
                          split_ifs at hhm with hneg
                          · exact absurd (congrArg Prod.snd hhm)
                              (fun hc => Option.noConfusion hc)
                          · have h5 := congrArg Prod.fst hhm
                            dsimp only at h5
                            rw [← h5]
                            omega
                      · have h5 := congrArg Prod.fst hhm
                        dsimp only at h5
                        rw [← h5]
                    · rw [updateGameStatus_moveCount]
                      dsimp only
                      split at hfm
                      · split at hfm
                        next a heq =>
                          exact absurd (congrArg Prod.snd hfm)
                            (fun hc => Option.noConfusion hc)
                        next fm2 heq =>
                          split_ifs at hfm with hneg
                          · exact absurd (congrArg Prod.snd hfm)
                              (fun hc => Option.noConfusion hc)
                          · have h5 := congrArg Prod.fst hfm
                            dsimp only at h5
                            rw [← h5]
                            omega
                      · have h5 := congrArg Prod.fst hfm
                        dsimp only at h5
                        rw [← h5]
                    · rw [updateGameStatus_moveHistory]
                    · rw [updateGameStatus_startedFromFEN]
                    · rw [updateGameStatus_startingFEN]

def filesFrom (f : Nat) : List Int := (List.range (8 - f)).map (fun k => ((f + k : Nat) : Int))

theorem filesFrom_succ (f : Nat) (h : f < 8) : filesFrom f = ((f : Int) :: filesFrom (f + 1)) := by
  unfold filesFrom
  have h8 : 8 - f = (8 - (f + 1)) + 1 := by omega
  rw [h8, List.range_succ_eq_map]
  simp only [List.map_cons, List.map_map, Nat.add_zero]
  refine congrArg₂ List.cons rfl (List.map_congr_left fun a _ => ?g)
  case g => simp only [Function.comp_apply]; omega

theorem filesFrom_eight : filesFrom 8 = [] := by decide

theorem fenRank_eq_filesFrom (b : Board) (R : Int) :
    fenRank b R = fenRankAux b R (filesFrom 0) 0 := by
  have : filesFrom 0 = [0, 1, 2, 3, 4, 5, 6, 7] := by decide
  rw [fenRank, this]

theorem digitCharE (e : Nat) (h1 : 1 ≤ e) (h8 : e ≤ 8) :
    (intToDecString (e : Int)).data = [Char.ofNat (48 + e)] ∧
    ('1' ≤ Char.ofNat (48 + e) ∧ Char.ofNat (48 + e) ≤ '8') ∧
    ((Char.ofNat (48 + e)).toNat : Int) - 48 = (e : Int) := by
  interval_cases e <;> exact ⟨rfl, by decide, by decide⟩

theorem pieceChar_spec (p : Piece) (h1 : p.type ≠ PieceType.Empty)
    (h2 : p.color = Color.White ∨ p.color = Color.Black) :
    ∃ c, (pieceToFENChar p).data = [c] ∧ pieceFromFENChar c = some p ∧
      ¬('1' ≤ c ∧ c ≤ '8') := by
  rcases p with ⟨ty, co⟩
  rcases h2 with h | h <;> subst h <;> cases ty <;>
    first
      | exact absurd rfl h1
      | exact ⟨'P', by decide, by decide, by decide⟩ | exact ⟨'R', by decide, by decide, by decide⟩ | exact ⟨'N', by decide, by decide, by decide⟩ | exact ⟨'B', by decide, by decide, by decide⟩ | exact ⟨'Q', by decide, by decide, by decide⟩ | exact ⟨'K', by decide, by decide, by decide⟩ | exact ⟨'p', by decide, by decide, by decide⟩ | exact ⟨'r', by decide, by decide, by decide⟩ | exact ⟨'n', by decide, by decide, by decide⟩ | exact ⟨'b', by decide, by decide, by decide⟩ | exact ⟨'q', by decide, by decide, by decide⟩ | exact ⟨'k', by decide, by decide, by decide⟩

theorem getD_set (l : List Piece) (i : Nat) (a : Piece) (j : Nat) :
    (l.set i a).getD j emptyPiece =
      if i = j ∧ i < l.length then a else l.getD j emptyPiece := by
  rw [List.getD_eq_getElem?_getD, List.getElem?_set, List.getD_eq_getElem?_getD]
  split_ifs <;> (try simp_all [List.getElem?_eq_none]) <;> omega

theorem GetPiece_eq_getD (b : Board) (sq : Int) (h0 : 0 ≤ sq) (h1 : sq ≤ 63) :
    b.GetPiece sq = b.squares.getD sq.toNat emptyPiece := by
  rw [Board.GetPiece, if_neg (by
    rw [not_or]
    exact ⟨not_lt.2 h0, not_lt.2 h1⟩)]

theorem WF_getD_empty (b : Board) (hlen : b.squares.length = 64)
    (hWF : ∀ p ∈ b.squares, WFPiece p) (j : Nat) (hj : j < 64)
    (he : (b.squares.getD j emptyPiece).IsEmpty = true) :
    b.squares.getD j emptyPiece = emptyPiece := by
  have hjl : j < b.squares.length := by omega
  have hmem : b.squares.getD j emptyPiece ∈ b.squares := by
    rw [List.getD_eq_getElem?_getD, List.getElem?_eq_getElem hjl]
    exact List.getElem_mem hjl
  have := (hWF _ hmem).1
  rw [Piece.IsEmpty] at he
  exact this (by simpa using he)

theorem WF_getD (b : Board) (hlen : b.squares.length = 64)
    (hWF : ∀ p ∈ b.squares, WFPiece p) (j : Nat) (hj : j < 64) :
    WFPiece (b.squares.getD j emptyPiece) := by
  have hjl : j < b.squares.length := by omega
  have hmem : b.squares.getD j emptyPiece ∈ b.squares := by
    rw [List.getD_eq_getElem?_getD, List.getElem?_eq_getElem hjl]
    exact List.getElem_mem hjl
  exact hWF _ hmem

set_option maxHeartbeats 1600000 in
theorem parseFENRankAux_inv
    (b : Board) (hblen : b.squares.length = 64) (hWFp : ∀ p ∈ b.squares, WFPiece p)
    (Rn : Nat) (hR : Rn ≤ 7) :
    ∀ (fu f : Nat), f + fu = 8 → ∀ e : Nat, e ≤ f →
    ∀ b0 : Board, b0.squares.length = 64 →
    (∀ j : Nat, f - e ≤ j → j < 8 → b0.squares.getD (Rn * 8 + j) emptyPiece = emptyPiece) →
    (∀ j : Nat, f - e ≤ j → j < f →
      (b.GetPiece ((Rn : Int) * 8 + (j : Int))).IsEmpty = true) →
    ∃ b1 : Board,
      parseFENRankAux (7 - (Rn : Int))
          (fenRankAux b (Rn : Int) (filesFrom f) ((e : Nat) : Int)).data
          ((f : Int) - (e : Int)) b0 = (b1, none) ∧
      b1.squares.length = 64 ∧
      ∀ j : Nat, j < 64 →
        b1.squares.getD j emptyPiece =
          if Rn * 8 + (f - e) ≤ j ∧ j < Rn * 8 + 8 then b.squares.getD j emptyPiece
          else b0.squares.getD j emptyPiece := by
  intro fu
  induction fu with
  | zero =>
    intro f hf e he b0 hb0len hrow hpend
    have hf8 : f = 8 := by omega
    subst hf8
    rw [filesFrom_eight]
    by_cases he0 : e = 0
    · subst he0
      have hs : fenRankAux b (Rn : Int) [] ((0 : Nat) : Int) = "" := by
        simp only [fenRankAux]
        rw [if_neg (by omega)]
      refine ⟨b0, ?_, hb0len, ?_⟩
      · rw [hs]
        show parseFENRankAux _ [] _ b0 = (b0, none)
        simp only [parseFENRankAux]
        rw [if_neg (by omega)]
      · intro j hj
        rw [if_neg (by omega)]
    · have he1 : 1 ≤ e := by omega
      obtain ⟨hdata, hdig, hval⟩ := digitCharE e he1 he
      have hs : fenRankAux b (Rn : Int) [] ((e : Nat) : Int) = intToDecString (e : Int) := by
        simp only [fenRankAux]
        rw [if_pos (by omega)]
      refine ⟨b0, ?_, hb0len, ?_⟩
      · rw [hs, hdata]
        simp only [parseFENRankAux]
        rw [if_neg (by omega), if_pos hdig, hval]
        rw [if_neg (by omega)]
      · intro j hj
        by_cases hin : Rn * 8 + (8 - e) ≤ j ∧ j < Rn * 8 + 8
        · rw [if_pos hin]
          have h1 : b0.squares.getD j emptyPiece = emptyPiece := by
            have := hrow (j - Rn * 8) (by omega) (by omega)
            rwa [show Rn * 8 + (j - Rn * 8) = j by omega] at this
          have h2 : b.squares.getD j emptyPiece = emptyPiece := by
            have hpe := hpend (j - Rn * 8) (by omega) (by omega)
            rw [GetPiece_eq_getD _ _ (by omega) (by omega)] at hpe
            rw [show ((Rn : Int) * 8 + ((j - Rn * 8 : Nat) : Int)).toNat = j by omega] at hpe
            exact WF_getD_empty b hblen hWFp j hj hpe
          rw [h1, h2]
        · rw [if_neg hin]
  | succ fu ih =>
    intro f hf e he b0 hb0len hrow hpend
    have hf8 : f < 8 := by omega
    rw [filesFrom_succ f hf8]
    by_cases hemp : (b.GetPiece ((Rn : Int) * 8 + (f : Int))).IsEmpty
    · have hs : fenRankAux b (Rn : Int) ((f : Int) :: filesFrom (f + 1)) ((e : Nat) : Int)
          = fenRankAux b (Rn : Int) (filesFrom (f + 1)) (((e + 1 : Nat) : Nat) : Int) := by
        simp only [fenRankAux]
        rw [if_pos hemp]
        push_cast
        ring_nf
      rw [hs]
      have hpend' : ∀ j : Nat, (f + 1) - (e + 1) ≤ j → j < f + 1 →
          (b.GetPiece ((Rn : Int) * 8 + (j : Int))).IsEmpty = true := by
        intro j hj1 hj2
        by_cases hjf : j < f
        · exact hpend j (by omega) hjf
        · rw [show ((j : Nat) : Int) = ((f : Nat) : Int) by omega]
          exact hemp
      obtain ⟨b1, hparse, hlen1, hchar⟩ :=
        ih (f + 1) (by omega) (e + 1) (by omega) b0 hb0len
          (fun j hj1 hj2 => hrow j (by omega) hj2) hpend'
      refine ⟨b1, ?_, hlen1, ?_⟩
      · rw [show ((f : Int) - (e : Int)) = (((f + 1 : Nat) : Int) - ((e + 1 : Nat) : Int)) by
            push_cast; ring]
        exact hparse
      · intro j hj
        rw [hchar j hj, show Rn * 8 + (f + 1 - (e + 1)) = Rn * 8 + (f - e) from by omega]
    · have hWFpc : WFPiece (b.GetPiece ((Rn : Int) * 8 + (f : Int))) := by
        rw [GetPiece_eq_getD _ _ (by omega) (by omega),
          show ((Rn : Int) * 8 + (f : Int)).toNat = Rn * 8 + f from by omega]
        exact WF_getD b hblen hWFp _ (by omega)
      have htne : (b.GetPiece ((Rn : Int) * 8 + (f : Int))).type ≠ PieceType.Empty := by
        intro hteq
        rw [Piece.IsEmpty] at hemp
        simp [hteq] at hemp
      obtain ⟨c, hcdata, hcparse, hcnotdig⟩ :=
        pieceChar_spec _ htne (hWFpc.2 htne)
      have hs : fenRankAux b (Rn : Int) ((f : Int) :: filesFrom (f + 1)) ((e : Nat) : Int)
          = (if ((e : Nat) : Int) > 0 then intToDecString ((e : Nat) : Int) else "")
            ++ pieceToFENChar (b.GetPiece ((Rn : Int) * 8 + (f : Int)))
            ++ fenRankAux b (Rn : Int) (filesFrom (f + 1)) (((0 : Nat) : Nat) : Int) := by
      -- 0 cast noise is deliberate: keeps the IH applicable verbatim
        simp only [fenRankAux]
        rw [if_neg hemp]
        norm_num
      rw [hs]
      have hb0' : (boardWrite b0 ((Rn : Int) * 8 + (f : Int))
            (b.GetPiece ((Rn : Int) * 8 + (f : Int)))).squares
          = b0.squares.set (Rn * 8 + f) (b.GetPiece ((Rn : Int) * 8 + (f : Int))) := by
        rw [boardWrite, show ((Rn : Int) * 8 + (f : Int)).toNat = Rn * 8 + f from by omega]
      set bw := boardWrite b0 ((Rn : Int) * 8 + (f : Int))
        (b.GetPiece ((Rn : Int) * 8 + (f : Int))) with hbw
      have hbwlen : bw.squares.length = 64 := by
        rw [hb0']
        simp [hb0len]
      have hrow' : ∀ j : Nat, (f + 1) - 0 ≤ j → j < 8 →
          bw.squares.getD (Rn * 8 + j) emptyPiece = emptyPiece := by
        intro j hj1 hj2
        rw [hb0', getD_set, if_neg (by omega)]
        exact hrow j (by omega) hj2
      obtain ⟨b1, hparse, hlen1, hchar⟩ :=
        ih (f + 1) (by omega) 0 (by omega) bw hbwlen hrow' (by omega)
      refine ⟨b1, ?_, hlen1, ?_⟩
      · by_cases he0 : e = 0
        · subst he0
          rw [if_neg (by omega)]
          rw [show (("" : String) ++ pieceToFENChar (b.GetPiece ((Rn : Int) * 8 + (f : Int)))
                ++ fenRankAux b (Rn : Int) (filesFrom (f + 1)) (((0 : Nat) : Nat) : Int)).data
              = c :: (fenRankAux b (Rn : Int) (filesFrom (f + 1)) (((0 : Nat) : Nat) : Int)).data
            from by rw [String.data_append, String.data_append, hcdata]; rfl]
          simp only [parseFENRankAux]
          rw [if_neg (by omega), if_neg hcnotdig, hcparse]
          rw [show 7 - (7 - (Rn : Int)) = (Rn : Int) from by ring]
          rw [show ((f : Int) - ((0 : Nat) : Int)) = (f : Int) from by push_cast; ring]
          rw [show (f : Int) + 1 = ((f + 1 : Nat) : Int) - ((0 : Nat) : Int) from by push_cast; ring]
          exact hparse
        · have he1 : 1 ≤ e := by omega
          obtain ⟨hddata, hdig, hval⟩ := digitCharE e he1 (by omega)
          rw [if_pos (by omega)]
          rw [show ((intToDecString ((e : Nat) : Int))
                ++ pieceToFENChar (b.GetPiece ((Rn : Int) * 8 + (f : Int)))
                ++ fenRankAux b (Rn : Int) (filesFrom (f + 1)) (((0 : Nat) : Nat) : Int)).data
              = Char.ofNat (48 + e) :: c
                :: (fenRankAux b (Rn : Int) (filesFrom (f + 1)) (((0 : Nat) : Nat) : Int)).data
            from by rw [String.data_append, String.data_append, hddata, hcdata]; rfl]
          simp only [parseFENRankAux]
          rw [if_neg (by omega), if_pos hdig, hval]
          rw [if_neg (by omega), if_neg hcnotdig, hcparse]
          rw [show 7 - (7 - (Rn : Int)) = (Rn : Int) from by ring]
          rw [show ((f : Int) - (e : Int) + (e : Int)) = (f : Int) from by ring]
          rw [show (f : Int) + 1 = ((f + 1 : Nat) : Int) - ((0 : Nat) : Int) from by push_cast; ring]
          exact hparse
      · intro j hj
        rw [hchar j hj]
        by_cases hin : Rn * 8 + (f - e) ≤ j ∧ j < Rn * 8 + 8
        · rw [if_pos hin]
          by_cases hup : Rn * 8 + (f + 1 - 0) ≤ j ∧ j < Rn * 8 + 8
          · rw [if_pos hup]
          · rw [if_neg hup]
            by_cases hjf : j = Rn * 8 + f
            · rw [hb0', getD_set, if_pos (by omega)]
              rw [GetPiece_eq_getD _ _ (by omega) (by omega),
                show ((Rn : Int) * 8 + (f : Int)).toNat = Rn * 8 + f from by omega, hjf]
            · rw [hb0', getD_set, if_neg (by omega)]
              have h1 : b0.squares.getD j emptyPiece = emptyPiece := by
                have := hrow (j - Rn * 8) (by omega) (by omega)
                rwa [show Rn * 8 + (j - Rn * 8) = j by omega] at this
              have h2 : b.squares.getD j emptyPiece = emptyPiece := by
                have hpe := hpend (j - Rn * 8) (by omega) (by omega)
                rw [GetPiece_eq_getD _ _ (by omega) (by omega)] at hpe
                rw [show ((Rn : Int) * 8 + ((j - Rn * 8 : Nat) : Int)).toNat = j by omega] at hpe
                exact WF_getD_empty b hblen hWFp j hj hpe
              rw [h1, h2]
        · rw [if_neg hin, if_neg (by omega), hb0', getD_set, if_neg (by omega)]

def ranksFrom (b : Board) (k : Nat) : List String :=
  (List.range (8 - k)).map (fun i => fenRank b ((7 - (k + i) : Nat) : Int))

theorem ranksFrom_succ (b : Board) (k : Nat) (h : k < 8) :
    ranksFrom b k = fenRank b ((7 - k : Nat) : Int) :: ranksFrom b (k + 1) := by
  unfold ranksFrom
  have h8 : 8 - k = (8 - (k + 1)) + 1 := by omega
  rw [h8, List.range_succ_eq_map]
  simp only [List.map_cons, List.map_map, Nat.add_zero]
  refine congrArg₂ List.cons rfl (List.map_congr_left fun a _ => ?g)
  case g =>
    simp only [Function.comp_apply]
    congr 2
    omega

theorem ranksFrom_eight (b : Board) : ranksFrom b 8 = [] := by
  unfold ranksFrom
  simp

theorem parseFENPlacement_inv
    (b : Board) (hblen : b.squares.length = 64) (hWFp : ∀ p ∈ b.squares, WFPiece p) :
    ∀ (ku k : Nat), k + ku = 8 →
    ∀ b0 : Board, b0.squares.length = 64 →
    (∀ j : Nat, j < 64 → j / 8 + k ≤ 7 → b0.squares.getD j emptyPiece = emptyPiece) →
    ∃ bf : Board,
      parseFENPlacement (ranksFrom b k) (k : Int) b0 = (bf, none) ∧
      bf.squares.length = 64 ∧
      ∀ j : Nat, j < 64 →
        bf.squares.getD j emptyPiece =
          if j / 8 + k ≤ 7 then b.squares.getD j emptyPiece
          else b0.squares.getD j emptyPiece := by
  intro ku
  induction ku with
  | zero =>
    intro k hk b0 hb0len hrows
    have hk8 : k = 8 := by omega
    subst hk8
    rw [ranksFrom_eight]
    refine ⟨b0, rfl, hb0len, ?_⟩
    intro j hj
    rw [if_neg (by omega)]
  | succ ku ih =>
    intro k hk b0 hb0len hrows
    have hk8 : k < 8 := by omega
    rw [ranksFrom_succ b k hk8, fenRank_eq_filesFrom]
    obtain ⟨b1, hparse, hlen1, hchar⟩ :=
      parseFENRankAux_inv b hblen hWFp (7 - k) (by omega) 8 0 (by omega) 0 (by omega)
        b0 hb0len
        (fun j hj1 hj2 => hrows ((7 - k) * 8 + j) (by omega) (by omega))
        (fun j hj1 hj2 => absurd hj2 (by omega))
    have hparse' : parseFENRankAux (k : Int)
        (fenRankAux b (((7 - k : Nat)) : Int) (filesFrom 0) 0).data 0 b0 = (b1, none) := by
      rw [show (k : Int) = 7 - ((7 - k : Nat) : Int) from by omega,
        show (0 : Int) = ((0 : Nat) : Int) - ((0 : Nat) : Int) from by norm_num]
      exact hparse
    rw [show parseFENPlacement
          (fenRankAux b (((7 - k : Nat)) : Int) (filesFrom 0) 0 :: ranksFrom b (k + 1))
          (k : Int) b0
        = parseFENPlacement (ranksFrom b (k + 1)) ((k : Int) + 1) b1 from by
      simp only [parseFENPlacement, hparse']]
    have hrows' : ∀ j : Nat, j < 64 → j / 8 + (k + 1) ≤ 7 →
        b1.squares.getD j emptyPiece = emptyPiece := by
      intro j hj1 hj2
      rw [hchar j hj1, if_neg (by omega)]
      exact hrows j hj1 (by omega)
    obtain ⟨bf, hparse2, hlenf, hcharf⟩ := ih (k + 1) (by omega) b1 hlen1 hrows'
    refine ⟨bf, ?_, hlenf, ?_⟩
    · rw [show ((k : Int) + 1) = ((k + 1 : Nat) : Int) from by push_cast; ring]
      exact hparse2
    · intro j hj
      rw [hcharf j hj]
      by_cases h1 : j / 8 + (k + 1) ≤ 7
      · rw [if_pos h1, if_pos (by omega)]
      · rw [if_neg h1, hchar j hj]
        by_cases h2 : j / 8 + k ≤ 7
        · have hrowj : j / 8 = 7 - k := by omega
          rw [if_pos (by omega), if_pos h2]
        · rw [if_neg (by omega), if_neg h2]

def joinSpace : List String → String
  | [] => ""
  | [x] => x
  | x :: xs => x ++ " " ++ joinSpace xs

theorem digitChar_val (d : Nat) (h : d < 10) :
    ((Char.ofNat (48 + d)).toNat : Int) - 48 = d := by
  interval_cases d <;> decide

theorem digitChar_good (d : Nat) (h : d < 10) :
    ('0' ≤ Char.ofNat (48 + d) ∧ Char.ofNat (48 + d) ≤ '9') ∧
    ¬(Char.ofNat (48 + d)).isWhitespace ∧ Char.ofNat (48 + d) ≠ '/' ∧
    Char.ofNat (48 + d) ≠ '-' ∧ Char.ofNat (48 + d) ≠ '+' := by
  interval_cases d <;> decide

theorem natToDecChars_mem (fuel n : Nat) :
    ∀ c ∈ natToDecChars fuel n, ∃ d, d < 10 ∧ c = Char.ofNat (48 + d) := by
  induction fuel generalizing n with
  | zero => intro c hc; simp [natToDecChars] at hc
  | succ fuel ih =>
    intro c hc
    by_cases h0 : n = 0
    · simp [natToDecChars, h0] at hc
    · rw [natToDecChars, if_neg h0] at hc
      rcases List.mem_append.mp hc with h | h
      · exact ih (n / 10) c h
      · exact ⟨n % 10, Nat.mod_lt n (by norm_num), by simpa using h⟩

theorem natToDecChars_ne_nil (fuel n : Nat) (hn : n ≠ 0) (hf : fuel ≠ 0) :
    natToDecChars fuel n ≠ [] := by
  cases fuel with
  | zero => exact absurd rfl hf
  | succ f => rw [natToDecChars, if_neg hn]; simp

theorem natToDecChars_foldl (fuel : Nat) :
    ∀ (n : Nat), n ≤ fuel → ∀ (acc : Int),
      (natToDecChars fuel n).foldl (fun a c => a * 10 + ((c.toNat : Int) - 48)) acc
        = acc * 10 ^ (natToDecChars fuel n).length + n := by
  induction fuel with
  | zero =>
    intro n hn acc
    interval_cases n
    simp [natToDecChars]
  | succ fuel ih =>
    intro n hn acc
    by_cases h0 : n = 0
    · simp [natToDecChars, h0]
    · rw [natToDecChars, if_neg h0]
      have hdiv : n / 10 ≤ fuel := by omega
      rw [List.foldl_append, ih (n / 10) hdiv acc]
      simp only [List.foldl_cons, List.foldl_nil, List.length_append, List.length_cons,
        List.length_nil]
      rw [digitChar_val (n % 10) (Nat.mod_lt n (by norm_num))]
      have hmod : (n : Int) = 10 * ((n : Int) / 10) + (n : Int) % 10 := by omega
      have hcast1 : ((n / 10 : Nat) : Int) = (n : Int) / 10 := by omega
      have hcast2 : ((n % 10 : Nat) : Int) = (n : Int) % 10 := by omega
      rw [hcast1, hcast2, pow_succ]
      ring_nf
      omega

theorem goAtoi_cons (c : Char) (rest : List Char) (h1 : c ≠ '-') (h2 : c ≠ '+') :
    goAtoi (String.mk (c :: rest)) =
      (if ¬(c :: rest).all (fun ch => decide ('0' ≤ ch ∧ ch ≤ '9')) then
        Except.error "invalid syntax"
       else Except.ok ((c :: rest).foldl (fun acc ch => acc * 10 + ((ch.toNat : Int) - 48)) 0)) := by
  unfold goAtoi
  split
  next heq => exact absurd heq (by simp)
  next r heq =>
    exact absurd (by simpa using congrArg List.head? heq) h1
  next r heq =>
    exact absurd (by simpa using congrArg List.head? heq) h2
  next => rfl

theorem natToDecString_pos (n : Nat) (hn : n ≠ 0) :
    goAtoi (natToDecString n) = Except.ok (n : Int) ∧
    (natToDecString n).data ≠ [] ∧
    ∀ c ∈ (natToDecString n).data,
      ¬c.isWhitespace ∧ c ≠ '/' ∧ ('0' ≤ c ∧ c ≤ '9') := by
  have hgood : ∀ c ∈ natToDecChars n n,
      ¬c.isWhitespace ∧ c ≠ '/' ∧ ('0' ≤ c ∧ c ≤ '9') := by
    intro c hc
    obtain ⟨d, hd, rfl⟩ := natToDecChars_mem n n c hc
    exact ⟨(digitChar_good d hd).2.1, (digitChar_good d hd).2.2.1, (digitChar_good d hd).1⟩
  have hne : natToDecChars n n ≠ [] := natToDecChars_ne_nil n n hn (by omega)
  have hdata : (natToDecString n).data = natToDecChars n n := by
    rw [natToDecString, if_neg hn]
  refine ⟨?_, by rw [hdata]; exact hne, by rw [hdata]; exact hgood⟩
  obtain ⟨c0, cr, hcons⟩ : ∃ c0 cr, natToDecChars n n = c0 :: cr := by
    cases h : natToDecChars n n with
    | nil => exact absurd h hne
    | cons a b => exact ⟨a, b, rfl⟩
  have hc0 : c0 ∈ natToDecChars n n := by rw [hcons]; simp
  obtain ⟨d0, hd0, hc0eq⟩ := natToDecChars_mem n n c0 hc0
  have hstr : natToDecString n = String.mk (c0 :: cr) := by
    rw [natToDecString, if_neg hn, hcons]
  rw [hstr, goAtoi_cons c0 cr
    (hc0eq ▸ (digitChar_good d0 hd0).2.2.2.1)
    (hc0eq ▸ (digitChar_good d0 hd0).2.2.2.2)]
  have hall : (c0 :: cr).all (fun ch => decide ('0' ≤ ch ∧ ch ≤ '9')) = true := by
    rw [List.all_eq_true]
    intro x hx
    have : x ∈ natToDecChars n n := by rw [hcons]; exact hx
    simpa using (hgood x this).2.2
  rw [if_neg (not_not_intro hall)]
  have := natToDecChars_foldl n n (le_refl n) 0
  rw [hcons] at this
  rw [this, zero_mul, zero_add]

theorem goAtoi_intToDecString (x : Int) (h : 0 ≤ x) :
    goAtoi (intToDecString x) = Except.ok x ∧
    (intToDecString x).data ≠ [] ∧
    ∀ c ∈ (intToDecString x).data,
      ¬c.isWhitespace ∧ c ≠ '/' ∧ ('0' ≤ c ∧ c ≤ '9') := by
  rcases eq_or_lt_of_le h with h0 | hpos
  · obtain rfl : x = 0 := h0.symm
    exact ⟨rfl, by decide, by decide⟩
  · rw [show intToDecString x = natToDecString x.toNat by
      rw [intToDecString, if_neg (by omega)]]
    have := natToDecString_pos x.toNat (by omega)
    rw [Int.toNat_of_nonneg h] at this
    exact this

theorem goFieldsAux_word (w : List Char) (hw : ∀ c ∈ w, ¬c.isWhitespace) :
    ∀ (rest acc : List Char), goFieldsAux (w ++ rest) acc = goFieldsAux rest (w.reverse ++ acc) := by
  induction w with
  | nil => intro rest acc; simp
  | cons c cs ih =>
    intro rest acc
    have hc : ¬c.isWhitespace := hw c (by simp)
    have hcs : ∀ x ∈ cs, ¬x.isWhitespace := fun x hx => hw x (by simp [hx])
    show goFieldsAux (c :: (cs ++ rest)) acc = _
    rw [show goFieldsAux (c :: (cs ++ rest)) acc = goFieldsAux (cs ++ rest) (c :: acc) from by
          simp only [goFieldsAux, if_neg hc],
        ih hcs]
    simp

theorem goFieldsAux_space (rest : List Char) (acc : List Char) (h : acc ≠ []) :
    goFieldsAux (' ' :: rest) acc = String.mk acc.reverse :: goFieldsAux rest [] := by
  have : (' ' : Char).isWhitespace := by decide
  simp only [goFieldsAux, if_pos this, List.isEmpty_iff, if_neg h]

theorem goFields_joinSpace (chunks : List String)
    (hne : chunks ≠ [])
    (hch : ∀ s ∈ chunks, s.data ≠ [] ∧ ∀ c ∈ s.data, ¬c.isWhitespace) :
    goFields (joinSpace chunks) = chunks := by
  induction chunks with
  | nil => exact absurd rfl hne
  | cons a rest ih =>
    obtain ⟨ha1, ha2⟩ := hch a (by simp)
    cases rest with
    | nil =>
      show goFieldsAux (joinSpace [a]).data [] = [a]
      have : (joinSpace [a]).data = a.data ++ [] := by simp [joinSpace]
      rw [this, goFieldsAux_word a.data ha2]
      simp only [goFieldsAux, List.append_nil, List.isEmpty_iff, List.reverse_eq_nil_iff]
      rw [if_neg ha1]
      simp
    | cons b rest' =>
      have hrest : ∀ s ∈ b :: rest', s.data ≠ [] ∧ ∀ c ∈ s.data, ¬c.isWhitespace :=
        fun s hs => hch s (by simp [hs])
      have hj : (joinSpace (a :: b :: rest')).data
          = a.data ++ (' ' :: (joinSpace (b :: rest')).data) := by
        show (a ++ " " ++ joinSpace (b :: rest')).data = _
        simp [String.data_append]
      show goFieldsAux (joinSpace (a :: b :: rest')).data [] = _
      rw [hj, goFieldsAux_word a.data ha2]
      rw [List.append_nil, goFieldsAux_space _ _ (by simp [ha1])]
      rw [List.reverse_reverse]
      have := ih (by simp) hrest
      show String.mk a.data :: goFieldsAux (joinSpace (b :: rest')).data [] = _
      rw [show goFieldsAux (joinSpace (b :: rest')).data [] = goFields (joinSpace (b :: rest')) from rfl,
        this]

theorem splitOnSlashAux_word (w : List Char) (hw : ∀ c ∈ w, c ≠ '/') :
    ∀ (rest acc : List Char),
      splitOnSlashAux (w ++ rest) acc = splitOnSlashAux rest (w.reverse ++ acc) := by
  induction w with
  | nil => intro rest acc; simp
  | cons c cs ih =>
    intro rest acc
    have hc : c ≠ '/' := hw c (by simp)
    have hcs : ∀ x ∈ cs, x ≠ '/' := fun x hx => hw x (by simp [hx])
    show splitOnSlashAux (c :: (cs ++ rest)) acc = _
    rw [show splitOnSlashAux (c :: (cs ++ rest)) acc
          = splitOnSlashAux (cs ++ rest) (c :: acc) from by
          simp only [splitOnSlashAux, if_neg hc],
        ih hcs]
    simp

theorem splitOnSlash_joinSlash (parts : List String) (hne : parts ≠ [])
    (hch : ∀ s ∈ parts, ∀ c ∈ s.data, c ≠ '/') :
    splitOnSlash (joinSlash parts) = parts := by
  induction parts with
  | nil => exact absurd rfl hne
  | cons a rest ih =>
    have ha : ∀ c ∈ a.data, c ≠ '/' := hch a (by simp)
    cases rest with
    | nil =>
      show splitOnSlashAux (joinSlash [a]).data [] = [a]
      have : (joinSlash [a]).data = a.data ++ [] := by simp [joinSlash]
      rw [this, splitOnSlashAux_word a.data ha]
      simp [splitOnSlashAux]
    | cons b rest' =>
      have hrest : ∀ s ∈ b :: rest', ∀ c ∈ s.data, c ≠ '/' :=
        fun s hs => hch s (by simp [hs])
      have hj : (joinSlash (a :: b :: rest')).data
          = a.data ++ ('/' :: (joinSlash (b :: rest')).data) := by
        show (a ++ "/" ++ joinSlash (b :: rest')).data = _
        simp [String.data_append]
      show splitOnSlashAux (joinSlash (a :: b :: rest')).data [] = _
      rw [hj, splitOnSlashAux_word a.data ha, List.append_nil]
      rw [show splitOnSlashAux ('/' :: (joinSlash (b :: rest')).data) a.data.reverse
            = String.mk a.data.reverse.reverse :: splitOnSlashAux (joinSlash (b :: rest')).data []
          from by simp [splitOnSlashAux]]
      rw [List.reverse_reverse]
      rw [show splitOnSlashAux (joinSlash (b :: rest')).data []
            = splitOnSlash (joinSlash (b :: rest')) from rfl,
        ih (by simp) hrest]

theorem squareToString_roundtrip (s : Int) (h0 : 0 ≤ s) (h1 : s ≤ 63) :
    SquareFromString (squareToString s) = Except.ok s ∧
    (squareToString s).data.length = 2 ∧
    ∀ c ∈ (squareToString s).data, ¬c.isWhitespace ∧ c ≠ '/' := by
  obtain ⟨m, rfl⟩ : ∃ m : Nat, s = (m : Int) := ⟨s.toNat, (Int.toNat_of_nonneg h0).symm⟩
  have hm : m ≤ 63 := by exact_mod_cast h1
  interval_cases m <;> exact ⟨by decide, by decide, by decide⟩

theorem pieceToFENChar_chars (p : Piece) :
    ∀ c ∈ (pieceToFENChar p).data, ¬c.isWhitespace ∧ c ≠ '/' := by
  rcases p with ⟨ty, co⟩
  cases ty <;> cases co <;> decide

theorem intToDecStringE_chars (e : Nat) (h1 : 1 ≤ e) (h8 : e ≤ 8) :
    ∀ c ∈ (intToDecString (e : Int)).data, ¬c.isWhitespace ∧ c ≠ '/' := by
  interval_cases e <;> decide

theorem fenRankAux_chars (b : Board) (R : Int) :
    ∀ (files : List Int) (e : Nat), e + files.length ≤ 8 →
    ∀ c ∈ (fenRankAux b R files ((e : Nat) : Int)).data, ¬c.isWhitespace ∧ c ≠ '/' := by
  intro files
  induction files with
  | nil =>
    intro e he c hc
    rw [fenRankAux] at hc
    by_cases he0 : e = 0
    · subst he0; rw [if_neg (by omega)] at hc; simp at hc
    · rw [if_pos (by omega)] at hc
      exact intToDecStringE_chars e (by omega) (by simpa using he) c hc
  | cons f rest ih =>
    intro e he c hc
    rw [fenRankAux] at hc
    by_cases hemp : (b.GetPiece (R * 8 + f)).IsEmpty
    · rw [if_pos hemp] at hc
      rw [show ((e : Nat) : Int) + 1 = ((e + 1 : Nat) : Int) from by push_cast; ring] at hc
      exact ih (e + 1) (by simp at he ⊢; omega) c hc
    · rw [if_neg hemp] at hc
      simp only [String.data_append, List.mem_append] at hc
      rcases hc with (hc | hc) | hc
      · by_cases he0 : e = 0
        · subst he0; rw [if_neg (by omega)] at hc; simp at hc
        · rw [if_pos (by omega)] at hc
          exact intToDecStringE_chars e (by omega) (by simp at he; omega) c hc
      · exact pieceToFENChar_chars _ c hc
      · rw [show (0 : Int) = ((0 : Nat) : Int) from rfl] at hc
        exact ih 0 (by simp at he ⊢; omega) c hc

theorem pieceToFENChar_ne_nil (p : Piece) (h : p.IsEmpty = false) :
    (pieceToFENChar p).data ≠ [] := by
  rcases p with ⟨ty, co⟩
  cases ty <;> cases co <;> revert h <;> decide

theorem fenRankAux_ne_nil (b : Board) (R : Int) :
    ∀ (files : List Int) (e : Nat), e + files.length ≤ 8 → (0 < e ∨ files ≠ []) →
    (fenRankAux b R files ((e : Nat) : Int)).data ≠ [] := by
  intro files
  induction files with
  | nil =>
    intro e he hne
    rw [fenRankAux, if_pos (by
      rcases hne with h | h
      · omega
      · simp at h)]
    exact (goAtoi_intToDecString (e : Int) (by omega)).2.1
  | cons f rest ih =>
    intro e he hne
    rw [fenRankAux]
    by_cases hemp : (b.GetPiece (R * 8 + f)).IsEmpty
    · rw [if_pos hemp]
      rw [show ((e : Nat) : Int) + 1 = ((e + 1 : Nat) : Int) from by push_cast; ring]
      exact ih (e + 1) (by simp at he ⊢; omega) (Or.inl (by omega))
    · rw [if_neg hemp]
      simp only [String.data_append]
      intro hcontra
      simp only [List.append_eq_nil] at hcontra
      exact pieceToFENChar_ne_nil _ (by simpa using hemp) hcontra.1.2

theorem goTrim_of (s : String)
    (h1 : ∀ c, s.data.head? = some c → c.isWhitespace = false)
    (h2 : ∀ c, s.data.getLast? = some c → c.isWhitespace = false) :
    goTrim s = s := by
  apply String.ext
  show (((s.data.dropWhile Char.isWhitespace).reverse.dropWhile Char.isWhitespace).reverse)
      = s.data
  have hd : s.data.dropWhile Char.isWhitespace = s.data := by
    cases hs : s.data with
    | nil => rfl
    | cons c rest =>
      rw [List.dropWhile_cons, h1 c (by rw [hs]; rfl)]
      simp
  rw [hd]
  have hrev : s.data.reverse.dropWhile Char.isWhitespace = s.data.reverse := by
    cases hs : s.data.reverse with
    | nil => rfl
    | cons c rest =>
      have hlast : s.data.getLast? = some c := by
        rw [← List.head?_reverse, hs]
        rfl
      rw [List.dropWhile_cons, h2 c hlast]
      simp
  rw [hrev, List.reverse_reverse]

theorem joinSpace_ne_nil (chunks : List String) (hne : chunks ≠ [])
    (hch : ∀ s ∈ chunks, s.data ≠ []) : (joinSpace chunks).data ≠ [] := by
  induction chunks with
  | nil => exact absurd rfl hne
  | cons a rest ih =>
    cases rest with
    | nil => exact hch a (by simp)
    | cons b r =>
      show (a ++ " " ++ joinSpace (b :: r)).data ≠ []
      simp only [String.data_append]
      intro hcontra
      simp only [List.append_eq_nil] at hcontra
      exact absurd hcontra.1.2 (by decide)

theorem joinSpace_head (chunks : List String) (a : String) (rest : List String)
    (h : chunks = a :: rest) (ha : a.data ≠ []) :
    (joinSpace chunks).data.head? = a.data.head? := by
  subst h
  cases rest with
  | nil => rfl
  | cons b r =>
    show (a ++ " " ++ joinSpace (b :: r)).data.head? = _
    simp only [String.data_append, List.append_assoc, List.head?_append]
    cases hd : a.data with
    | nil => exact absurd hd ha
    | cons c cs => rfl

theorem joinSpace_last (chunks : List String) (hne : chunks ≠ [])
    (hch : ∀ s ∈ chunks, s.data ≠ []) :
    (joinSpace chunks).data.getLast? = (chunks.getLast (by exact hne)).data.getLast? := by
  induction chunks with
  | nil => exact absurd rfl hne
  | cons a rest ih =>
    cases rest with
    | nil => rfl
    | cons b r =>
      show (a ++ " " ++ joinSpace (b :: r)).data.getLast? = _
      simp only [String.data_append, List.append_assoc, List.getLast?_append]
      have ih' := ih (by simp) (fun s hs => hch s (by simp [hs]))
      rw [show ((a :: b :: r).getLast hne) = ((b :: r).getLast (by simp)) from
        List.getLast_cons (by simp), ← ih']
      have hjs : (joinSpace (b :: r)).data ≠ [] :=
        joinSpace_ne_nil (b :: r) (by simp) (fun s hs => hch s (by simp [hs]))
      have hsome : ((joinSpace (b :: r)).data.getLast?).isSome :=
        List.getLast?_isSome.mpr hjs
      obtain ⟨x, hx⟩ := Option.isSome_iff_exists.mp hsome
      rw [hx]
      rfl

theorem joinSlash_chars (parts : List String)
    (hch : ∀ s ∈ parts, ∀ c ∈ s.data, ¬c.isWhitespace) :
    ∀ c ∈ (joinSlash parts).data, ¬c.isWhitespace := by
  induction parts with
  | nil => intro c hc; simp [joinSlash] at hc
  | cons a rest ih =>
    intro c hc
    cases rest with
    | nil => exact hch a (by simp) c hc
    | cons b r =>
      have : (joinSlash (a :: b :: r)).data
          = a.data ++ ('/' :: (joinSlash (b :: r)).data) := by
        show (a ++ "/" ++ joinSlash (b :: r)).data = _
        simp [String.data_append]
      rw [this] at hc
      rcases List.mem_append.mp hc with h | h
      · exact hch a (by simp) c h
      · rcases List.mem_cons.mp h with h | h
        · subst h; decide
        · exact ih (fun s hs => hch s (by simp [hs])) c h

theorem joinSlash_ne_nil (parts : List String) (a : String) (rest : List String)
    (h : parts = a :: rest) (ha : a.data ≠ []) : (joinSlash parts).data ≠ [] := by
  subst h
  cases rest with
  | nil => exact ha
  | cons b r =>
    show (a ++ "/" ++ joinSlash (b :: r)).data ≠ []
    simp only [String.data_append]
    intro hcontra
    simp only [List.append_eq_nil] at hcontra
    exact absurd hcontra.1.2 (by decide)

theorem joinSlash_head (parts : List String) (a : String) (rest : List String)
    (h : parts = a :: rest) (ha : a.data ≠ []) :
    (joinSlash parts).data.head? = a.data.head? := by
  subst h
  cases rest with
  | nil => rfl
  | cons b r =>
    show (a ++ "/" ++ joinSlash (b :: r)).data.head? = _
    simp only [String.data_append, List.append_assoc, List.head?_append]
    cases hd : a.data with
    | nil => exact absurd hd ha
    | cons c cs => rfl

theorem fenRank_chars (b : Board) (R : Int) :
    ∀ c ∈ (fenRank b R).data, ¬c.isWhitespace ∧ c ≠ '/' := by
  rw [fenRank_eq_filesFrom, show (0 : Int) = ((0 : Nat) : Int) from rfl]
  exact fenRankAux_chars b R (filesFrom 0) 0 (by decide)

theorem fenRank_ne_nil (b : Board) (R : Int) : (fenRank b R).data ≠ [] := by
  rw [fenRank_eq_filesFrom, show (0 : Int) = ((0 : Nat) : Int) from rfl]
  exact fenRankAux_ne_nil b R (filesFrom 0) 0 (by decide) (Or.inr (by decide))

theorem ranksListEq (b : Board) :
    ([7, 6, 5, 4, 3, 2, 1, 0] : List Int).map (fenRank b) = ranksFrom b 0 := by
  unfold ranksFrom
  rw [show List.range (8 - 0) = [0, 1, 2, 3, 4, 5, 6, 7] from by decide]
  simp only [List.map_cons, List.map_nil]
  norm_num

theorem getD_replicate (j : Nat) :
    (List.replicate 64 emptyPiece).getD j emptyPiece = emptyPiece := by
  rw [List.getD_eq_getElem?_getD, List.getElem?_replicate]
  split_ifs <;> rfl

theorem list_eq_of_getD (l1 l2 : List Piece) (h1 : l1.length = 64) (h2 : l2.length = 64)
    (h : ∀ j, j < 64 → l1.getD j emptyPiece = l2.getD j emptyPiece) : l1 = l2 := by
  apply List.ext_getElem?
  intro m
  by_cases hm : m < 64
  · rw [List.getElem?_eq_getElem (by omega), List.getElem?_eq_getElem (by omega)]
    have := h m hm
    rw [List.getD_eq_getElem?_getD, List.getD_eq_getElem?_getD,
      List.getElem?_eq_getElem (by omega), List.getElem?_eq_getElem (by omega)] at this
    simpa using this
  · rw [List.getElem?_eq_none (by omega), List.getElem?_eq_none (by omega)]

theorem castling_rt (a b c d : Bool) :
    (if (if ((if a then "K" else "") ++ (if b then "Q" else "") ++
            (if c then "k" else "") ++ (if d then "q" else "")) = "" then "-"
         else ((if a then "K" else "") ++ (if b then "Q" else "") ++
            (if c then "k" else "") ++ (if d then "q" else ""))) = "-" then
      ((⟨false, false, false, false⟩ : CastlingRights), (none : Option String))
     else parseCastlingChars
        (if ((if a then "K" else "") ++ (if b then "Q" else "") ++
            (if c then "k" else "") ++ (if d then "q" else "")) = "" then "-"
         else ((if a then "K" else "") ++ (if b then "Q" else "") ++
            (if c then "k" else "") ++ (if d then "q" else ""))).data
        ⟨false, false, false, false⟩)
      = ((⟨a, b, c, d⟩ : CastlingRights), none) := by
  cases a <;> cases b <;> cases c <;> cases d <;> decide

theorem castlingStr_chunk (a b c d : Bool) :
    (if ((if a then "K" else "") ++ (if b then "Q" else "") ++
        (if c then "k" else "") ++ (if d then "q" else "")) = "" then "-"
     else ((if a then "K" else "") ++ (if b then "Q" else "") ++
        (if c then "k" else "") ++ (if d then "q" else ""))).data ≠ [] ∧
    ∀ ch ∈ (if ((if a then "K" else "") ++ (if b then "Q" else "") ++
        (if c then "k" else "") ++ (if d then "q" else "")) = "" then "-"
     else ((if a then "K" else "") ++ (if b then "Q" else "") ++
        (if c then "k" else "") ++ (if d then "q" else ""))).data,
      ¬ch.isWhitespace := by
  cases a <;> cases b <;> cases c <;> cases d <;> exact ⟨by decide, by decide⟩

theorem ToFEN_joinSpace (g : Game) :
    ToFEN g = joinSpace
      [joinSlash (([7, 6, 5, 4, 3, 2, 1, 0] : List Int).map (fenRank g.board)),
       (if g.activeColor = Color.White then "w" else "b"),
       (if ((if g.castlingRights.WhiteKingside then "K" else "") ++
            (if g.castlingRights.WhiteQueenside then "Q" else "") ++
            (if g.castlingRights.BlackKingside then "k" else "") ++
            (if g.castlingRights.BlackQueenside then "q" else "")) = "" then "-"
        else ((if g.castlingRights.WhiteKingside then "K" else "") ++
            (if g.castlingRights.WhiteQueenside then "Q" else "") ++
            (if g.castlingRights.BlackKingside then "k" else "") ++
            (if g.castlingRights.BlackQueenside then "q" else ""))),
       (if g.enPassantSquare = -1 then "-" else squareToString g.enPassantSquare),
       intToDecString g.halfMoveClock,
       intToDecString g.moveCount] := by
  simp only [ToFEN, joinSpace, String.append_assoc]

theorem ParseFEN_ToFEN (n : Nat) (g0 g : Game) (hWF : WFGame g) :
    ∃ g' : Game, ParseFEN n g0 (ToFEN g) = (g', none) ∧
      g'.board = g.board ∧ g'.activeColor = g.activeColor ∧
      g'.castlingRights = g.castlingRights ∧
      g'.enPassantSquare = g.enPassantSquare ∧
      g'.halfMoveClock = g.halfMoveClock ∧ g'.moveCount = g.moveCount := by
  obtain ⟨hblen, hWFp, hac, hep, hhm, hmc⟩ := hWF
  -- the six chunks of the emitted FEN
  set P := joinSlash (([7, 6, 5, 4, 3, 2, 1, 0] : List Int).map (fenRank g.board)) with hPdef
  set C := (if g.activeColor = Color.White then "w" else "b") with hCdef
  set CS := (if ((if g.castlingRights.WhiteKingside then "K" else "") ++
        (if g.castlingRights.WhiteQueenside then "Q" else "") ++
        (if g.castlingRights.BlackKingside then "k" else "") ++
        (if g.castlingRights.BlackQueenside then "q" else "")) = "" then "-"
      else ((if g.castlingRights.WhiteKingside then "K" else "") ++
        (if g.castlingRights.WhiteQueenside then "Q" else "") ++
        (if g.castlingRights.BlackKingside then "k" else "") ++
        (if g.castlingRights.BlackQueenside then "q" else ""))) with hCSdef
  set E := (if g.enPassantSquare = -1 then "-" else squareToString g.enPassantSquare) with hEdef
  set H := intToDecString g.halfMoveClock with hHdef
  set M := intToDecString g.moveCount with hMdef
  -- chunk facts
  have hmap : ([7, 6, 5, 4, 3, 2, 1, 0] : List Int).map (fenRank g.board)
      = fenRank g.board 7 :: ([6, 5, 4, 3, 2, 1, 0] : List Int).map (fenRank g.board) := rfl
  have hPne : P.data ≠ [] :=
    joinSlash_ne_nil _ _ _ hmap (fenRank_ne_nil g.board 7)
  have hPch : ∀ c ∈ P.data, ¬c.isWhitespace := by
    refine joinSlash_chars _ ?_
    intro s hs c hc
    rw [List.mem_map] at hs
    obtain ⟨R, _, rfl⟩ := hs
    exact (fenRank_chars g.board R c hc).1
  have hCfacts : C.data ≠ [] ∧ ∀ c ∈ C.data, ¬c.isWhitespace := by
    rw [hCdef]
    split_ifs <;> exact ⟨by decide, by decide⟩
  have hCSfacts : CS.data ≠ [] ∧ ∀ c ∈ CS.data, ¬c.isWhitespace := by
    rw [hCSdef]
    exact castlingStr_chunk _ _ _ _
  have hEfacts : E.data ≠ [] ∧ ∀ c ∈ E.data, ¬c.isWhitespace := by
    rw [hEdef]
    rcases hep with h | ⟨h1, h2⟩
    · rw [if_pos h]
      exact ⟨by decide, by decide⟩
    · rw [if_neg (by intro hc; rw [hc] at h1; exact absurd h1 (by decide))]
      obtain ⟨_, hlen2, hch⟩ := squareToString_roundtrip g.enPassantSquare h1 h2
      exact ⟨by intro hc; rw [hc] at hlen2; simp at hlen2,
        fun c hc => (hch c hc).1⟩
  have hHfacts := goAtoi_intToDecString g.halfMoveClock hhm
  have hMfacts := goAtoi_intToDecString g.moveCount (by omega)
  have hchunks : ∀ s ∈ [P, C, CS, E, H, M],
      s.data ≠ [] ∧ ∀ c ∈ s.data, ¬c.isWhitespace := by
    intro s hs
    simp only [List.mem_cons, List.not_mem_nil, or_false] at hs
    rcases hs with rfl | rfl | rfl | rfl | rfl | rfl
    · exact ⟨hPne, hPch⟩
    · exact hCfacts
    · exact hCSfacts
    · exact hEfacts
    · exact ⟨hHfacts.2.1, fun c hc => (hHfacts.2.2 c hc).1⟩
    · exact ⟨hMfacts.2.1, fun c hc => (hMfacts.2.2 c hc).1⟩
  have hToFEN : ToFEN g = joinSpace [P, C, CS, E, H, M] := ToFEN_joinSpace g
  have hTrim : goTrim (ToFEN g) = ToFEN g := by
    rw [hToFEN]
    refine goTrim_of _ ?_ ?_
    · intro c hc
      rw [joinSpace_head [P, C, CS, E, H, M] P [C, CS, E, H, M] rfl hPne] at hc
      have : c ∈ P.data := List.mem_of_mem_head? (by simp [hc])
      simpa using hPch c this
    · intro c hc
      rw [joinSpace_last [P, C, CS, E, H, M] (by simp)
        (fun s hs => (hchunks s hs).1)] at hc
      have hgl : ([P, C, CS, E, H, M].getLast (by simp)) = M := by simp
      rw [hgl] at hc
      have : c ∈ M.data := List.mem_of_mem_getLast? (by simp [hc])
      simpa using (hMfacts.2.2 c this).1
  have hFields : goFields (ToFEN g) = [P, C, CS, E, H, M] := by
    rw [hToFEN]
    exact goFields_joinSpace _ (by simp) hchunks
  have hSplit : splitOnSlash P = ranksFrom g.board 0 := by
    rw [hPdef, splitOnSlash_joinSlash _ (by rw [hmap]; simp) ?slashfree, ranksListEq]
    case slashfree =>
      intro s hs c hc
      rw [List.mem_map] at hs
      obtain ⟨R, _, rfl⟩ := hs
      exact (fenRank_chars g.board R c hc).2
  have hrlen : (ranksFrom g.board 0).length = 8 := by simp [ranksFrom]
  obtain ⟨bf, hplace, hbflen, hbfchar⟩ :=
    parseFENPlacement_inv g.board hblen hWFp 8 0 rfl ⟨List.replicate 64 emptyPiece⟩
      (by simp) (fun j hj1 hj2 => getD_replicate j)
  rw [Nat.cast_zero] at hplace
  have hboard : bf = g.board := by
    have hs : bf.squares = g.board.squares := by
      refine list_eq_of_getD _ _ hbflen hblen ?_
      intro j hj
      rw [hbfchar j hj, if_pos (by omega)]
    exact congrArg Board.mk hs
  have hCact : (if C = "w" then Color.White else Color.Black) = g.activeColor := by
    rcases hac with h | h <;> rw [hCdef, h] <;> decide
  have hCok : (C = "w" ∨ C = "b") := by
    rcases hac with h | h <;> rw [hCdef, h] <;> decide
  have hEfact : ∀ z : Int,
      (if E = "-" then ((-1 : Int), (none : Option String))
       else if E.data.length ≠ 2 then (z, some "invalid en-passant square")
       else match SquareFromString E with
         | Except.error _ => (z, some "invalid en-passant square")
         | Except.ok sq => (sq, none)) = (g.enPassantSquare, none) := by
    intro z
    rcases hep with h | ⟨h1, h2⟩
    · rw [hEdef, if_pos h]
      simp [h]
    · obtain ⟨hrt, hlen2, _⟩ := squareToString_roundtrip g.enPassantSquare h1 h2
      have hEeq : E = squareToString g.enPassantSquare := by
        rw [hEdef, if_neg (by intro hc; rw [hc] at h1; exact absurd h1 (by decide))]
      rw [hEeq, if_neg (by
        intro hcontra
        rw [hcontra] at hlen2
        simp at hlen2)]
      rw [if_neg (by omega), hrt]
  -- now drive ParseFEN
  have hHok : goAtoi H = Except.ok g.halfMoveClock := hHfacts.1
  have hMok : goAtoi M = Except.ok g.moveCount := hMfacts.1
  have hmain : ParseFEN n g0 (ToFEN g) =
      (updateGameStatus n
        ⟨g.board, g.activeColor, g.castlingRights, g.enPassantSquare,
         g.halfMoveClock, g.moveCount, [], GameStatus.InProgress, true, ToFEN g⟩,
       none) := by
    unfold ParseFEN
    rw [hTrim, hFields]
    rw [if_neg (by simp)]
    rw [show ([P, C, CS, E, H, M].getD 0 "") = P from rfl, hSplit]
    rw [if_neg (by simp [hrlen])]
    dsimp only
    rw [hplace]
    dsimp only
    rw [show ([P, C, CS, E, H, M].getD 1 "") = C from rfl]
    rw [if_neg (by simp [hCok])]
    rw [hCact, hboard]
    rw [show ([P, C, CS, E, H, M].getD 2 "") = CS from rfl]
    rw [hCSdef, castling_rt]
    dsimp only
    rw [show ([P, C, CS, E, H, M].getD 3 "") = E from rfl]
    rw [hEfact]
    dsimp only
    rw [show ([P, C, CS, E, H, M].getD 4 "") = H from rfl]
    rw [if_pos (by simp), hHok]
    dsimp only
    rw [if_neg (by omega)]
    dsimp only
    rw [show ([P, C, CS, E, H, M].getD 5 "") = M from rfl]
    rw [if_pos (by simp), hMok]
    dsimp only
    rw [if_neg (by omega)]
  refine ⟨_, hmain, ?_, ?_, ?_, ?_, ?_, ?_⟩
  · rw [updateGameStatus_board]
  · rw [updateGameStatus_activeColor]
  · rw [updateGameStatus_castlingRights]
  · rw [updateGameStatus_enPassantSquare]
  · rw [updateGameStatus_halfMoveClock]
  · rw [updateGameStatus_moveCount]

/-- A lifecycle base: either the standard starting position, or a position
successfully loaded from a FEN string into a fresh game. -/
def LoadedBase (n : Nat) (b : Game) : Prop :=
  b = NewGame ∨ ∃ fen : String, ParseFEN n NewGame fen = (b, none)

theorem LoadedBase_WF (n : Nat) (b : Game) (hb : LoadedBase n b) : WFGame b := by
  cases hb with
  | inl h =>
    subst h
    exact WFGame_NewGame
  | inr h =>
    obtain ⟨fen, hfen⟩ := h
    exact (ParseFEN_ok_spec n NewGame fen b hfen).1

theorem LoadedBase_fields (n : Nat) (b : Game) (hb : LoadedBase n b) :
    b.moveHistory = [] ∧
    (if b.startedFromFEN ∧ b.startingFEN ≠ "" then (ParseFEN n NewGame b.startingFEN).1
      else NewGame) = b := by
  cases hb with
  | inl h =>
    subst h
    refine ⟨rfl, ?_⟩
    rw [if_neg (fun hc => absurd hc.1 (by decide))]
  | inr h =>
    obtain ⟨fen, hfen⟩ := h
    obtain ⟨-, hmh, hsff, hsfen⟩ := ParseFEN_ok_spec n NewGame fen b hfen
    have hne : fen ≠ "" := by
      intro hc
      subst hc
      rw [ParseFEN_empty] at hfen
      exact absurd (congrArg Prod.snd hfen) (by simp)
    refine ⟨hmh, ?_⟩
    rw [if_pos ⟨hsff, by rw [hsfen]; exact hne⟩, hsfen, hfen]

theorem UndoMove_eq_base (n : Nat) (g b : Game) (ms : List Move) (m : Move)
    (hh : g.moveHistory = ms ++ [m])
    (hbase : (if g.startedFromFEN ∧ g.startingFEN ≠ "" then
        (ParseFEN n NewGame g.startingFEN).1 else NewGame) = b) :
    UndoMove n g = (replayIgnoringErrors n b ms, Except.ok m) := by
  unfold UndoMove
  rw [hh, show ((ms ++ [m]).getLast?) = some m from by simp]
  dsimp only
  rw [hbase, show (ms ++ [m]).dropLast = ms from by simp]

theorem UndoMove_of_apply (n : Nat) (b : Game) (ms : List Move) (m : Move) (g' : Game)
    (hb : LoadedBase n b)
    (h : applyMoves n b (ms ++ [m]) = some g') :
    ∃ gp, applyMoves n b ms = some gp ∧ UndoMove n g' = (gp, Except.ok m) := by
  rw [applyMoves_snoc n ms m b] at h
  cases hpre : applyMoves n b ms with
  | none => rw [hpre] at h; exact Option.noConfusion h
  | some gp =>
    rw [hpre] at h
    simp only [Option.some_bind] at h
    cases hm : MakeMove n gp m with
    | mk g2 err =>
      rw [hm] at h
      cases err with
      | some e => exact Option.noConfusion h
      | none =>
        simp only [Option.some.injEq] at h
        subst h
        refine ⟨gp, rfl, ?_⟩
        have hfields := applyMoves_fields n (ms ++ [m]) b g2 (by
          rw [applyMoves_snoc n ms m b, hpre, Option.some_bind, hm])
        obtain ⟨hhist, hsff, hsfen⟩ := hfields
        obtain ⟨hbmh, hbbase⟩ := LoadedBase_fields n b hb
        have h1 : g2.moveHistory = ms ++ [m] := by
          rw [hhist, hbmh]
          simp
        have h2 : (if g2.startedFromFEN ∧ g2.startingFEN ≠ "" then
            (ParseFEN n NewGame g2.startingFEN).1 else NewGame) = b := by
          rw [hsff, hsfen]
          exact hbbase
        rw [UndoMove_eq_base n g2 b ms m h1 h2, replay_eq_apply n ms b gp hpre]

/-- C1: from any lifecycle base — the standard starting position or a game
loaded from a FEN string accepted by `ParseFEN` — after any sequence of N
accepted moves, calling `UndoMove` N times removes and returns the moves
most-recent-first and restores the exact base state, hence the base's FEN;
calling `UndoMove` when the move history is empty fails with an error and
changes nothing.  (`UndoMove` is modelled from the spec; see its
definition.) -/
theorem c1_undo_restores (n : Nat) (b : Game) (ms : List Move) (g : Game)
    (hb : LoadedBase n b) (h : applyMoves n b ms = some g) :
    undoAll n g ms.length = (ms.reverse, b) ∧
    ToFEN (undoAll n g ms.length).2 = ToFEN b ∧
    (∀ g0 : Game, g0.moveHistory = [] →
      UndoMove n g0 = (g0, Except.error "no moves to undo")) := by
  refine ⟨?_, ?_, ?_⟩
  · induction ms using List.reverseRecOn generalizing g with
    | nil =>
      simp only [applyMoves, Option.some.injEq] at h
      subst h
      rfl
    | append_singleton ms m ih =>
      obtain ⟨gp, hgp, hundo⟩ := UndoMove_of_apply n b ms m g hb h
      rw [show (ms ++ [m]).length = ms.length + 1 by simp]
      simp only [undoAll, hundo]
      rw [ih gp hgp]
      simp
  · induction ms using List.reverseRecOn generalizing g with
    | nil =>
      simp only [applyMoves, Option.some.injEq] at h
      subst h
      rfl
    | append_singleton ms m ih =>
      obtain ⟨gp, hgp, hundo⟩ := UndoMove_of_apply n b ms m g hb h
      rw [show (ms ++ [m]).length = ms.length + 1 by simp]
      simp only [undoAll, hundo]
      exact ih gp hgp
  · intro g0 h0
    unfold UndoMove
    rw [h0]
    rfl

def c1wFEN : String := "4k3/8/8/8/8/8/4P3/4K3 w - - 0 1"

def c1wBase : Game := (ParseFEN 16 NewGame c1wFEN).1

def c1wMoves : List Move :=
  [⟨12, 20, MoveType.Normal, wPawn, emptyPiece, PieceType.Empty⟩,
   ⟨60, 59, MoveType.Normal, bKing, emptyPiece, PieceType.Empty⟩]

theorem c1_witness :
    LoadedBase 16 c1wBase ∧
    (applyMoves 16 c1wBase c1wMoves).isSome ∧
    undoAll 16 ((applyMoves 16 c1wBase c1wMoves).getD NewGame) c1wMoves.length =
      (c1wMoves.reverse, c1wBase) :=
  ⟨Or.inr ⟨c1wFEN, by decide⟩, by decide,
   (c1_undo_restores 16 c1wBase c1wMoves
     ((applyMoves 16 c1wBase c1wMoves).getD NewGame)
     (Or.inr ⟨c1wFEN, by decide⟩) (by decide)).1⟩

/-- C5: for every position reachable by legal play from a lifecycle base (the
standard start or any FEN-loaded game), parsing the emitted FEN `ToFEN g` into
a fresh game succeeds and reproduces an equal board, active color, castling
rights, en-passant target, half-move clock and full-move number; concretely,
after playing e2e4 e7e5 g1f3 b8c6 f1b5 a7a6 b5a4 g8f6 O-O from the start, the
FEN's castling field omits `K`, and round-tripping that FEN through a fresh
game yields the identical FEN string. -/
theorem c5_fen_roundtrip (n : Nat) (b g : Game) (toks : List String)
    (hb : LoadedBase n b) (h : playNotationList n b toks = some g) :
    (∃ g' : Game, ParseFEN n NewGame (ToFEN g) = (g', none) ∧
      g'.board = g.board ∧ g'.activeColor = g.activeColor ∧
      g'.castlingRights = g.castlingRights ∧
      g'.enPassantSquare = g.enPassantSquare ∧
      g'.halfMoveClock = g.halfMoveClock ∧ g'.moveCount = g.moveCount) ∧
    (playNotationList 6 NewGame
        ["e2e4", "e7e5", "g1f3", "b8c6", "f1b5", "a7a6", "b5a4", "g8f6", "O-O"]).map
      (fun gr =>
        (ToFEN gr,
         ToFEN (ParseFEN 6 NewGame (ToFEN gr)).1,
         decide ('K' ∈ ((goFields (ToFEN gr)).getD 2 "").data)))
      = some ("r1bqkb1r/1ppp1ppp/p1n2n2/4p3/B3P3/5N2/PPPP1PPP/RNBQ1RK1 b kq - 3 5",
              "r1bqkb1r/1ppp1ppp/p1n2n2/4p3/B3P3/5N2/PPPP1PPP/RNBQ1RK1 b kq - 3 5",
              false) := by
  refine ⟨?_, ruy_concrete_test⟩
  exact ParseFEN_ToFEN n NewGame g (playNotationList_WF n toks b g (LoadedBase_WF n b hb) h)

def c5wGame : Game := (playNotationList 6 NewGame ["e2e4"]).getD NewGame

theorem c5_witness :
    ((∃ g' : Game, ParseFEN 6 NewGame (ToFEN c5wGame) = (g', none) ∧
      g'.board = c5wGame.board ∧ g'.activeColor = c5wGame.activeColor ∧
      g'.castlingRights = c5wGame.castlingRights ∧
      g'.enPassantSquare = c5wGame.enPassantSquare ∧
      g'.halfMoveClock = c5wGame.halfMoveClock ∧ g'.moveCount = c5wGame.moveCount) ∧
    (playNotationList 6 NewGame
        ["e2e4", "e7e5", "g1f3", "b8c6", "f1b5", "a7a6", "b5a4", "g8f6", "O-O"]).map
      (fun gr =>
        (ToFEN gr,
         ToFEN (ParseFEN 6 NewGame (ToFEN gr)).1,
         decide ('K' ∈ ((goFields (ToFEN gr)).getD 2 "").data)))
      = some ("r1bqkb1r/1ppp1ppp/p1n2n2/4p3/B3P3/5N2/PPPP1PPP/RNBQ1RK1 b kq - 3 5",
              "r1bqkb1r/1ppp1ppp/p1n2n2/4p3/B3P3/5N2/PPPP1PPP/RNBQ1RK1 b kq - 3 5",
              false)) :=
  c5_fen_roundtrip 6 NewGame c5wGame ["e2e4"] (Or.inl rfl) (by decide)
